import Mathlib

/-!
# txtser: the textual archive reader and the value encoder

A shallow embedding of `txtser/rbuffer.go` and `txtser/encoder.go`.

Conventions of the embedding.

* A Go `string` / `[]byte` is a list of bytes; a byte is a natural number
  (every statement quantified over byte lists holds in particular for lists
  of numbers below 256).
* The source `r.r` of an `RBuffer` is an in-memory reader (`bytes.Reader`, as
  in the tests): the field holds the bytes that are still unread, `Read` on a
  one-byte buffer yields `(1, nil)` while bytes remain and `(0, io.EOF)` after
  that.  A nil reader is `none`.
* The sticky error slot `r.err` is an `Option Error`; `none` is Go's `nil`.
* A function returns `none` when the Go code panics (method call on a nil
  reader, `make` with a negative length), `some (result, state)` otherwise.
* `int` is the 64-bit signed integer of the usual platforms.
-/

namespace Txtser

/-- A Go string, as its byte sequence (each byte a natural number). -/
abbrev GoString := List Nat

/-- The identity of a `reflect.Type`. -/
abbrev ReflectType := String

/-- The two causes carried by a `*strconv.NumError`. -/
inductive NumErr
  | ErrSyntax
  | ErrRange
deriving DecidableEq, Repr

/-- The error values that can sit in a sticky error slot. -/
inductive Error
  | EOF
  | ErrUnexpectedEOF
  | ErrNotBoost
  | ErrInvalidHeader
  | ErrInvalidTypeDescr
  | ErrInvalidArrayLen
  | ErrTypeNotSupported
  | ErrNotADelimiter
  | NumError (Func : String) (Num : GoString) (Err : NumErr)
  | custom (msg : String)
deriving DecidableEq, Repr

/-- The text of `magicHeaderSignature`, "serialization::archive". -/
def magicHeaderSignature : GoString :=
  [115, 101, 114, 105, 97, 108, 105, 122, 97, 116, 105, 111, 110, 58, 58,
   97, 114, 99, 104, 105, 118, 101]

/-- The delimiter byte, one ASCII space. -/
def delim : Nat := 32

/-- The reader state `RBuffer`; `D` is the type of type descriptors.  The
scratch field `buf` is only used by code that is commented out. -/
structure RBuffer (D : Type) where
  r : Option (List Nat)
  err : Option Error
  arch : Nat
  types : List (ReflectType × D)
deriving DecidableEq, Repr

/-- The reader built by `NewRBuffer` over a given source. -/
def NewRBuffer {D : Type} (src : Option (List Nat)) : RBuffer D :=
  { r := src, err := none, arch := 0, types := [] }

/-! ## strconv -/

/-- The largest `uint64`. -/
def maxUint64 : Nat := 2 ^ 64 - 1

/-- The helper `lower(c)` of strconv: `c | ('x' - 'X')`. -/
def lower (c : Nat) : Nat := c ||| 32

/-- The digit loop of `strconv.ParseUint(s, 10, 64)`; `s0` is the whole
token, `n` the accumulator.  Arithmetic on `uint64` is taken mod 2^64. -/
def parseUintLoop (s0 : GoString) : List Nat → Nat → Nat × Option Error
  | [], n => (n, none)
  | c :: cs, n =>
    if 48 ≤ c ∧ c ≤ 57 then
      let d := c - 48
      if n ≥ maxUint64 / 10 + 1 then
        (maxUint64, some (Error.NumError "ParseUint" s0 NumErr.ErrRange))
      else
        let n10 := (n * 10) % 2 ^ 64
        let n1 := (n10 + d) % 2 ^ 64
        if n1 < n10 ∨ n1 > maxUint64 then
          (maxUint64, some (Error.NumError "ParseUint" s0 NumErr.ErrRange))
        else parseUintLoop s0 cs n1
    else if 97 ≤ lower c ∧ lower c ≤ 122 then
      let d := lower c - 97 + 10
      if d ≥ 10 then (0, some (Error.NumError "ParseUint" s0 NumErr.ErrSyntax))
      else (0, some (Error.NumError "ParseUint" s0 NumErr.ErrSyntax))
    else (0, some (Error.NumError "ParseUint" s0 NumErr.ErrSyntax))

/-- The function `strconv.ParseUint(s, 10, 64)`: value and error. -/
def ParseUint (s : GoString) : Nat × Option Error :=
  if s = [] then (0, some (Error.NumError "ParseUint" s NumErr.ErrSyntax))
  else parseUintLoop s s 0

/-- The conversion `int64(u)` of a `uint64`. -/
def toInt64 (u : Nat) : Int :=
  if u % 2 ^ 64 < 2 ^ 63 then ((u % 2 ^ 64 : Nat) : Int) else ((u % 2 ^ 64 : Nat) : Int) - 2 ^ 64

/-- The wrap of an integer to `w`-bit two's complement. -/
def wrapInt (w : Nat) (i : Int) : Int :=
  let m := i % (2 : Int) ^ w
  if m < (2 : Int) ^ (w - 1) then m else m - (2 : Int) ^ w

/-- The function `strconv.ParseInt(s, 10, 64)`: value and error. -/
def ParseInt (s : GoString) : Int × Option Error :=
  match s with
  | [] => (0, some (Error.NumError "ParseInt" s NumErr.ErrSyntax))
  | c :: cs =>
    let neg := decide (c = 45)
    let body := if c = 43 ∨ c = 45 then cs else s
    let (un, err) := ParseUint body
    match err with
    | some (Error.NumError _ _ NumErr.ErrSyntax) =>
      (0, some (Error.NumError "ParseInt" s NumErr.ErrSyntax))
    | _ =>
      let cutoff := 2 ^ 63
      if neg = false ∧ un ≥ cutoff then
        ((cutoff : Int) - 1, some (Error.NumError "ParseInt" s NumErr.ErrRange))
      else if neg = true ∧ un > cutoff then
        (-(cutoff : Int), some (Error.NumError "ParseInt" s NumErr.ErrRange))
      else
        let n := toInt64 un
        (if neg then wrapInt 64 (-n) else n, none)

/-! ## Floating point

`strconv.ParseFloat` and the conversion `float32(x)` are not modelled bit by
bit: the reader is parametrised by them. -/

/-- The floating-point operations the reader uses: the zero value, the
function `strconv.ParseFloat(s, 64)` and the conversion `float32(x)`, which
maps zero to zero. -/
structure FloatOps (F : Type) where
  zero : F
  ParseFloat : GoString → F × Option Error
  toFloat32 : F → F
  toFloat32_zero : toFloat32 zero = zero

/-- A stand-in for the floating-point operations, used in closed examples only:
the floats with an integral value, read by `ParseInt`, on which `float32(x)` is
taken to be exact. -/
def intFloatOps : FloatOps Int :=
  { zero := 0, ParseFloat := ParseInt, toFloat32 := id, toFloat32_zero := rfl }

/-! ## io and the runtime -/

/-- The constant `maxAlloc` of the Go runtime on 64-bit platforms: `makeslice`
panics when the size asked for is above it. -/
def maxAlloc : Nat := 2 ^ 48

/-- The function `io.ReadFull(src, buf)` on an in-memory source, for a buffer
of `n` bytes: the bytes copied into the buffer, the error, and the unread rest
of the source. -/
def readFull (src : List Nat) (n : Nat) : List Nat × Option Error × List Nat :=
  let got := src.take n
  let err :=
    if got.length ≥ n then none
    else if got.length > 0 then some Error.ErrUnexpectedEOF
    else some Error.EOF
  (got, err, src.drop n)

/-! ## rbuffer.go -/

section Reader

variable {D : Type}

/-- The method `RBuffer.Err`. -/
def RBuffer.Err (r : RBuffer D) : Option Error := r.err

/-- The loop of `readUntilDelimiter` on the unread bytes of a reader that, like
`bytes.Reader`, returns each byte with a nil error and reports the end of the
data by a call that returns no byte: the accumulated token `ret`, the value of
the variable `n` when the loop is left, and the unread rest.  At the end of the
source `Read` gives `n = 0` and an error; on a byte `Read` gives `n = 1`, which
`n++` turns into 2.  The loop over the calls of `Read` of any reader is
`readUntilDelimiterCalls`. -/
def readUntilDelimiterLoop : List Nat → GoString → GoString × Nat × List Nat
  | [], ret => (ret, 0, [])
  | b :: rest, ret =>
    if b = delim then (ret, 2, rest)
    else readUntilDelimiterLoop rest (ret ++ [b])

/-- The method `RBuffer.readUntilDelimiter`. -/
def RBuffer.readUntilDelimiter (r : RBuffer D) : Option (GoString × RBuffer D) :=
  if r.err ≠ none then some ([], r)
  else
    match r.r with
    | none => none
    | some src =>
      let out := readUntilDelimiterLoop src []
      if out.2.1 = 0 then
        some ([], { r with r := some out.2.2, err := some Error.ErrUnexpectedEOF })
      else some (out.1, { r with r := some out.2.2 })

/-- The method `RBuffer.ReadU64`. -/
def RBuffer.ReadU64 (r : RBuffer D) : Option (Nat × RBuffer D) :=
  if r.err ≠ none then some (0, r)
  else
    match r.readUntilDelimiter with
    | none => none
    | some (s, r1) =>
      if r1.err ≠ none then some (0, r1)
      else
        match ParseUint s with
        | (_, some e) => some (0, { r1 with err := some e })
        | (v, none) => some (v, r1)

/-- The method `RBuffer.ReadU8`. -/
def RBuffer.ReadU8 (r : RBuffer D) : Option (Nat × RBuffer D) :=
  (r.ReadU64).map (fun p => (p.1 % 2 ^ 8, p.2))

/-- The method `RBuffer.ReadU16`. -/
def RBuffer.ReadU16 (r : RBuffer D) : Option (Nat × RBuffer D) :=
  (r.ReadU64).map (fun p => (p.1 % 2 ^ 16, p.2))

/-- The method `RBuffer.ReadU32`. -/
def RBuffer.ReadU32 (r : RBuffer D) : Option (Nat × RBuffer D) :=
  (r.ReadU64).map (fun p => (p.1 % 2 ^ 32, p.2))

/-- The method `RBuffer.ReadBool`. -/
def RBuffer.ReadBool (r : RBuffer D) : Option (Bool × RBuffer D) :=
  (r.ReadU8).map (fun p => (if p.1 = 0 then false else true, p.2))

/-- The method `RBuffer.ReadI64`. -/
def RBuffer.ReadI64 (r : RBuffer D) : Option (Int × RBuffer D) :=
  if r.err ≠ none then some (0, r)
  else
    match r.readUntilDelimiter with
    | none => none
    | some (s, r1) =>
      if r1.err ≠ none then some (0, r1)
      else
        match ParseInt s with
        | (_, some e) => some (0, { r1 with err := some e })
        | (v, none) => some (v, r1)

/-- The method `RBuffer.ReadI8`. -/
def RBuffer.ReadI8 (r : RBuffer D) : Option (Int × RBuffer D) :=
  (r.ReadI64).map (fun p => (wrapInt 8 p.1, p.2))

/-- The method `RBuffer.ReadI16`. -/
def RBuffer.ReadI16 (r : RBuffer D) : Option (Int × RBuffer D) :=
  (r.ReadI64).map (fun p => (wrapInt 16 p.1, p.2))

/-- The method `RBuffer.ReadI32`. -/
def RBuffer.ReadI32 (r : RBuffer D) : Option (Int × RBuffer D) :=
  (r.ReadI64).map (fun p => (wrapInt 32 p.1, p.2))

/-- The method `RBuffer.ReadF64`. -/
def RBuffer.ReadF64 {F : Type} (fo : FloatOps F) (r : RBuffer D) : Option (F × RBuffer D) :=
  if r.err ≠ none then some (fo.zero, r)
  else
    match r.readUntilDelimiter with
    | none => none
    | some (s, r1) =>
      if r1.err ≠ none then some (fo.zero, r1)
      else
        match fo.ParseFloat s with
        | (_, some e) => some (fo.zero, { r1 with err := some e })
        | (v, none) => some (v, r1)

/-- The method `RBuffer.ReadF32`. -/
def RBuffer.ReadF32 {F : Type} (fo : FloatOps F) (r : RBuffer D) : Option (F × RBuffer D) :=
  (r.ReadF64 fo).map (fun p => (fo.toFloat32 p.1, p.2))

/-- The method `RBuffer.ReadC64`: real part, then imaginary part. -/
def RBuffer.ReadC64 {F : Type} (fo : FloatOps F) (r : RBuffer D) :
    Option ((F × F) × RBuffer D) :=
  match r.ReadF32 fo with
  | none => none
  | some (v0, r1) =>
    match r1.ReadF32 fo with
    | none => none
    | some (v1, r2) => some ((v0, v1), r2)

/-- The method `RBuffer.ReadC128`: real part, then imaginary part. -/
def RBuffer.ReadC128 {F : Type} (fo : FloatOps F) (r : RBuffer D) :
    Option ((F × F) × RBuffer D) :=
  match r.ReadF64 fo with
  | none => none
  | some (v0, r1) =>
    match r1.ReadF64 fo with
    | none => none
    | some (v1, r2) => some ((v0, v1), r2)

/-- The method `RBuffer.Read` for a buffer `p` of `len` bytes: the bytes
copied into `p`, the count `n`, the returned error, and the reader.
`io.ReadFull` does not call the source when `len` is 0. -/
def RBuffer.Read (r : RBuffer D) (len : Nat) :
    Option ((List Nat × Nat × Option Error) × RBuffer D) :=
  if r.err ≠ none then some (([], 0, r.err), r)
  else if len = 0 then some (([], 0, none), r)
  else
    match r.r with
    | none => none
    | some src =>
      let out := readFull src len
      some ((out.1, out.1.length, out.2.1), { r with r := some out.2.2, err := out.2.1 })

/-- The method `RBuffer.readLen`: the token as an `int`. -/
def RBuffer.readLen (r : RBuffer D) : Option (Int × RBuffer D) :=
  if r.arch = 32 then (r.ReadU32).map (fun p => (toInt64 p.1, p.2))
  else (r.ReadU64).map (fun p => (toInt64 p.1, p.2))

/-- The method `RBuffer.skipDelimiter`. -/
def RBuffer.skipDelimiter (r : RBuffer D) : Option (RBuffer D) :=
  match r.r with
  | none => none
  | some [] => some r
  | some (b :: rest) =>
    if b ≠ delim then some { r with r := some rest, err := some Error.ErrNotADelimiter }
    else some { r with r := some rest }

/-- The method `RBuffer.ReadString` on a runtime that can still grant `mem`
bytes.  The call `make([]byte, n)` does not return when `n` is negative or
above `maxAlloc` (the panic "makeslice: len out of range") or above `mem` (the
process dies out of memory); otherwise the buffer `raw` has `n` zero bytes
before `io.ReadFull` fills its front. -/
def RBuffer.ReadStringMem (mem : Nat) (r : RBuffer D) : Option (GoString × RBuffer D) :=
  match r.readLen with
  | none => none
  | some (n, r1) =>
    if n = 0 ∨ r1.err ≠ none then some ([], r1)
    else if n < 0 ∨ (maxAlloc : Int) < n ∨ (mem : Int) < n then none
    else
      match r1.r with
      | none => none
      | some src =>
        let out := readFull src n.toNat
        let raw := out.1 ++ List.replicate (n.toNat - out.1.length) 0
        match RBuffer.skipDelimiter { r1 with r := some out.2.2, err := out.2.1 } with
        | none => none
        | some r2 => some (raw, r2)

/-- The method `RBuffer.ReadString`, on a runtime that grants every request
`makeslice` lets through. -/
def RBuffer.ReadString (r : RBuffer D) : Option (GoString × RBuffer D) :=
  r.ReadStringMem maxAlloc

/-- The method `RBuffer.ReadHeader`.  `zeroHdr` is the zero `Header` and
`unmarshal` is `Header.UnmarshalBoost` applied to it, which is declared
outside these sources; the error that method returns is dropped by the
caller. -/
def RBuffer.ReadHeader {H : Type} (zeroHdr : H)
    (unmarshal : RBuffer D → Option (H × RBuffer D)) (r : RBuffer D) :
    Option (H × RBuffer D) :=
  if r.r = none then some (zeroHdr, { r with err := some Error.ErrNotBoost })
  else if r.err ≠ none then some (zeroHdr, r)
  else
    match r.ReadString with
    | none => none
    | some (v, r1) =>
      if r1.err ≠ none then some (zeroHdr, { r1 with err := some Error.ErrNotBoost })
      else if v ≠ magicHeaderSignature then
        some (zeroHdr, { r1 with err := some Error.ErrNotBoost })
      else
        match unmarshal r1 with
        | none => none
        | some (hdr, r2) =>
          if r2.err ≠ none then some (hdr, { r2 with err := some Error.ErrInvalidHeader })
          else some (hdr, r2)

/-- The method `RBuffer.ReadTypeDescr`.  `unmarshal` is
`TypeDescr.UnmarshalBoost` applied to the zero descriptor, which is declared
outside these sources. -/
def RBuffer.ReadTypeDescr (unmarshal : RBuffer D → Option (D × RBuffer D))
    (r : RBuffer D) (typ : ReflectType) : Option (D × RBuffer D) :=
  match r.types.lookup typ with
  | some dtype => some (dtype, r)
  | none =>
    match unmarshal r with
    | none => none
    | some (dtype, r1) =>
      match r1.err with
      | none => some (dtype, { r1 with types := (typ, dtype) :: r1.types })
      | some _ => some (dtype, { r1 with err := some Error.ErrInvalidTypeDescr })

end Reader


/-! ## Header fields

`Header` and `Header.UnmarshalBoost` are declared outside these sources; the
method `ReadHeader` above takes the decoder as a parameter.  The definitions
of this section give the decoders the spec describes, one for each layout. -/

/-- Modelled from the spec: the kinds of field of a header ("version numbers,
tracking flags"), each decoded by one numeric read of the primitive reader;
the declaration of `Header` is not among the sources. -/
inductive HeaderField
  | U8 | U16 | U32 | U64 | I8 | I16 | I32 | I64 | Bool
deriving DecidableEq, Repr

section HeaderFields

variable {D : Type}

/-- Modelled from the spec: the read of one header field with the primitive
reader, the value given as an integer (0 or 1 for a flag); the body of
`Header.UnmarshalBoost` is not among the sources. -/
def RBuffer.readField (r : RBuffer D) : HeaderField → Option (Int × RBuffer D)
  | HeaderField.U8 => (r.ReadU8).map (fun p => ((p.1 : Int), p.2))
  | HeaderField.U16 => (r.ReadU16).map (fun p => ((p.1 : Int), p.2))
  | HeaderField.U32 => (r.ReadU32).map (fun p => ((p.1 : Int), p.2))
  | HeaderField.U64 => (r.ReadU64).map (fun p => ((p.1 : Int), p.2))
  | HeaderField.I8 => r.ReadI8
  | HeaderField.I16 => r.ReadI16
  | HeaderField.I32 => r.ReadI32
  | HeaderField.I64 => r.ReadI64
  | HeaderField.Bool => (r.ReadBool).map (fun p => ((if p.1 then 1 else 0 : Int), p.2))

/-- Modelled from the spec: `Header.UnmarshalBoost` for a header whose
fixed layout is the given list of fields, "decoded using the primitive
reader": the fields are read one after the other; the body of the method is
not among the sources. -/
def RBuffer.readFields : List HeaderField → RBuffer D → Option (List Int × RBuffer D)
  | [], r => some ([], r)
  | f :: fs, r =>
    match r.readField f with
    | none => none
    | some (v, r1) =>
      match RBuffer.readFields fs r1 with
      | none => none
      | some (vs, r2) => some (v :: vs, r2)

end HeaderFields

/-! ## encoder.go

The `WBuffer` the encoder writes to, `Header`, `zeroHdr`, `Arch.Header`,
`isCxxBoostBuiltin` and the `Marshaler` interface are declared outside these
sources: the encoder is parametrised by them.  A Go value handed to `Encode`
is a term of `Value`; a floating-point number is carried as its IEEE bit
pattern. -/

/-- The kinds of `reflect.Kind`. -/
inductive Kind
  | Invalid | Bool | Int | Int8 | Int16 | Int32 | Int64
  | Uint | Uint8 | Uint16 | Uint32 | Uint64 | Uintptr
  | Float32 | Float64 | Complex64 | Complex128
  | Array | Chan | Func | Interface | Map | Pointer | Slice | String | Struct
  | UnsafePointer
deriving DecidableEq, Repr

/-- The calls the encoder makes on its `WBuffer`, with their arguments. -/
inductive WCall (H : Type)
  | WriteString (s : GoString)
  | WriteHeader (h : H)
  | WriteBool (b : Bool)
  | WriteI8 (v : Int)
  | WriteI16 (v : Int)
  | WriteI32 (v : Int)
  | WriteI64 (v : Int)
  | WriteU8 (v : Nat)
  | WriteU16 (v : Nat)
  | WriteU32 (v : Nat)
  | WriteU64 (v : Nat)
  | WriteF32 (bits : Nat)
  | WriteF64 (bits : Nat)
  | WriteC64 (re im : Nat)
  | WriteC128 (re im : Nat)
  | WriteTypeDescr (rt : ReflectType)
  | writeLen (n : Int)
deriving DecidableEq, Repr

/-- What the encoder uses of the declarations outside these sources: the error
slot `w.err` of a `WBuffer`, the effect of each call on it, the header
`w.arch.Header()` of its profile, the zero header `zeroHdr`, and the predicate
`isCxxBoostBuiltin`. -/
structure WBufferOps (W H : Type) where
  err : W → Option Error
  call : WCall H → W → W
  archHeader : W → H
  zeroHdr : H
  isCxxBoostBuiltin : Kind → Bool

/-- A Go value as `Encode` receives it.  `nil` is the nil interface; a nil
pointer is `pointer nil`; `iface` is an interface variable and occurs only as
the target of a pointer; a struct lists its fields in declared order, each with
the flag "exported"; a slice or array carries the kind of its element type; a
map lists its entries in the order `MapKeys` returns them; `marshaler f v` is
the value `v` of a type with the method `MarshalBoost`, the method being `f`. -/
inductive Value (W : Type)
  | nil
  | bool (b : Bool)
  | int (v : Int)
  | int8 (v : Int)
  | int16 (v : Int)
  | int32 (v : Int)
  | int64 (v : Int)
  | uint (v : Nat)
  | uint8 (v : Nat)
  | uint16 (v : Nat)
  | uint32 (v : Nat)
  | uint64 (v : Nat)
  | uintptr (v : Nat)
  | float32 (bits : Nat)
  | float64 (bits : Nat)
  | complex64 (re im : Nat)
  | complex128 (re im : Nat)
  | string (s : GoString)
  | struct (rt : ReflectType) (fields : List (Bool × Value W))
  | slice (rt : ReflectType) (elem : Kind) (elems : List (Value W))
  | array (rt : ReflectType) (elem : Kind) (elems : List (Value W))
  | map (rt : ReflectType) (entries : List (Value W × Value W))
  | pointer (target : Value W)
  | iface (dynamic : Value W)
  | chan
  | func
  | unsafePointer
  | marshaler (MarshalBoost : W → Option Error × W) (v : Value W)

section EncoderDefs

variable {W H : Type}

/-- The kind `reflect.ValueOf(v).Kind()`. -/
def Value.kind : Value W → Kind
  | Value.nil => Kind.Invalid
  | Value.bool _ => Kind.Bool
  | Value.int _ => Kind.Int
  | Value.int8 _ => Kind.Int8
  | Value.int16 _ => Kind.Int16
  | Value.int32 _ => Kind.Int32
  | Value.int64 _ => Kind.Int64
  | Value.uint _ => Kind.Uint
  | Value.uint8 _ => Kind.Uint8
  | Value.uint16 _ => Kind.Uint16
  | Value.uint32 _ => Kind.Uint32
  | Value.uint64 _ => Kind.Uint64
  | Value.uintptr _ => Kind.Uintptr
  | Value.float32 _ => Kind.Float32
  | Value.float64 _ => Kind.Float64
  | Value.complex64 _ _ => Kind.Complex64
  | Value.complex128 _ _ => Kind.Complex128
  | Value.string _ => Kind.String
  | Value.struct _ _ => Kind.Struct
  | Value.slice _ _ _ => Kind.Slice
  | Value.array _ _ _ => Kind.Array
  | Value.map _ _ => Kind.Map
  | Value.pointer _ => Kind.Pointer
  | Value.iface _ => Kind.Interface
  | Value.chan => Kind.Chan
  | Value.func => Kind.Func
  | Value.unsafePointer => Kind.UnsafePointer
  | Value.marshaler _ v => v.kind

/-- The method `MarshalBoost` in the method set of the dynamic type of `v`, if
it has one: the method of the type of `v` itself, and, for a pointer to a value
of a type that has the method and is neither a pointer nor an interface type,
the method of that type (the method set of `*T` holds the methods of `T`). -/
def Value.marshalBoost : Value W → Option (W → Option Error × W)
  | Value.marshaler f _ => some f
  | Value.pointer (Value.marshaler f v) =>
    if v.kind = Kind.Pointer ∨ v.kind = Kind.Interface then none else some f
  | _ => none

/-- The test `v.(Marshaler)`. -/
def Value.isMarshaler (v : Value W) : Bool := v.marshalBoost.isSome

/-- The value `reflect.Indirect(reflect.ValueOf(v))`: the target of a pointer,
the value itself otherwise. -/
def Value.indirect : Value W → Value W
  | Value.pointer t => t
  | v => v

/-- The encoder state `Encoder`; `hdr` tells whether the `sync.Once` has
fired. -/
structure Encoder (W H : Type) where
  w : W
  Header : H
  hdr : Bool

/-- One call on the `WBuffer` of the encoder. -/
def Encoder.put (ops : WBufferOps W H) (c : WCall H) (enc : Encoder W H) : Encoder W H :=
  { enc with w := ops.call c enc.w }

/-- The method `Encoder.writeHeader`. -/
def Encoder.writeHeader [DecidableEq H] (ops : WBufferOps W H) (enc : Encoder W H) :
    Encoder W H :=
  let enc1 := if enc.Header = ops.zeroHdr then { enc with Header := ops.archHeader enc.w }
    else enc
  let enc2 := enc1.put ops (WCall.WriteString magicHeaderSignature)
  enc2.put ops (WCall.WriteHeader enc1.Header)

/-- The statement `enc.hdr.Do(enc.writeHeader)`. -/
def Encoder.hdrDo [DecidableEq H] (ops : WBufferOps W H) (enc : Encoder W H) : Encoder W H :=
  if enc.hdr then enc else { enc.writeHeader ops with hdr := true }

/-- The opening of `Encode`, before the switch: the once-only header write and
the check of the error slot, then the rest `k` of the method.  With
`switchOnly` set the opening is skipped: that is the state of `Encode` once
`reflect.Indirect` has stepped through a pointer. -/
def Encoder.enter [DecidableEq H] (ops : WBufferOps W H) (switchOnly : Bool)
    (enc : Encoder W H) (k : Encoder W H → Option (Option Error × Encoder W H)) :
    Option (Option Error × Encoder W H) :=
  if switchOnly then k enc
  else
    let enc1 := enc.hdrDo ops
    if ops.err enc1.w ≠ none then some (ops.err enc1.w, enc1) else k enc1

/-- The closing `return enc.w.err` of `Encode`. -/
def Encoder.ret (ops : WBufferOps W H) (enc : Encoder W H) :
    Option (Option Error × Encoder W H) :=
  some (ops.err enc.w, enc)

mutual

/-- The method `Encoder.Encode`, as `Encode ops false enc v`.  With `switchOnly`
set it is the switch of the method on `rv.Kind()` alone, entered for the target
`rv` of a pointer that is not a `Marshaler`.  The result is `none` when
`Field(i).Interface()` panics on an unexported field. -/
def Encoder.Encode [DecidableEq H] (ops : WBufferOps W H) (switchOnly : Bool)
    (enc : Encoder W H) : Value W → Option (Option Error × Encoder W H)
  | Value.marshaler f v =>
    if switchOnly then Encoder.Encode ops true enc v
    else Encoder.enter ops false enc (fun e =>
      let out := f e.w
      some (out.1, { e with w := out.2 }))
  | Value.pointer t =>
    if switchOnly then some (some Error.ErrTypeNotSupported, enc)
    else Encoder.enter ops false enc (fun e =>
      match (Value.pointer t).marshalBoost with
      | some f =>
        let out := f e.w
        some (out.1, { e with w := out.2 })
      | none => Encoder.Encode ops true e t)
  | Value.bool b =>
    Encoder.enter ops switchOnly enc (fun e => (e.put ops (WCall.WriteBool b)).ret ops)
  | Value.int8 v =>
    Encoder.enter ops switchOnly enc (fun e =>
      (e.put ops (WCall.WriteI8 (wrapInt 8 v))).ret ops)
  | Value.int16 v =>
    Encoder.enter ops switchOnly enc (fun e =>
      (e.put ops (WCall.WriteI16 (wrapInt 16 v))).ret ops)
  | Value.int32 v =>
    Encoder.enter ops switchOnly enc (fun e =>
      (e.put ops (WCall.WriteI32 (wrapInt 32 v))).ret ops)
  | Value.int64 v =>
    Encoder.enter ops switchOnly enc (fun e => (e.put ops (WCall.WriteI64 v)).ret ops)
  | Value.uint8 v =>
    Encoder.enter ops switchOnly enc (fun e =>
      (e.put ops (WCall.WriteU8 (v % 2 ^ 8))).ret ops)
  | Value.uint16 v =>
    Encoder.enter ops switchOnly enc (fun e =>
      (e.put ops (WCall.WriteU16 (v % 2 ^ 16))).ret ops)
  | Value.uint32 v =>
    Encoder.enter ops switchOnly enc (fun e =>
      (e.put ops (WCall.WriteU32 (v % 2 ^ 32))).ret ops)
  | Value.uint64 v =>
    Encoder.enter ops switchOnly enc (fun e => (e.put ops (WCall.WriteU64 v)).ret ops)
  | Value.float32 x =>
    Encoder.enter ops switchOnly enc (fun e => (e.put ops (WCall.WriteF32 x)).ret ops)
  | Value.float64 x =>
    Encoder.enter ops switchOnly enc (fun e => (e.put ops (WCall.WriteF64 x)).ret ops)
  | Value.complex64 re im =>
    Encoder.enter ops switchOnly enc (fun e => (e.put ops (WCall.WriteC64 re im)).ret ops)
  | Value.complex128 re im =>
    Encoder.enter ops switchOnly enc (fun e => (e.put ops (WCall.WriteC128 re im)).ret ops)
  | Value.string s =>
    Encoder.enter ops switchOnly enc (fun e => (e.put ops (WCall.WriteString s)).ret ops)
  | Value.struct rt fields =>
    Encoder.enter ops switchOnly enc (fun e =>
      match Encoder.encodeFields ops (e.put ops (WCall.WriteTypeDescr rt)) fields with
      | none => none
      | some e1 => e1.ret ops)
  | Value.slice rt elem elems =>
    Encoder.enter ops switchOnly enc (fun e =>
      let e1 := e.put ops (WCall.WriteTypeDescr rt)
      let e2 := e1.put ops (WCall.writeLen elems.length)
      let e3 := if ops.isCxxBoostBuiltin elem = false then e2.put ops (WCall.WriteU32 0)
        else e2
      match Encoder.encodeElems ops e3 elems with
      | none => none
      | some e4 => e4.ret ops)
  | Value.array rt _ elems =>
    Encoder.enter ops switchOnly enc (fun e =>
      let e1 := e.put ops (WCall.WriteTypeDescr rt)
      let e2 := e1.put ops (WCall.writeLen elems.length)
      match Encoder.encodeElems ops e2 elems with
      | none => none
      | some e3 => e3.ret ops)
  | Value.map rt entries =>
    Encoder.enter ops switchOnly enc (fun e =>
      let e1 := e.put ops (WCall.WriteTypeDescr rt)
      let e2 := e1.put ops (WCall.writeLen entries.length)
      let e3 := e2.put ops (WCall.WriteU64 0)
      let e4 := e3.put ops (WCall.WriteU8 0)
      match Encoder.encodeEntries ops e4 entries with
      | none => none
      | some e5 => e5.ret ops)
  | Value.nil =>
    Encoder.enter ops switchOnly enc (fun e => some (some Error.ErrTypeNotSupported, e))
  | Value.int _ =>
    Encoder.enter ops switchOnly enc (fun e => some (some Error.ErrTypeNotSupported, e))
  | Value.uint _ =>
    Encoder.enter ops switchOnly enc (fun e => some (some Error.ErrTypeNotSupported, e))
  | Value.uintptr _ =>
    Encoder.enter ops switchOnly enc (fun e => some (some Error.ErrTypeNotSupported, e))
  | Value.iface _ =>
    Encoder.enter ops switchOnly enc (fun e => some (some Error.ErrTypeNotSupported, e))
  | Value.chan =>
    Encoder.enter ops switchOnly enc (fun e => some (some Error.ErrTypeNotSupported, e))
  | Value.func =>
    Encoder.enter ops switchOnly enc (fun e => some (some Error.ErrTypeNotSupported, e))
  | Value.unsafePointer =>
    Encoder.enter ops switchOnly enc (fun e => some (some Error.ErrTypeNotSupported, e))

/-- The loop of `Encode` over the fields of a struct: `enc.Encode` on
`rv.Field(i).Interface()`, the returned error being dropped. -/
def Encoder.encodeFields [DecidableEq H] (ops : WBufferOps W H) (enc : Encoder W H) :
    List (Bool × Value W) → Option (Encoder W H)
  | [] => some enc
  | (exported, v) :: rest =>
    if exported = false then none
    else
      match Encoder.Encode ops false enc v with
      | none => none
      | some (_, e1) => Encoder.encodeFields ops e1 rest

/-- The loop of `Encode` over the elements of a slice or array: `enc.Encode`
on `rv.Index(i).Interface()`, the returned error being dropped. -/
def Encoder.encodeElems [DecidableEq H] (ops : WBufferOps W H) (enc : Encoder W H) :
    List (Value W) → Option (Encoder W H)
  | [] => some enc
  | v :: rest =>
    match Encoder.Encode ops false enc v with
    | none => none
    | some (_, e1) => Encoder.encodeElems ops e1 rest

/-- The loop of `Encode` over the entries of a map: `enc.Encode` on the key,
then on the value, the returned errors being dropped. -/
def Encoder.encodeEntries [DecidableEq H] (ops : WBufferOps W H) (enc : Encoder W H) :
    List (Value W × Value W) → Option (Encoder W H)
  | [] => some enc
  | (k, v) :: rest =>
    match Encoder.Encode ops false enc k with
    | none => none
    | some (_, e1) =>
      match Encoder.Encode ops false e1 v with
      | none => none
      | some (_, e2) => Encoder.encodeEntries ops e2 rest

end

end EncoderDefs

/-! ## A recording `WBuffer` -/

/-- Modelled from the spec: a `WBuffer`, of which only the callers are among
the sources, reduced to what the spec says of its sticky error slot ("once
set, subsequent calls return zero-valued results without touching the
underlying sink"): it records the calls made on it, in order, while no error
is latched. -/
structure Recorder (H : Type) where
  calls : List (WCall H)
  err : Option Error
deriving DecidableEq, Repr

/-- Modelled from the spec: the operations of the recording `WBuffer`, for a
profile whose default header is `archHdr`; `builtin` stands for
`isCxxBoostBuiltin`, which is declared outside these sources. -/
def recorderOps {H : Type} (zeroHdr archHdr : H) (builtin : Kind → Bool) :
    WBufferOps (Recorder H) H :=
  { err := fun w => w.err
    call := fun c w => if w.err ≠ none then w else { w with calls := w.calls ++ [c] }
    archHeader := fun _ => archHdr
    zeroHdr := zeroHdr
    isCxxBoostBuiltin := builtin }

/-- Modelled from the spec: one call on the recording `WBuffer`, the same
function as the field `call` of `recorderOps`. -/
def Recorder.call {H : Type} (c : WCall H) (w : Recorder H) : Recorder H :=
  if w.err ≠ none then w else { w with calls := w.calls ++ [c] }

/-- The method `manimal.MarshalBoost` of the tests (decoder_test.go), on the
recording `WBuffer`: the descriptor of the type `animal`, then the name, the
legs and the tails, and `w.Err()` as result. -/
def manimalMarshalBoost {H : Type} (name : GoString) (legs tails : Int) (w : Recorder H) :
    Option Error × Recorder H :=
  let w1 := Recorder.call (WCall.WriteTypeDescr "animal") w
  let w2 := Recorder.call (WCall.WriteString name) w1
  let w3 := Recorder.call (WCall.WriteI16 legs) w2
  let w4 := Recorder.call (WCall.WriteI8 tails) w3
  (w4.err, w4)

/-- A fresh encoder over an empty recording `WBuffer`, with the header the
caller left in `Encoder.Header`. -/
def freshEncoder {H : Type} (header : H) : Encoder (Recorder H) H :=
  { w := { calls := [], err := none }, Header := header, hdr := false }

/-! ## Predicates on calls and on the methods inside a value -/

/-- Whether a call on the `WBuffer` is `WriteHeader`. -/
def WCall.isWriteHeader {H : Type} : WCall H → Bool
  | WCall.WriteHeader _ => true
  | _ => false

section ValuePredicates

variable {W : Type}

mutual

/-- Every `MarshalBoost` method inside a value satisfies `P`. -/
def Value.marshalersAll (P : (W → Option Error × W) → Prop) : Value W → Prop
  | Value.marshaler f v => P f ∧ Value.marshalersAll P v
  | Value.pointer t => Value.marshalersAll P t
  | Value.iface d => Value.marshalersAll P d
  | Value.struct _ fields => Value.fieldsAll P fields
  | Value.slice _ _ elems => Value.elemsAll P elems
  | Value.array _ _ elems => Value.elemsAll P elems
  | Value.map _ entries => Value.entriesAll P entries
  | _ => True

/-- Every `MarshalBoost` method inside the fields of a struct satisfies `P`. -/
def Value.fieldsAll (P : (W → Option Error × W) → Prop) : List (Bool × Value W) → Prop
  | [] => True
  | (_, v) :: rest => Value.marshalersAll P v ∧ Value.fieldsAll P rest

/-- Every `MarshalBoost` method inside a list of values satisfies `P`. -/
def Value.elemsAll (P : (W → Option Error × W) → Prop) : List (Value W) → Prop
  | [] => True
  | v :: rest => Value.marshalersAll P v ∧ Value.elemsAll P rest

/-- Every `MarshalBoost` method inside the entries of a map satisfies `P`. -/
def Value.entriesAll (P : (W → Option Error × W) → Prop) : List (Value W × Value W) → Prop
  | [] => True
  | (k, v) :: rest =>
    Value.marshalersAll P k ∧ Value.marshalersAll P v ∧ Value.entriesAll P rest

end

end ValuePredicates

/-- The recording `WBuffer` holds the calls `pre` followed by calls none of
which is `WriteHeader`. -/
def Recorder.startsWith {H : Type} (pre : List (WCall H)) (w : Recorder H) : Prop :=
  ∃ tail, w.calls = pre ++ tail ∧ ∀ c ∈ tail, c.isWriteHeader = false

/-! ## Readers that return a byte together with an error

The sources of `RBuffer` above are those of `bytes.Reader`.  The contract of
`io.Reader` also lets a call of `Read` return its last byte together with
`io.EOF`, return no byte and no error, or fail with another error.  The token
loop and the numeric reads built on it are given here over the results of the
successive calls `r.r.Read(b)` of any reader. -/

/-- The result `(n, err)` of one call `r.r.Read(b)` on the one-byte buffer `b`:
the byte stored when `n` is 1, nothing when `n` is 0, and the error. -/
structure ReadResult where
  byte : Option Nat
  err : Option Error
deriving DecidableEq, Repr

/-- The results of the calls of `Read` on a reader like `bytes.Reader` that
holds the bytes `src`: each byte with a nil error; past the listed results every
call returns no byte and `io.EOF`. -/
def ReadResult.ofBytes (src : List Nat) : List ReadResult :=
  src.map (fun b => { byte := some b, err := none })

/-- The loop of `readUntilDelimiter` over the results of the calls of `Read`:
the accumulated token `ret`, the value of the variable `n` when the loop is
left, and the results of the calls not made yet.  A call that returns an error
leaves the loop before `n++` and before the byte in `b` is looked at; a call
that stores nothing leaves the zero byte in `b`. -/
def readUntilDelimiterCalls : List ReadResult → GoString → GoString × Nat × List ReadResult
  | [], ret => (ret, 0, [])
  | res :: rest, ret =>
    if res.err ≠ none then (ret, (if res.byte = none then 0 else 1), rest)
    else if res.byte.getD 0 = delim then (ret, (if res.byte = none then 0 else 1) + 1, rest)
    else readUntilDelimiterCalls rest (ret ++ [res.byte.getD 0])

/-- The method `RBuffer.readUntilDelimiter` on a reader with no latched error,
over the results of the calls of `Read`: the token, the error latched, and the
results of the calls not made yet. -/
def readUntilDelimiterOf (src : List ReadResult) : GoString × Option Error × List ReadResult :=
  let out := readUntilDelimiterCalls src []
  if out.2.1 = 0 then ([], some Error.ErrUnexpectedEOF, out.2.2)
  else (out.1, none, out.2.2)

/-- The method `RBuffer.ReadU64` on a reader with no latched error, over the
results of the calls of `Read`. -/
def ReadU64Of (src : List ReadResult) : Nat × Option Error × List ReadResult :=
  let t := readUntilDelimiterOf src
  if t.2.1 ≠ none then (0, t.2.1, t.2.2)
  else
    match ParseUint t.1 with
    | (_, some e) => (0, some e, t.2.2)
    | (v, none) => (v, none, t.2.2)

/-- The method `RBuffer.ReadI64` on a reader with no latched error, over the
results of the calls of `Read`. -/
def ReadI64Of (src : List ReadResult) : Int × Option Error × List ReadResult :=
  let t := readUntilDelimiterOf src
  if t.2.1 ≠ none then (0, t.2.1, t.2.2)
  else
    match ParseInt t.1 with
    | (_, some e) => (0, some e, t.2.2)
    | (v, none) => (v, none, t.2.2)

/-- The method `RBuffer.ReadF64` on a reader with no latched error, over the
results of the calls of `Read`. -/
def ReadF64Of {F : Type} (fo : FloatOps F) (src : List ReadResult) :
    F × Option Error × List ReadResult :=
  let t := readUntilDelimiterOf src
  if t.2.1 ≠ none then (fo.zero, t.2.1, t.2.2)
  else
    match fo.ParseFloat t.1 with
    | (_, some e) => (fo.zero, some e, t.2.2)
    | (v, none) => (v, none, t.2.2)

/-! ## Streams of the tests -/

/-- The streams "64b archives" of `TestInvalidArchive` (decoder_test.go): the
byte 0x16 and seven zero bytes, the 22 bytes of the signature, and the bytes
that follow. -/
def binaryArchive64 (tail : List Nat) : List Nat :=
  [22, 0, 0, 0, 0, 0, 0, 0] ++ magicHeaderSignature ++ tail

/-- The streams "32b archives" of `TestInvalidArchive` (decoder_test.go): the
byte 0x16 and three zero bytes, the 22 bytes of the signature, and the bytes
that follow. -/
def binaryArchive32 (tail : List Nat) : List Nat :=
  [22, 0, 0, 0] ++ magicHeaderSignature ++ tail

/-! ## Decimal text -/

/-- An ASCII decimal digit. -/
def isDigit (c : Nat) : Prop := 48 ≤ c ∧ c ≤ 57

instance (c : Nat) : Decidable (isDigit c) := by
  unfold isDigit
  exact inferInstance

/-- The number a run of decimal digits denotes, read from the left on top of
the value `n` already read. -/
def decValue (n : Nat) (cs : List Nat) : Nat :=
  cs.foldl (fun a c => a * 10 + (c - 48)) n

/-- The base-10 digits of `v` as ASCII text, most significant first, without
leading zeros ("0" for zero). -/
def decimal (v : Nat) : GoString :=
  if v = 0 then [48] else (Nat.digits 10 v).reverse.map (fun d => d + 48)

/-- The text of a signed integer: a minus sign for a negative value, then the
base-10 digits of its magnitude. -/
def decimalInt (v : Int) : GoString :=
  if v < 0 then 45 :: decimal v.natAbs else decimal v.natAbs

/-- The bytes of a text given as a Lean string of ASCII characters. -/
def bytes (s : String) : List Nat := s.toList.map Char.toNat

/-! # Theorems -/

section ReaderLemmas

/-! ## Lemmas on the token loop -/

theorem readUntilDelimiterLoop_no_delim (src : List Nat) (acc : GoString)
    (h : delim ∉ src) : readUntilDelimiterLoop src acc = (acc ++ src, 0, []) := by
  induction src generalizing acc with
  | nil => simp [readUntilDelimiterLoop]
  | cons b rest ih =>
    have hb : b ≠ delim := fun e => h (by simp [e])
    have hr : delim ∉ rest := fun e => h (List.mem_cons_of_mem _ e)
    simp [readUntilDelimiterLoop, hb, ih _ hr]

theorem readUntilDelimiterLoop_delim (t rest : List Nat) (acc : GoString)
    (h : delim ∉ t) :
    readUntilDelimiterLoop (t ++ delim :: rest) acc = (acc ++ t, 2, rest) := by
  induction t generalizing acc with
  | nil => simp [readUntilDelimiterLoop]
  | cons b t ih =>
    have hb : b ≠ delim := fun e => h (by simp [e])
    have hr : delim ∉ t := fun e => h (List.mem_cons_of_mem _ e)
    simp [readUntilDelimiterLoop, hb, ih _ hr]

theorem split_at_delim (src : List Nat) :
    delim ∉ src ∨ ∃ t rest, src = t ++ delim :: rest ∧ delim ∉ t := by
  induction src with
  | nil => left; simp
  | cons b rest ih =>
    by_cases hb : b = delim
    · right; exact ⟨[], rest, by simp [hb], by simp⟩
    · rcases ih with h | ⟨t, rest', he, ht⟩
      · left
        intro hm
        rcases List.mem_cons.mp hm with h1 | h1
        · exact hb h1.symm
        · exact h h1
      · right
        refine ⟨b :: t, rest', by simp [he], ?_⟩
        intro hm
        rcases List.mem_cons.mp hm with h1 | h1
        · exact hb h1.symm
        · exact ht h1

variable {D : Type}

theorem readUntilDelimiter_latched (r : RBuffer D) (h : r.err ≠ none) :
    r.readUntilDelimiter = some ([], r) := by
  simp [RBuffer.readUntilDelimiter, h]

theorem readUntilDelimiter_no_delim (r : RBuffer D) (src : List Nat)
    (he : r.err = none) (hs : r.r = some src) (h : delim ∉ src) :
    r.readUntilDelimiter
      = some ([], { r with r := some [], err := some Error.ErrUnexpectedEOF }) := by
  simp [RBuffer.readUntilDelimiter, he, hs, readUntilDelimiterLoop_no_delim src [] h]

theorem readUntilDelimiter_delim (r : RBuffer D) (t rest : List Nat)
    (he : r.err = none) (hs : r.r = some (t ++ delim :: rest)) (h : delim ∉ t) :
    r.readUntilDelimiter = some (t, { r with r := some rest }) := by
  simp [RBuffer.readUntilDelimiter, he, hs, readUntilDelimiterLoop_delim t rest [] h]

theorem ReadU64_latched (r : RBuffer D) (h : r.err ≠ none) : r.ReadU64 = some (0, r) := by
  simp [RBuffer.ReadU64, h]

theorem ReadI64_latched (r : RBuffer D) (h : r.err ≠ none) : r.ReadI64 = some (0, r) := by
  simp [RBuffer.ReadI64, h]

theorem ReadF64_latched {F : Type} (fo : FloatOps F) (r : RBuffer D) (h : r.err ≠ none) :
    r.ReadF64 fo = some (fo.zero, r) := by
  simp [RBuffer.ReadF64, h]

theorem ReadU64_no_delim (r : RBuffer D) (src : List Nat)
    (he : r.err = none) (hs : r.r = some src) (h : delim ∉ src) :
    r.ReadU64 = some (0, { r with r := some [], err := some Error.ErrUnexpectedEOF }) := by
  simp [RBuffer.ReadU64, he, readUntilDelimiter_no_delim r src he hs h]

theorem ReadI64_no_delim (r : RBuffer D) (src : List Nat)
    (he : r.err = none) (hs : r.r = some src) (h : delim ∉ src) :
    r.ReadI64 = some (0, { r with r := some [], err := some Error.ErrUnexpectedEOF }) := by
  simp [RBuffer.ReadI64, he, readUntilDelimiter_no_delim r src he hs h]

theorem ReadF64_no_delim {F : Type} (fo : FloatOps F) (r : RBuffer D) (src : List Nat)
    (he : r.err = none) (hs : r.r = some src) (h : delim ∉ src) :
    r.ReadF64 fo
      = some (fo.zero, { r with r := some [], err := some Error.ErrUnexpectedEOF }) := by
  simp [RBuffer.ReadF64, he, readUntilDelimiter_no_delim r src he hs h]

/-- The unsigned read of a delimited token, in terms of `ParseUint`. -/
theorem ReadU64_delim (r : RBuffer D) (t rest : List Nat)
    (he : r.err = none) (hs : r.r = some (t ++ delim :: rest)) (h : delim ∉ t) :
    r.ReadU64 =
      match ParseUint t with
      | (_, some e) => some (0, { r with r := some rest, err := some e })
      | (v, none) => some (v, { r with r := some rest }) := by
  simp only [RBuffer.ReadU64, he, readUntilDelimiter_delim r t rest he hs h]
  simp

theorem ReadI64_delim (r : RBuffer D) (t rest : List Nat)
    (he : r.err = none) (hs : r.r = some (t ++ delim :: rest)) (h : delim ∉ t) :
    r.ReadI64 =
      match ParseInt t with
      | (_, some e) => some (0, { r with r := some rest, err := some e })
      | (v, none) => some (v, { r with r := some rest }) := by
  simp only [RBuffer.ReadI64, he, readUntilDelimiter_delim r t rest he hs h]
  simp


end ReaderLemmas

theorem two_pow_64 : (2 : Nat) ^ 64 = 18446744073709551616 := by norm_num

theorem maxUint64_eq : maxUint64 = 18446744073709551615 := by norm_num [maxUint64]

theorem decValue_ge (cs : List Nat) (n : Nat) : n ≤ decValue n cs := by
  induction cs generalizing n with
  | nil => simp [decValue]
  | cons c cs ih =>
    have h := ih (n * 10 + (c - 48))
    simp only [decValue, List.foldl_cons] at h ⊢
    omega

theorem decValue_cons (c : Nat) (cs : List Nat) (n : Nat) :
    decValue n (c :: cs) = decValue (n * 10 + (c - 48)) cs := by
  simp [decValue]

/-- The digit loop of `ParseUint` on an accumulator below 2^64: it returns the
denoted value when the text is all digits and the value fits, and a
`NumError` of `ParseUint` carrying the whole token otherwise. -/
theorem parseUintLoop_spec (s0 : GoString) (cs : List Nat) (n : Nat) (hn : n < 2 ^ 64) :
    ((∀ c ∈ cs, isDigit c) ∧ decValue n cs < 2 ^ 64 →
      parseUintLoop s0 cs n = (decValue n cs, none)) ∧
    (¬ ((∀ c ∈ cs, isDigit c) ∧ decValue n cs < 2 ^ 64) →
      ∃ v e, parseUintLoop s0 cs n = (v, some (Error.NumError "ParseUint" s0 e))) := by
  induction cs generalizing n with
  | nil =>
    constructor
    · intro _; simp [parseUintLoop, decValue]
    · intro h; exact absurd ⟨by simp, by simpa [decValue] using hn⟩ h
  | cons c cs ih =>
    rw [two_pow_64] at hn
    have hge := decValue_ge cs (n * 10 + (c - 48))
    by_cases hc : 48 ≤ c ∧ c ≤ 57
    · obtain ⟨hc1, hc2⟩ := hc
      have hc : 48 ≤ c ∧ c ≤ 57 := ⟨hc1, hc2⟩
      by_cases hcut : n ≥ maxUint64 / 10 + 1
      · -- n * 10 overflows
        have hcut2 := hcut
        rw [maxUint64_eq] at hcut2
        have hbig : ¬ decValue n (c :: cs) < 2 ^ 64 := by
          rw [decValue_cons, two_pow_64]
          omega
        constructor
        · intro h; exact absurd h.2 hbig
        · intro _
          refine ⟨maxUint64, NumErr.ErrRange, ?_⟩
          simp only [parseUintLoop, if_pos hc, if_pos hcut]
      · have hcut2 := hcut
        rw [maxUint64_eq] at hcut2
        have hn10 : (n * 10) % 2 ^ 64 = n * 10 := by
          rw [two_pow_64]
          exact Nat.mod_eq_of_lt (by omega)
        by_cases hov : n * 10 + (c - 48) < 18446744073709551616
        · have hn1 : (n * 10 + (c - 48)) % 2 ^ 64 = n * 10 + (c - 48) := by
            rw [two_pow_64]; exact Nat.mod_eq_of_lt hov
          have hstep : parseUintLoop s0 (c :: cs) n
              = parseUintLoop s0 cs (n * 10 + (c - 48)) := by
            have h1 : ¬ (n * 10 + (c - 48) < n * 10 ∨ n * 10 + (c - 48) > maxUint64) := by
              rw [maxUint64_eq]; omega
            simp only [parseUintLoop, if_pos hc, if_neg hcut, hn10, hn1, if_neg h1]
          have ih' := ih (n * 10 + (c - 48)) (by rw [two_pow_64]; exact hov)
          rw [hstep, decValue_cons]
          constructor
          · intro h
            exact ih'.1 ⟨fun x hx => h.1 x (List.mem_cons_of_mem _ hx), h.2⟩
          · intro h
            apply ih'.2
            intro h'
            apply h
            refine ⟨?_, h'.2⟩
            intro x hx
            rcases List.mem_cons.mp hx with h1 | h1
            · rw [h1]; exact hc
            · exact h'.1 x h1
        · have hbig : ¬ decValue n (c :: cs) < 2 ^ 64 := by
            rw [decValue_cons, two_pow_64]
            omega
          have hn1 : (n * 10 + (c - 48)) % 2 ^ 64
              = n * 10 + (c - 48) - 18446744073709551616 := by
            rw [two_pow_64]; omega
          constructor
          · intro h; exact absurd h.2 hbig
          · intro _
            have h1 : (n * 10 + (c - 48) - 18446744073709551616 < n * 10 ∨
                n * 10 + (c - 48) - 18446744073709551616 > maxUint64) := by
              left; omega
            refine ⟨maxUint64, NumErr.ErrRange, ?_⟩
            simp only [parseUintLoop, if_pos hc, if_neg hcut, hn10, hn1, if_pos h1]
    · have hnd : ¬ (∀ x ∈ c :: cs, isDigit x) := by
        intro h; exact hc (h c (by simp))
      constructor
      · intro h; exact absurd h.1 hnd
      · intro _
        refine ⟨0, NumErr.ErrSyntax, ?_⟩
        simp only [parseUintLoop, if_neg hc]
        split <;> simp

/-- The function `ParseUint` against the grammar of unsigned tokens. -/
theorem ParseUint_spec (t : GoString) :
    (t ≠ [] ∧ (∀ c ∈ t, isDigit c) ∧ decValue 0 t < 2 ^ 64 →
      ParseUint t = (decValue 0 t, none)) ∧
    (¬ (t ≠ [] ∧ (∀ c ∈ t, isDigit c) ∧ decValue 0 t < 2 ^ 64) →
      ∃ v e, ParseUint t = (v, some (Error.NumError "ParseUint" t e))) := by
  by_cases ht : t = []
  · subst ht
    constructor
    · intro h; exact absurd rfl h.1
    · intro _; exact ⟨0, NumErr.ErrSyntax, by simp [ParseUint]⟩
  · have hs := parseUintLoop_spec t t 0 (by norm_num)
    have hP : ParseUint t = parseUintLoop t t 0 := by simp [ParseUint, ht]
    rw [hP]
    constructor
    · intro h; exact hs.1 h.2
    · intro h; exact hs.2 (fun h' => h ⟨ht, h'⟩)

theorem decimal_isDigit (v : Nat) : ∀ c ∈ decimal v, isDigit c := by
  intro c hc
  unfold decimal at hc
  split at hc
  · simp at hc; subst hc; simp [isDigit]
  · simp only [List.mem_map, List.mem_reverse] at hc
    obtain ⟨d, hd, rfl⟩ := hc
    have := Nat.digits_lt_base (by norm_num : 1 < 10) hd
    simp only [isDigit]
    omega

theorem decimal_ne_nil (v : Nat) : decimal v ≠ [] := by
  unfold decimal
  split
  · simp
  · rename_i h
    simp [Nat.digits_ne_nil_iff_ne_zero, h]

theorem delim_not_mem_decimal (v : Nat) : delim ∉ decimal v := by
  intro h
  have := decimal_isDigit v _ h
  simp [isDigit, delim] at this

theorem decValue_decimal (v : Nat) : decValue 0 (decimal v) = v := by
  unfold decimal
  split
  · rename_i h; simp [decValue, h]
  · simp only [decValue, List.foldl_map, List.foldl_reverse, Nat.add_sub_cancel]
    conv_rhs => rw [← Nat.ofDigits_digits 10 v]
    generalize Nat.digits 10 v = L
    induction L with
    | nil => simp [Nat.ofDigits]
    | cons d L ih =>
      simp only [List.foldr_cons, Nat.ofDigits_cons, ih]
      ring

theorem ParseUint_decimal (v : Nat) (hv : v < 2 ^ 64) : ParseUint (decimal v) = (v, none) := by
  have h := (ParseUint_spec (decimal v)).1
    ⟨decimal_ne_nil v, decimal_isDigit v, by rw [decValue_decimal]; exact hv⟩
  rw [decValue_decimal] at h
  exact h

theorem decimal_head_digit (v : Nat) : ∃ c cs, decimal v = c :: cs ∧ isDigit c := by
  have hne := decimal_ne_nil v
  have hd := decimal_isDigit v
  cases h : decimal v with
  | nil => exact absurd h hne
  | cons c cs => exact ⟨c, cs, rfl, hd c (by simp [h])⟩

theorem toInt64_of_lt (u : Nat) (h : u < 2 ^ 63) : toInt64 u = (u : Int) := by
  have h64 : u % 2 ^ 64 = u := Nat.mod_eq_of_lt (by
    have : (2:Nat) ^ 63 < 2 ^ 64 := by norm_num
    omega)
  rw [toInt64, h64, if_pos h]

/-- The function `ParseInt` on a minus sign followed by a text that
`ParseUint` accepts with a value of at most 2^63. -/
theorem ParseInt_neg_aux (body : GoString) (un : Nat) (h : ParseUint body = (un, none))
    (hle : un ≤ 2 ^ 63) :
    ParseInt (45 :: body) = (wrapInt 64 (-(toInt64 un)), none) := by
  have hgt : ¬ (un > 2 ^ 63) := by omega
  simp only [ParseInt]
  simp [h]
  omega

/-- The function `ParseInt` on an unsigned text that `ParseUint` accepts with
a value below 2^63. -/
theorem ParseInt_pos_aux (c : Nat) (cs : List Nat) (un : Nat) (hc : isDigit c)
    (h : ParseUint (c :: cs) = (un, none)) (hlt : un < 2 ^ 63) :
    ParseInt (c :: cs) = (toInt64 un, none) := by
  have hge : ¬ (un ≥ 2 ^ 63) := by omega
  have hge' : ¬ (2 ^ 63 ≤ un) := hge
  have h43 : c ≠ 43 := by simp only [isDigit] at hc; omega
  have h45 : c ≠ 45 := by simp only [isDigit] at hc; omega
  simp only [ParseInt]
  simp [h, h43, h45]
  omega

theorem ParseInt_decimalInt (v : Int) (hlo : -(2 : Int) ^ 63 ≤ v) (hhi : v < (2 : Int) ^ 63) :
    ParseInt (decimalInt v) = (v, none) := by
  have hpow : (2 : Int) ^ 63 = ((2 ^ 63 : Nat) : Int) := by norm_num
  have h6364 : (2:Nat) ^ 63 < 2 ^ 64 := by norm_num
  by_cases hneg : v < 0
  · have hab : v.natAbs ≤ 2 ^ 63 := by omega
    have hP := ParseUint_decimal v.natAbs (by omega)
    simp only [decimalInt, if_pos hneg]
    rw [ParseInt_neg_aux _ _ hP hab]
    congr 1
    by_cases he : v.natAbs = 2 ^ 63
    · have hv : v = -(2 : Int) ^ 63 := by omega
      rw [he, hv]
      decide
    · have hlt : v.natAbs < 2 ^ 63 := by omega
      rw [toInt64_of_lt _ hlt]
      have hv : -(v.natAbs : Int) = v := by omega
      rw [hv]
      have h1 : v % (2 : Int) ^ 64 = v + 2 ^ 64 := by
        norm_num at hlo ⊢
        omega
      simp only [wrapInt, h1]
      have h2 : ¬ (v + (2 : Int) ^ 64 < 2 ^ (64 - 1)) := by norm_num at hlo ⊢; omega
      simp only [if_neg h2]
      ring
  · have hab : v.natAbs < 2 ^ 63 := by omega
    have hP := ParseUint_decimal v.natAbs (by omega)
    obtain ⟨c, cs, hcs, hdig⟩ := decimal_head_digit v.natAbs
    simp only [decimalInt, if_neg hneg]
    rw [hcs] at hP ⊢
    rw [ParseInt_pos_aux c cs _ hdig hP hab, toInt64_of_lt _ hab]
    congr 1
    omega

section ReaderFacts

variable {D : Type}

theorem ReadU32_latched (r : RBuffer D) (h : r.err ≠ none) : r.ReadU32 = some (0, r) := by
  simp [RBuffer.ReadU32, ReadU64_latched r h]

theorem readLen_latched (r : RBuffer D) (h : r.err ≠ none) : r.readLen = some (0, r) := by
  unfold RBuffer.readLen
  split <;> simp [ReadU32_latched r h, ReadU64_latched r h, toInt64]

theorem ReadString_latched (r : RBuffer D) (h : r.err ≠ none) :
    r.ReadString = some ([], r) := by
  simp [RBuffer.ReadString, RBuffer.ReadStringMem, readLen_latched r h]

theorem readLen_no_delim (r : RBuffer D) (src : List Nat)
    (he : r.err = none) (hs : r.r = some src) (h : delim ∉ src) :
    r.readLen = some (0, { r with r := some [], err := some Error.ErrUnexpectedEOF }) := by
  unfold RBuffer.readLen
  split <;> simp [RBuffer.ReadU32, ReadU64_no_delim r src he hs h, toInt64]

theorem ReadString_no_delim (r : RBuffer D) (src : List Nat)
    (he : r.err = none) (hs : r.r = some src) (h : delim ∉ src) :
    r.ReadString = some ([], { r with r := some [], err := some Error.ErrUnexpectedEOF }) := by
  simp [RBuffer.ReadString, RBuffer.ReadStringMem, readLen_no_delim r src he hs h]

end ReaderFacts

/-- Claim C1.  On a reader with no latched error, `ReadHeader` returns the
zero header and latches exactly `ErrNotBoost` when the source is nil, when it
is empty, when it holds no delimiter at all (such as "boost"), and whenever
the leading `ReadString` returns with an error latched or with a string other
than the magic signature. -/
theorem C1_ReadHeader_NotBoost {D H : Type} (zeroHdr : H)
    (unmarshal : RBuffer D → Option (H × RBuffer D)) (r : RBuffer D)
    (he : r.err = none)
    (hbad : r.r = none ∨ r.r = some [] ∨ (∃ src, r.r = some src ∧ delim ∉ src) ∨
      ∃ v r1, r.ReadString = some (v, r1) ∧ (r1.err ≠ none ∨ v ≠ magicHeaderSignature)) :
    ∃ r', r.ReadHeader zeroHdr unmarshal = some (zeroHdr, r') ∧
      r'.err = some Error.ErrNotBoost := by
  have key : ∀ v r1, r.r ≠ none → r.ReadString = some (v, r1) →
      (r1.err ≠ none ∨ v ≠ magicHeaderSignature) →
      ∃ r', r.ReadHeader zeroHdr unmarshal = some (zeroHdr, r') ∧
        r'.err = some Error.ErrNotBoost := by
    intro v r1 hsrc hrs hor
    by_cases h1 : r1.err ≠ none
    · exact ⟨{ r1 with err := some Error.ErrNotBoost }, by
        simp only [RBuffer.ReadHeader, if_neg hsrc, he, hrs, if_pos h1]; simp, rfl⟩
    · have hv : v ≠ magicHeaderSignature := hor.resolve_left h1
      exact ⟨{ r1 with err := some Error.ErrNotBoost }, by
        simp only [RBuffer.ReadHeader, if_neg hsrc, he, hrs, if_neg h1, if_pos hv]; simp, rfl⟩
  rcases hbad with h | h | ⟨src, hs, hd⟩ | ⟨v, r1, hrs, hor⟩
  · exact ⟨{ r with err := some Error.ErrNotBoost }, by simp [RBuffer.ReadHeader, h], rfl⟩
  · exact key _ _ (by simp [h]) (ReadString_no_delim r [] he h (by simp)) (Or.inl (by simp))
  · exact key _ _ (by simp [hs]) (ReadString_no_delim r src he hs hd) (Or.inl (by simp))
  · by_cases hsrc : r.r = none
    · exact ⟨{ r with err := some Error.ErrNotBoost }, by simp [RBuffer.ReadHeader, hsrc], rfl⟩
    · exact key v r1 hsrc hrs hor

/-- The source "boost" of the test suite, read by a fresh reader: no
delimiter, hence `ErrNotBoost`. -/
theorem C1_ReadHeader_NotBoost_witness :
    (NewRBuffer (some (bytes "boost")) : RBuffer Unit).err = none ∧
    ((NewRBuffer (some (bytes "boost")) : RBuffer Unit).r = none ∨
      (NewRBuffer (some (bytes "boost")) : RBuffer Unit).r = some [] ∨
      (∃ src, (NewRBuffer (some (bytes "boost")) : RBuffer Unit).r = some src ∧ delim ∉ src) ∨
      ∃ v r1, (NewRBuffer (some (bytes "boost")) : RBuffer Unit).ReadString = some (v, r1) ∧
        (r1.err ≠ none ∨ v ≠ magicHeaderSignature)) ∧
    ∃ r', (NewRBuffer (some (bytes "boost")) : RBuffer Unit).ReadHeader ()
        (fun r => some ((), r)) = some ((), r') ∧ r'.err = some Error.ErrNotBoost :=
  ⟨rfl, Or.inr (Or.inr (Or.inl ⟨bytes "boost", rfl, by decide⟩)),
    C1_ReadHeader_NotBoost () (fun r => some ((), r)) (NewRBuffer (some (bytes "boost"))) rfl
      (Or.inr (Or.inr (Or.inl ⟨bytes "boost", rfl, by decide⟩)))⟩

/-- Claim C3.  With an error latched, every primitive read returns the zero
value of its result type and the reader unchanged: no byte is consumed and the
latched error stays (`Read` returns 0 bytes and the latched error). -/
theorem C3_latched_reads_are_noops {D F : Type} (fo : FloatOps F) (r : RBuffer D)
    (e : Error) (len : Nat) (h : r.err = some e) :
    r.Read len = some (([], 0, some e), r) ∧
    r.ReadString = some ([], r) ∧
    r.ReadBool = some (false, r) ∧
    r.ReadU8 = some (0, r) ∧ r.ReadU16 = some (0, r) ∧
    r.ReadU32 = some (0, r) ∧ r.ReadU64 = some (0, r) ∧
    r.ReadI8 = some (0, r) ∧ r.ReadI16 = some (0, r) ∧
    r.ReadI32 = some (0, r) ∧ r.ReadI64 = some (0, r) ∧
    r.ReadF32 fo = some (fo.zero, r) ∧ r.ReadF64 fo = some (fo.zero, r) ∧
    r.ReadC64 fo = some ((fo.zero, fo.zero), r) ∧
    r.ReadC128 fo = some ((fo.zero, fo.zero), r) := by
  have hne : r.err ≠ none := by simp [h]
  have hU := ReadU64_latched r hne
  have hI := ReadI64_latched r hne
  have hF := ReadF64_latched fo r hne
  have hF32 : r.ReadF32 fo = some (fo.zero, r) := by
    simp [RBuffer.ReadF32, hF, fo.toFloat32_zero]
  refine ⟨?_, ReadString_latched r hne, ?_, ?_, ?_, ?_, hU, ?_, ?_, ?_, hI, hF32, hF, ?_, ?_⟩
  · simp [RBuffer.Read, h]
  · simp [RBuffer.ReadBool, RBuffer.ReadU8, hU]
  · simp [RBuffer.ReadU8, hU]
  · simp [RBuffer.ReadU16, hU]
  · simp [RBuffer.ReadU32, hU]
  · simp [RBuffer.ReadI8, hI, wrapInt]
  · simp [RBuffer.ReadI16, hI, wrapInt]
  · simp [RBuffer.ReadI32, hI, wrapInt]
  · simp [RBuffer.ReadC64, hF32]
  · simp [RBuffer.ReadC128, hF]

/-- A reader over "12 34 " with `ErrNotADelimiter` latched: all reads leave it
as it is. -/
theorem C3_latched_reads_are_noops_witness :
    ({ r := some (bytes "12 34 "), err := some Error.ErrNotADelimiter, arch := 0,
       types := [] } : RBuffer Unit).err = some Error.ErrNotADelimiter ∧
    ({ r := some (bytes "12 34 "), err := some Error.ErrNotADelimiter, arch := 0,
       types := [] } : RBuffer Unit).ReadU64
      = some (0, { r := some (bytes "12 34 "), err := some Error.ErrNotADelimiter,
                   arch := 0, types := [] }) ∧
    ({ r := some (bytes "12 34 "), err := some Error.ErrNotADelimiter, arch := 0,
       types := [] } : RBuffer Unit).ReadString
      = some ([], { r := some (bytes "12 34 "), err := some Error.ErrNotADelimiter,
                    arch := 0, types := [] }) :=
  ⟨rfl,
    (C3_latched_reads_are_noops intFloatOps
      ({ r := some (bytes "12 34 "), err := some Error.ErrNotADelimiter, arch := 0,
         types := [] } : RBuffer Unit) Error.ErrNotADelimiter 4 rfl).2.2.2.2.2.2.1,
    (C3_latched_reads_are_noops intFloatOps
      ({ r := some (bytes "12 34 "), err := some Error.ErrNotADelimiter, arch := 0,
         types := [] } : RBuffer Unit) Error.ErrNotADelimiter 4 rfl).2.1⟩

/-- On a reader like `bytes.Reader`, with no latched error, whose source holds
no space byte, `ReadU64`, `ReadI64` and `ReadF64` return 0, latch
`io.ErrUnexpectedEOF` and leave the source exhausted, whatever bytes it held. -/
theorem numeric_read_without_delimiter {D F : Type} (fo : FloatOps F) (r : RBuffer D)
    (src : List Nat) (he : r.err = none) (hs : r.r = some src) (hd : delim ∉ src) :
    r.ReadU64 = some (0, { r with r := some [], err := some Error.ErrUnexpectedEOF }) ∧
    r.ReadI64 = some (0, { r with r := some [], err := some Error.ErrUnexpectedEOF }) ∧
    r.ReadF64 fo
      = some (fo.zero, { r with r := some [], err := some Error.ErrUnexpectedEOF }) :=
  ⟨ReadU64_no_delim r src he hs hd, ReadI64_no_delim r src he hs hd,
    ReadF64_no_delim fo r src he hs hd⟩

section ReaderRoundTrip

variable {D : Type}

theorem delim_not_mem_decimalInt (v : Int) : delim ∉ decimalInt v := by
  unfold decimalInt
  split
  · intro h
    rcases List.mem_cons.mp h with h1 | h1
    · simp [delim] at h1
    · exact delim_not_mem_decimal _ h1
  · exact delim_not_mem_decimal _

theorem ReadU64_decimal (r : RBuffer D) (v : Nat) (rest : List Nat) (hv : v < 2 ^ 64)
    (he : r.err = none) (hs : r.r = some (decimal v ++ delim :: rest)) :
    r.ReadU64 = some (v, { r with r := some rest }) := by
  rw [ReadU64_delim r (decimal v) rest he hs (delim_not_mem_decimal v), ParseUint_decimal v hv]

theorem ReadI64_decimalInt (r : RBuffer D) (v : Int) (rest : List Nat)
    (hlo : -(2 : Int) ^ 63 ≤ v) (hhi : v < (2 : Int) ^ 63)
    (he : r.err = none) (hs : r.r = some (decimalInt v ++ delim :: rest)) :
    r.ReadI64 = some (v, { r with r := some rest }) := by
  rw [ReadI64_delim r (decimalInt v) rest he hs (delim_not_mem_decimalInt v),
    ParseInt_decimalInt v hlo hhi]

end ReaderRoundTrip

theorem wrapInt_8_of_fits (v : Int) (hlo : -(2 : Int) ^ 7 ≤ v) (hhi : v < (2 : Int) ^ 7) :
    wrapInt 8 v = v := by
  simp only [wrapInt]
  norm_num at hlo hhi ⊢
  split <;> omega

theorem wrapInt_16_of_fits (v : Int) (hlo : -(2 : Int) ^ 15 ≤ v) (hhi : v < (2 : Int) ^ 15) :
    wrapInt 16 v = v := by
  simp only [wrapInt]
  norm_num at hlo hhi ⊢
  split <;> omega

theorem wrapInt_32_of_fits (v : Int) (hlo : -(2 : Int) ^ 31 ≤ v) (hhi : v < (2 : Int) ^ 31) :
    wrapInt 32 v = v := by
  simp only [wrapInt]
  norm_num at hlo hhi ⊢
  split <;> omega

/-- Claim C8.  On a reader with no latched error, a source that holds the
base-10 digits of an unsigned 64-bit `v`, one space and any further bytes makes
`ReadU64` return `v` with no error and leaves exactly the further bytes; the
same holds for `ReadI64` and a signed 64-bit `v` written with a minus sign when
negative; and the narrow reads return `v` unchanged whenever `v` fits their
width. -/
theorem C8_integer_tokens_read_back {D : Type} (r : RBuffer D) (rest : List Nat)
    (he : r.err = none) :
    (∀ v : Nat, v < 2 ^ 64 → r.r = some (decimal v ++ delim :: rest) →
      r.ReadU64 = some (v, { r with r := some rest }) ∧
      (v < 2 ^ 8 → r.ReadU8 = some (v, { r with r := some rest })) ∧
      (v < 2 ^ 16 → r.ReadU16 = some (v, { r with r := some rest })) ∧
      (v < 2 ^ 32 → r.ReadU32 = some (v, { r with r := some rest }))) ∧
    (∀ v : Int, -(2 : Int) ^ 63 ≤ v → v < (2 : Int) ^ 63 →
      r.r = some (decimalInt v ++ delim :: rest) →
      r.ReadI64 = some (v, { r with r := some rest }) ∧
      (-(2 : Int) ^ 7 ≤ v → v < (2 : Int) ^ 7 →
        r.ReadI8 = some (v, { r with r := some rest })) ∧
      (-(2 : Int) ^ 15 ≤ v → v < (2 : Int) ^ 15 →
        r.ReadI16 = some (v, { r with r := some rest })) ∧
      (-(2 : Int) ^ 31 ≤ v → v < (2 : Int) ^ 31 →
        r.ReadI32 = some (v, { r with r := some rest }))) := by
  constructor
  · intro v hv hs
    have hU := ReadU64_decimal r v rest hv he hs
    refine ⟨hU, ?_, ?_, ?_⟩
    · intro h; simp only [RBuffer.ReadU8, hU, Option.map_some', Nat.mod_eq_of_lt h]
    · intro h; simp only [RBuffer.ReadU16, hU, Option.map_some', Nat.mod_eq_of_lt h]
    · intro h; simp only [RBuffer.ReadU32, hU, Option.map_some', Nat.mod_eq_of_lt h]
  · intro v hlo hhi hs
    have hI := ReadI64_decimalInt r v rest hlo hhi he hs
    refine ⟨hI, ?_, ?_, ?_⟩
    · intro h1 h2; simp [RBuffer.ReadI8, hI, wrapInt_8_of_fits v h1 h2]
    · intro h1 h2; simp [RBuffer.ReadI16, hI, wrapInt_16_of_fits v h1 h2]
    · intro h1 h2; simp [RBuffer.ReadI32, hI, wrapInt_32_of_fits v h1 h2]

theorem decimal_255 : decimal 255 = bytes "255" := by
  simp [decimal, bytes]

/-- The token "255 " in front of "7 ", read by a fresh reader as a `uint8`. -/
theorem C8_integer_tokens_read_back_witness :
    (NewRBuffer (some (bytes "255 7 ")) : RBuffer Unit).err = none ∧
    (255 < 2 ^ 64 ∧ 255 < 2 ^ 8) ∧
    (NewRBuffer (some (bytes "255 7 ")) : RBuffer Unit).r
      = some (decimal 255 ++ delim :: bytes "7 ") ∧
    (NewRBuffer (some (bytes "255 7 ")) : RBuffer Unit).ReadU8
      = some (255, NewRBuffer (some (bytes "7 "))) :=
  ⟨rfl, by decide, by rw [decimal_255]; decide,
    ((C8_integer_tokens_read_back (NewRBuffer (some (bytes "255 7 ")) : RBuffer Unit)
      (bytes "7 ") rfl).1 255 (by decide) (by rw [decimal_255]; decide)).2.1 (by decide)⟩

/-- Claim C9.  On a reader with no latched error whose source starts with a
token `t` (no space inside) and its delimiter, `ReadU64` consumes the token and
the delimiter, and latches an error exactly when `t` is not a non-empty run of
ASCII decimal digits denoting a value below 2^64; the latched error is the
error `ParseUint` returned, a `NumError` of `ParseUint` on `t` with cause
syntax or range, and the returned value is then 0; otherwise the value is the
one the digits denote. -/
theorem C9_ReadU64_parse_error {D : Type} (r : RBuffer D) (t rest : List Nat)
    (he : r.err = none) (hs : r.r = some (t ++ delim :: rest)) (ht : delim ∉ t) :
    ∃ v r', r.ReadU64 = some (v, r') ∧
      r' = { r with r := some rest, err := (ParseUint t).2 } ∧
      (r'.err ≠ none ↔ ¬ (t ≠ [] ∧ (∀ c ∈ t, isDigit c) ∧ decValue 0 t < 2 ^ 64)) ∧
      (r'.err ≠ none → v = 0 ∧
        ∃ cause, r'.err = some (Error.NumError "ParseUint" t cause)) ∧
      (r'.err = none → v = decValue 0 t) := by
  rw [ReadU64_delim r t rest he hs ht]
  by_cases hP : t ≠ [] ∧ (∀ c ∈ t, isDigit c) ∧ decValue 0 t < 2 ^ 64
  · have h := (ParseUint_spec t).1 hP
    refine ⟨decValue 0 t, { r with r := some rest }, by rw [h], ?_, ?_, ?_, ?_⟩
    · rw [h]; simp [he]
    · exact ⟨fun hne => absurd he hne, fun hn => absurd hP hn⟩
    · intro hne; exact absurd he hne
    · intro _; rfl
  · obtain ⟨v, cause, h⟩ := (ParseUint_spec t).2 hP
    refine ⟨0, { r with r := some rest,
                        err := some (Error.NumError "ParseUint" t cause) },
      by rw [h], ?_, ?_, ?_, ?_⟩
    · rw [h]
    · exact ⟨fun _ => hP, fun _ => by simp⟩
    · intro _; exact ⟨rfl, cause, rfl⟩
    · intro hn; simp at hn

/-- The signed token "-1" in front of "7 ": rejected by the unsigned read. -/
theorem C9_ReadU64_parse_error_witness :
    (NewRBuffer (some (bytes "-1 7 ")) : RBuffer Unit).err = none ∧
    (NewRBuffer (some (bytes "-1 7 ")) : RBuffer Unit).r
      = some (bytes "-1" ++ delim :: bytes "7 ") ∧
    delim ∉ bytes "-1" ∧
    ∃ v r', (NewRBuffer (some (bytes "-1 7 ")) : RBuffer Unit).ReadU64 = some (v, r') ∧
      r' = { (NewRBuffer (some (bytes "-1 7 ")) : RBuffer Unit) with
             r := some (bytes "7 "), err := (ParseUint (bytes "-1")).2 } ∧
      (r'.err ≠ none ↔
        ¬ (bytes "-1" ≠ [] ∧ (∀ c ∈ bytes "-1", isDigit c) ∧
            decValue 0 (bytes "-1") < 2 ^ 64)) ∧
      (r'.err ≠ none → v = 0 ∧
        ∃ cause, r'.err = some (Error.NumError "ParseUint" (bytes "-1") cause)) ∧
      (r'.err = none → v = decValue 0 (bytes "-1")) :=
  ⟨rfl, by decide, by decide,
    C9_ReadU64_parse_error (NewRBuffer (some (bytes "-1 7 ")) : RBuffer Unit)
      (bytes "-1") (bytes "7 ") rfl (by decide) (by decide)⟩

section ReaderStrings

variable {D : Type}

theorem readFull_exact (payload trail : List Nat) :
    readFull (payload ++ trail) payload.length = (payload, none, trail) := by
  simp [readFull, List.take_left, List.drop_left]

/-- The length read by `readLen` from a decimal token: the full value under
every profile but 32, the value below 2^32 under profile 32. -/
theorem readLen_decimal (r : RBuffer D) (n : Nat) (rest : List Nat)
    (he : r.err = none) (hs : r.r = some (decimal n ++ delim :: rest))
    (hn : (r.arch ≠ 32 ∧ n < 2 ^ 63) ∨ (r.arch = 32 ∧ n < 2 ^ 32)) :
    r.readLen = some ((n : Int), { r with r := some rest }) := by
  have h63 : n < 2 ^ 63 := by
    rcases hn with h | h
    · exact h.2
    · have : (2 : Nat) ^ 32 < 2 ^ 63 := by norm_num
      omega
  have h64 : n < 2 ^ 64 := by
    have : (2 : Nat) ^ 63 < 2 ^ 64 := by norm_num
    omega
  have hU := ReadU64_decimal r n rest h64 he hs
  unfold RBuffer.readLen
  rcases hn with h | h
  · rw [if_neg h.1, hU]
    simp only [Option.map_some', toInt64_of_lt n h63]
  · rw [if_pos h.1]
    simp only [RBuffer.ReadU32, hU, Option.map_some', Nat.mod_eq_of_lt h.2,
      toInt64_of_lt n h63]

theorem maxAlloc_eq : maxAlloc = 281474976710656 := by
  norm_num [maxAlloc]

theorem ReadStringMem_payload (mem : Nat) (r : RBuffer D) (n : Nat) (payload trail : List Nat)
    (he : r.err = none) (hpos : 0 < n) (hlen : payload.length = n)
    (hmax : n ≤ maxAlloc) (hmem : n ≤ mem)
    (hs : r.r = some (decimal n ++ delim :: (payload ++ trail)))
    (hn : r.arch ≠ 32 ∨ n < 2 ^ 32)
    (htrail : trail = [] ∨ ∃ rest, trail = delim :: rest) :
    r.ReadStringMem mem = some (payload, { r with r := some (trail.drop 1) }) := by
  have hc : (r.arch ≠ 32 ∧ n < 2 ^ 63) ∨ (r.arch = 32 ∧ n < 2 ^ 32) := by
    rw [maxAlloc_eq] at hmax
    by_cases h32 : r.arch = 32
    · rcases hn with h | h
      · exact absurd h32 h
      · exact Or.inr ⟨h32, h⟩
    · refine Or.inl ⟨h32, ?_⟩
      norm_num
      omega
  have hL := readLen_decimal r n (payload ++ trail) he hs hc
  have hn0 : ¬ ((n : Int) = 0 ∨ r.err ≠ none) := by
    intro h
    rcases h with h | h
    · omega
    · exact h he
  have hneg : ¬ ((n : Int) < 0 ∨ (maxAlloc : Int) < (n : Int) ∨ (mem : Int) < (n : Int)) := by
    omega
  have hrf : readFull (payload ++ trail) n = (payload, none, trail) := by
    rw [← hlen]; exact readFull_exact payload trail
  simp only [RBuffer.ReadStringMem, hL, if_neg hn0, if_neg hneg, Int.toNat_ofNat, hrf]
  rw [hlen, Nat.sub_self]
  rcases htrail with h | ⟨rest, h⟩
  · subst h
    simp [RBuffer.skipDelimiter, he]
  · subst h
    simp [RBuffer.skipDelimiter, he]

theorem ReadString_payload (r : RBuffer D) (n : Nat) (payload trail : List Nat)
    (he : r.err = none) (hpos : 0 < n) (hlen : payload.length = n) (hmax : n ≤ maxAlloc)
    (hs : r.r = some (decimal n ++ delim :: (payload ++ trail)))
    (hn : r.arch ≠ 32 ∨ n < 2 ^ 32)
    (htrail : trail = [] ∨ ∃ rest, trail = delim :: rest) :
    r.ReadString = some (payload, { r with r := some (trail.drop 1) }) :=
  ReadStringMem_payload maxAlloc r n payload trail he hpos hlen hmax hmax hs hn htrail

/-- Under profile 32 a length token of 2^32 is narrowed to 0, which takes the
empty-string path. -/
theorem ReadString_wrap32 (r : RBuffer D) (rest : List Nat)
    (he : r.err = none) (ha : r.arch = 32)
    (hs : r.r = some (decimal 4294967296 ++ delim :: rest)) :
    r.ReadString = some ([], { r with r := some rest }) := by
  have hU := ReadU64_decimal r 4294967296 rest (by norm_num) he hs
  have hL : r.readLen = some (0, { r with r := some rest }) := by
    unfold RBuffer.readLen
    rw [if_pos ha]
    simp [RBuffer.ReadU32, hU, toInt64]
  simp [RBuffer.ReadString, RBuffer.ReadStringMem, hL]

end ReaderStrings

/-- A length the runtime does not grant: `make` does not return, whatever the
source holds after the length token. -/
theorem ReadStringMem_not_granted {D : Type} (mem : Nat) (r r1 : RBuffer D) (n : Int)
    (hL : r.readLen = some (n, r1)) (h1 : r1.err = none)
    (hbig : n < 0 ∨ (maxAlloc : Int) < n ∨ (mem : Int) < n) :
    r.ReadStringMem mem = none := by
  have hn0 : ¬ (n = 0 ∨ r1.err ≠ none) := by
    intro h
    rcases h with h | h
    · omega
    · exact h h1
  simp only [RBuffer.ReadStringMem, hL, if_neg hn0, if_pos hbig]

theorem decimal_4611686018427387904 :
    decimal 4611686018427387904 = bytes "4611686018427387904" := by
  simp [decimal, bytes]

/-- Claim C5, as the code has it.  On a reader with no latched error, for a
length `n > 0` that the runtime can allocate (at most `maxAlloc` and at most
the `mem` bytes it can still grant), under every profile other than the 32-bit
one, or below 2^32, and for every payload of exactly `n` bytes (spaces
included), a source holding the digits of `n`, one space, the payload, and then
a space with further bytes or nothing at all makes `ReadString` return the
payload with no error latched, the unread rest being the bytes after that space
(nothing when the source ended there). -/
theorem C5_ReadString_payload {D : Type} (mem : Nat) (r : RBuffer D) (n : Nat)
    (payload trail : List Nat) (he : r.err = none) (hpos : 0 < n)
    (hlen : payload.length = n) (hmax : n ≤ maxAlloc) (hmem : n ≤ mem)
    (hs : r.r = some (decimal n ++ delim :: (payload ++ trail)))
    (hn : r.arch ≠ 32 ∨ n < 2 ^ 32)
    (htrail : trail = [] ∨ ∃ rest, trail = delim :: rest) :
    ∃ r', r.ReadStringMem mem = some (payload, r') ∧
      r'.err = none ∧ r'.r = some (trail.drop 1) ∧ r'.arch = r.arch ∧ r'.types = r.types :=
  ⟨{ r with r := some (trail.drop 1) },
    ReadStringMem_payload mem r n payload trail he hpos hlen hmax hmem hs hn htrail,
    he, rfl, rfl, rfl⟩

theorem decimal_5 : decimal 5 = bytes "5" := by
  simp [decimal, bytes]

/-- The payload "a b c" (two spaces inside) after the length 5, followed by
one space and the next token, on a runtime with 64 bytes to grant, and on one
that grants every request. -/
theorem C5_ReadString_payload_witness :
    (NewRBuffer (some (bytes "5 a b c 7 ")) : RBuffer Unit).err = none ∧
    0 < 5 ∧ (bytes "a b c").length = 5 ∧ 5 ≤ maxAlloc ∧ 5 ≤ 64 ∧
    (NewRBuffer (some (bytes "5 a b c 7 ")) : RBuffer Unit).r
      = some (decimal 5 ++ delim :: (bytes "a b c" ++ bytes " 7 ")) ∧
    ((NewRBuffer (some (bytes "5 a b c 7 ")) : RBuffer Unit).arch ≠ 32 ∨ 5 < 2 ^ 32) ∧
    (bytes " 7 " = [] ∨ ∃ rest, bytes " 7 " = delim :: rest) ∧
    (∃ r', (NewRBuffer (some (bytes "5 a b c 7 ")) : RBuffer Unit).ReadStringMem 64
        = some (bytes "a b c", r') ∧
      r'.err = none ∧ r'.r = some ((bytes " 7 ").drop 1) ∧
      r'.arch = (NewRBuffer (some (bytes "5 a b c 7 ")) : RBuffer Unit).arch ∧
      r'.types = (NewRBuffer (some (bytes "5 a b c 7 ")) : RBuffer Unit).types) ∧
    (∃ r', (NewRBuffer (some (bytes "5 a b c 7 ")) : RBuffer Unit).ReadString
        = some (bytes "a b c", r') ∧
      r'.err = none ∧ r'.r = some ((bytes " 7 ").drop 1) ∧
      r'.arch = (NewRBuffer (some (bytes "5 a b c 7 ")) : RBuffer Unit).arch ∧
      r'.types = (NewRBuffer (some (bytes "5 a b c 7 ")) : RBuffer Unit).types) :=
  ⟨rfl, by decide, by decide, by rw [maxAlloc_eq]; decide, by decide,
    by rw [decimal_5]; decide, Or.inl (by decide),
    Or.inr ⟨bytes "7 ", by decide⟩,
    C5_ReadString_payload 64 (NewRBuffer (some (bytes "5 a b c 7 ")) : RBuffer Unit) 5
      (bytes "a b c") (bytes " 7 ") rfl (by decide) (by decide)
      (by rw [maxAlloc_eq]; decide) (by decide)
      (by rw [decimal_5]; decide) (Or.inl (by decide))
      (Or.inr ⟨bytes "7 ", by decide⟩),
    C5_ReadString_payload maxAlloc (NewRBuffer (some (bytes "5 a b c 7 ")) : RBuffer Unit) 5
      (bytes "a b c") (bytes " 7 ") rfl (by decide) (by decide)
      (by rw [maxAlloc_eq]; decide) (by rw [maxAlloc_eq]; decide)
      (by rw [decimal_5]; decide) (Or.inl (by decide))
      (Or.inr ⟨bytes "7 ", by decide⟩)⟩

theorem decimal_4294967296 : decimal 4294967296 = bytes "4294967296" := by
  simp [decimal, bytes]

/-- Claim C5 fails as stated, in two ways.  Under the 32-bit profile the length
2^32, which is positive and below 2^63, is narrowed to 0, so `ReadString` on
the digits of 2^32, one space, a payload of 2^32 bytes and one space returns
the empty string, not the payload, and consumes only the length token.  Under
the profile of `NewRBuffer` the length 2^62, also positive and below 2^63, is
above `maxAlloc`: on the digits of 2^62, one space, a payload of 2^62 bytes and
one space `ReadString` does not return, `make` panics. -/
theorem C5_counterexample :
    (0 < 4294967296 ∧ 4294967296 < 2 ^ 63 ∧
      (List.replicate 4294967296 65).length = 4294967296 ∧
      ({ r := some (bytes "4294967296" ++ delim :: (List.replicate 4294967296 65 ++ [delim])),
         err := none, arch := 32, types := [] } : RBuffer Unit).ReadString
        = some ([], { r := some (List.replicate 4294967296 65 ++ [delim]),
                      err := none, arch := 32, types := [] }) ∧
      ([] : List Nat) ≠ List.replicate 4294967296 65) ∧
    (0 < 4611686018427387904 ∧ 4611686018427387904 < 2 ^ 63 ∧
      (List.replicate 4611686018427387904 65).length = 4611686018427387904 ∧
      (NewRBuffer (some (bytes "4611686018427387904"
          ++ delim :: (List.replicate 4611686018427387904 65 ++ [delim]))) : RBuffer Unit).ReadString
        = none) := by
  refine ⟨⟨by norm_num, by norm_num, List.length_replicate _ _, ?_, ?_⟩,
    ⟨by norm_num, by norm_num, List.length_replicate _ _, ?_⟩⟩
  · exact ReadString_wrap32 _ _ rfl rfl (by rw [decimal_4294967296])
  · intro h
    have h1 := congrArg List.length h
    rw [List.length_replicate] at h1
    simp at h1
  · have hL := readLen_decimal
      (NewRBuffer (some (bytes "4611686018427387904"
        ++ delim :: (List.replicate 4611686018427387904 65 ++ [delim]))) : RBuffer Unit)
      4611686018427387904 (List.replicate 4611686018427387904 65 ++ [delim]) rfl
      (by rw [decimal_4611686018427387904]; rfl) (Or.inl ⟨by decide, by norm_num⟩)
    exact ReadStringMem_not_granted maxAlloc _ _ _ hL rfl
      (Or.inr (Or.inl (by rw [maxAlloc_eq]; norm_num)))

/-- Claim C6 fails on the code: on the source "0  7 " (the length token "0 ",
the trailing delimiter of the empty string, then the token "7 ") `ReadString`
returns the empty string with no error but leaves the second space unread, so
the next `ReadU64` meets an empty token and latches a syntax error instead of
returning 7. -/
theorem C6_zero_length_leaves_delimiter :
    (NewRBuffer (some (bytes "0  7 ")) : RBuffer Unit).ReadString
      = some ([], NewRBuffer (some (bytes " 7 "))) ∧
    (NewRBuffer (some (bytes " 7 ")) : RBuffer Unit).ReadU64
      = some (0, { r := some (bytes "7 "),
                   err := some (Error.NumError "ParseUint" [] NumErr.ErrSyntax),
                   arch := 0, types := [] }) ∧
    (NewRBuffer (some (bytes "7 ")) : RBuffer Unit).ReadU64
      = some (7, NewRBuffer (some [])) := by
  decide

section HeaderLemmas

variable {D : Type}

/-- The outcome of an unsigned read on a reader with no latched error: an
error is latched, or a delimited token was consumed. -/
theorem ReadU64_cases (r : RBuffer D) (src : List Nat) (he : r.err = none)
    (hs : r.r = some src) :
    ∃ v r', r.ReadU64 = some (v, r') ∧
      (r'.err ≠ none ∨ ∃ t rest, src = t ++ delim :: rest ∧ delim ∉ t ∧
        r'.r = some rest ∧ r'.err = none) := by
  rcases split_at_delim src with h | ⟨t, rest, hsrc, ht⟩
  · exact ⟨_, _, ReadU64_no_delim r src he hs h, Or.inl (by simp)⟩
  · subst hsrc
    rw [ReadU64_delim r t rest he hs ht]
    rcases hp : ParseUint t with ⟨v, _ | e⟩
    · exact ⟨v, _, rfl, Or.inr ⟨t, rest, rfl, ht, rfl, he⟩⟩
    · exact ⟨0, _, rfl, Or.inl (by simp)⟩

theorem ReadI64_cases (r : RBuffer D) (src : List Nat) (he : r.err = none)
    (hs : r.r = some src) :
    ∃ v r', r.ReadI64 = some (v, r') ∧
      (r'.err ≠ none ∨ ∃ t rest, src = t ++ delim :: rest ∧ delim ∉ t ∧
        r'.r = some rest ∧ r'.err = none) := by
  rcases split_at_delim src with h | ⟨t, rest, hsrc, ht⟩
  · exact ⟨_, _, ReadI64_no_delim r src he hs h, Or.inl (by simp)⟩
  · subst hsrc
    rw [ReadI64_delim r t rest he hs ht]
    rcases hp : ParseInt t with ⟨v, _ | e⟩
    · exact ⟨v, _, rfl, Or.inr ⟨t, rest, rfl, ht, rfl, he⟩⟩
    · exact ⟨0, _, rfl, Or.inl (by simp)⟩

theorem readField_cases (r : RBuffer D) (f : HeaderField) (src : List Nat)
    (he : r.err = none) (hs : r.r = some src) :
    ∃ v r', r.readField f = some (v, r') ∧
      (r'.err ≠ none ∨ ∃ t rest, src = t ++ delim :: rest ∧ delim ∉ t ∧
        r'.r = some rest ∧ r'.err = none) := by
  obtain ⟨u, ru, hu, hcu⟩ := ReadU64_cases r src he hs
  obtain ⟨i, ri, hi, hci⟩ := ReadI64_cases r src he hs
  cases f
  · exact ⟨((u % 2 ^ 8 : Nat) : Int), ru, by simp [RBuffer.readField, RBuffer.ReadU8, hu], hcu⟩
  · exact ⟨((u % 2 ^ 16 : Nat) : Int), ru, by simp [RBuffer.readField, RBuffer.ReadU16, hu], hcu⟩
  · exact ⟨((u % 2 ^ 32 : Nat) : Int), ru, by simp [RBuffer.readField, RBuffer.ReadU32, hu], hcu⟩
  · exact ⟨(u : Int), ru, by simp [RBuffer.readField, hu], hcu⟩
  · exact ⟨wrapInt 8 i, ri, by simp [RBuffer.readField, RBuffer.ReadI8, hi], hci⟩
  · exact ⟨wrapInt 16 i, ri, by simp [RBuffer.readField, RBuffer.ReadI16, hi], hci⟩
  · exact ⟨wrapInt 32 i, ri, by simp [RBuffer.readField, RBuffer.ReadI32, hi], hci⟩
  · exact ⟨i, ri, by simp [RBuffer.readField, hi], hci⟩
  · exact ⟨(if (if u % 2 ^ 8 = 0 then false else true) = true then 1 else 0 : Int), ru,
      by simp [RBuffer.readField, RBuffer.ReadBool, RBuffer.ReadU8, hu], hcu⟩

theorem readField_latched (r : RBuffer D) (f : HeaderField) (h : r.err ≠ none) :
    ∃ v, r.readField f = some (v, r) := by
  have hu := ReadU64_latched r h
  have hi := ReadI64_latched r h
  cases f
  · exact ⟨0, by simp [RBuffer.readField, RBuffer.ReadU8, hu]⟩
  · exact ⟨0, by simp [RBuffer.readField, RBuffer.ReadU16, hu]⟩
  · exact ⟨0, by simp [RBuffer.readField, RBuffer.ReadU32, hu]⟩
  · exact ⟨0, by simp [RBuffer.readField, hu]⟩
  · exact ⟨0, by simp [RBuffer.readField, RBuffer.ReadI8, hi, wrapInt]⟩
  · exact ⟨0, by simp [RBuffer.readField, RBuffer.ReadI16, hi, wrapInt]⟩
  · exact ⟨0, by simp [RBuffer.readField, RBuffer.ReadI32, hi, wrapInt]⟩
  · exact ⟨0, by simp [RBuffer.readField, hi]⟩
  · exact ⟨0, by simp [RBuffer.readField, RBuffer.ReadBool, RBuffer.ReadU8, hu]⟩

theorem readFields_latched (fs : List HeaderField) (r : RBuffer D) (h : r.err ≠ none) :
    ∃ vs, RBuffer.readFields fs r = some (vs, r) := by
  induction fs with
  | nil => exact ⟨[], rfl⟩
  | cons f fs ih =>
    obtain ⟨v, hv⟩ := readField_latched r f h
    obtain ⟨vs, hvs⟩ := ih
    exact ⟨v :: vs, by simp [RBuffer.readFields, hv, hvs]⟩

/-- A source with fewer delimiters than the layout has fields is exhausted
before the fields are complete: the decoder returns with an error latched. -/
theorem readFields_truncated (fs : List HeaderField) (r : RBuffer D) (src : List Nat)
    (he : r.err = none) (hs : r.r = some src) (hc : src.count delim < fs.length) :
    ∃ vs r', RBuffer.readFields fs r = some (vs, r') ∧ r'.err ≠ none := by
  induction fs generalizing r src with
  | nil => simp at hc
  | cons f fs ih =>
    obtain ⟨v, r1, hf, hcase⟩ := readField_cases r f src he hs
    rcases hcase with h1 | ⟨t, rest, hsrc, ht, hr1, he1⟩
    · obtain ⟨vs, hvs⟩ := readFields_latched fs r1 h1
      exact ⟨v :: vs, r1, by simp [RBuffer.readFields, hf, hvs], h1⟩
    · have hcount : rest.count delim < fs.length := by
        subst hsrc
        rw [List.count_append, List.count_eq_zero_of_not_mem ht, List.count_cons_self] at hc
        simp only [List.length_cons] at hc
        omega
      obtain ⟨vs, r2, hvs, h2⟩ := ih r1 rest he1 hr1 hcount
      exact ⟨v :: vs, r2, by simp [RBuffer.readFields, hf, hvs], h2⟩

theorem ReadString_none_of_nil (r : RBuffer D) (he : r.err = none) (hs : r.r = none) :
    r.ReadString = none := by
  have h1 : r.readUntilDelimiter = none := by simp [RBuffer.readUntilDelimiter, he, hs]
  have h2 : r.ReadU64 = none := by simp [RBuffer.ReadU64, he, h1]
  have h3 : r.readLen = none := by
    unfold RBuffer.readLen
    split <;> simp [RBuffer.ReadU32, h2]
  simp [RBuffer.ReadString, RBuffer.ReadStringMem, h3]

theorem decimal_22 : decimal 22 = bytes "22" := by
  simp [decimal, bytes]

/-- The leading string token of an archive: "22 ", the magic signature, and
then one space or the end of the source. -/
theorem ReadString_magic (r : RBuffer D) (sep tail : List Nat) (he : r.err = none)
    (hs : r.r = some (bytes "22" ++ delim :: (magicHeaderSignature ++ (sep ++ tail))))
    (hsep : sep = [delim] ∨ (sep = [] ∧ tail = [])) :
    r.ReadString = some (magicHeaderSignature, { r with r := some tail }) := by
  have hn : r.arch ≠ 32 ∨ 22 < 2 ^ 32 := Or.inr (by norm_num)
  have htrail : sep ++ tail = [] ∨ ∃ rest, sep ++ tail = delim :: rest := by
    rcases hsep with h | ⟨h1, h2⟩
    · right; exact ⟨tail, by simp [h]⟩
    · left; simp [h1, h2]
  have hdrop : (sep ++ tail).drop 1 = tail := by
    rcases hsep with h | ⟨h1, h2⟩
    · simp [h]
    · simp [h1, h2]
  have h := ReadString_payload r 22 magicHeaderSignature (sep ++ tail) he (by norm_num)
    (by decide) (by rw [maxAlloc_eq]; norm_num) (by rw [decimal_22]; exact hs) hn htrail
  rw [hdrop] at h
  exact h

end HeaderLemmas

/-- Claim C2.  On a reader with no latched error whose leading string token
reads without error and equals the magic signature, `ReadHeader` returns what
the header decoder produced and ends with no latched error or with exactly
`ErrInvalidHeader`, the latter exactly when the decoder left any error
latched.  In particular, when the source is "22 ", the signature, and then too
few delimited tokens for the fields of the header (the source is exhausted
before the fields are complete), a decoder that reads the fields with the
primitive reader ends with `ErrInvalidHeader`. -/
theorem C2_ReadHeader_InvalidHeader {D H : Type} (zeroHdr : H)
    (unmarshal : RBuffer D → Option (H × RBuffer D)) (r : RBuffer D)
    (he : r.err = none) :
    (∀ r1 hdr r2, r.ReadString = some (magicHeaderSignature, r1) → r1.err = none →
      unmarshal r1 = some (hdr, r2) →
      ∃ r3, r.ReadHeader zeroHdr unmarshal = some (hdr, r3) ∧ r3.r = r2.r ∧
        (r3.err = none ∨ r3.err = some Error.ErrInvalidHeader) ∧
        (r3.err = some Error.ErrInvalidHeader ↔ r2.err ≠ none)) ∧
    (∀ (layout : List HeaderField) (zero : List Int) (sep tail : List Nat),
      r.r = some (bytes "22" ++ delim :: (magicHeaderSignature ++ (sep ++ tail))) →
      (sep = [delim] ∨ (sep = [] ∧ tail = [])) →
      tail.count delim < layout.length →
      ∃ hdr r3, r.ReadHeader zero (RBuffer.readFields layout) = some (hdr, r3) ∧
        r3.err = some Error.ErrInvalidHeader) := by
  have main : ∀ {H' : Type} (z : H') (u : RBuffer D → Option (H' × RBuffer D))
      (r1 : RBuffer D) (hdr : H') (r2 : RBuffer D),
      r.ReadString = some (magicHeaderSignature, r1) → r1.err = none →
      u r1 = some (hdr, r2) →
      ∃ r3, r.ReadHeader z u = some (hdr, r3) ∧ r3.r = r2.r ∧
        (r3.err = none ∨ r3.err = some Error.ErrInvalidHeader) ∧
        (r3.err = some Error.ErrInvalidHeader ↔ r2.err ≠ none) := by
    intro H' z u r1 hdr r2 hrs h1 hu
    have hsrc : ¬ (r.r = none) := by
      intro hn
      rw [ReadString_none_of_nil r he hn] at hrs
      exact Option.noConfusion hrs
    have h1' : ¬ (r1.err ≠ none) := by simp [h1]
    have hm : ¬ (magicHeaderSignature ≠ magicHeaderSignature) := by simp
    have hr : ¬ (r.err ≠ none) := by simp [he]
    by_cases h2 : r2.err ≠ none
    · refine ⟨{ r2 with err := some Error.ErrInvalidHeader }, ?_, rfl, Or.inr rfl, ?_⟩
      · simp only [RBuffer.ReadHeader, if_neg hsrc, if_neg hr, hrs, if_neg h1', if_neg hm, hu,
          if_pos h2]
      · exact ⟨fun _ => h2, fun _ => rfl⟩
    · have h2n : r2.err = none := by
        by_contra hc; exact h2 hc
      refine ⟨r2, ?_, rfl, Or.inl h2n, ?_⟩
      · simp only [RBuffer.ReadHeader, if_neg hsrc, if_neg hr, hrs, if_neg h1', if_neg hm, hu,
          if_neg h2]
      · constructor
        · intro h; rw [h2n] at h; exact Option.noConfusion h
        · intro h; exact absurd h h2
  refine ⟨main zeroHdr unmarshal, ?_⟩
  intro layout zero sep tail hs hsep hcount
  have hrs := ReadString_magic r sep tail he hs hsep
  obtain ⟨vs, r2, hf, h2⟩ :=
    readFields_truncated layout { r with r := some tail } tail he rfl hcount
  obtain ⟨r3, h3, _, _, hiff⟩ :=
    main zero (RBuffer.readFields layout) { r with r := some tail } vs r2 hrs he hf
  exact ⟨vs, r3, h3, hiff.2 h2⟩

/-- The archive "22 serialization::archive 1", cut inside its first header
field, read with a header of one 16-bit version and one 64-bit flag word. -/
theorem C2_ReadHeader_InvalidHeader_witness :
    (NewRBuffer (some (bytes "22 serialization::archive 1")) : RBuffer Unit).err = none ∧
    (NewRBuffer (some (bytes "22 serialization::archive 1")) : RBuffer Unit).r
      = some (bytes "22" ++ delim :: (magicHeaderSignature ++ ([delim] ++ bytes "1"))) ∧
    (bytes "1").count delim < [HeaderField.U16, HeaderField.U64].length ∧
    ∃ hdr r3, (NewRBuffer (some (bytes "22 serialization::archive 1")) : RBuffer Unit).ReadHeader
        [0, 0] (RBuffer.readFields [HeaderField.U16, HeaderField.U64]) = some (hdr, r3) ∧
      r3.err = some Error.ErrInvalidHeader :=
  ⟨rfl, by decide, by decide,
    (C2_ReadHeader_InvalidHeader [0, 0] (RBuffer.readFields [HeaderField.U16, HeaderField.U64])
      (NewRBuffer (some (bytes "22 serialization::archive 1")) : RBuffer Unit) rfl).2
      [HeaderField.U16, HeaderField.U64] [0, 0] [delim] (bytes "1") (by decide)
      (Or.inl rfl) (by decide)⟩

section RegistryLemmas

variable {D : Type}

theorem readUntilDelimiter_types (r : RBuffer D) (s : GoString) (r' : RBuffer D)
    (h : r.readUntilDelimiter = some (s, r')) : r'.types = r.types := by
  unfold RBuffer.readUntilDelimiter at h
  split at h
  · simp only [Option.some.injEq, Prod.mk.injEq] at h
    rw [← h.2]
  · split at h
    · exact Option.noConfusion h
    · dsimp only at h
      split at h <;>
      · simp only [Option.some.injEq, Prod.mk.injEq] at h
        rw [← h.2]

theorem ReadU64_types (r : RBuffer D) (v : Nat) (r' : RBuffer D)
    (h : r.ReadU64 = some (v, r')) : r'.types = r.types := by
  unfold RBuffer.ReadU64 at h
  split at h
  · simp only [Option.some.injEq, Prod.mk.injEq] at h
    rw [← h.2]
  · split at h
    · exact Option.noConfusion h
    · rename_i s r1 hrd
      have ht := readUntilDelimiter_types r s r1 hrd
      split at h
      · simp only [Option.some.injEq, Prod.mk.injEq] at h
        rw [← h.2, ht]
      · split at h <;>
        · simp only [Option.some.injEq, Prod.mk.injEq] at h
          rw [← h.2]
          exact ht

theorem ReadI64_types (r : RBuffer D) (v : Int) (r' : RBuffer D)
    (h : r.ReadI64 = some (v, r')) : r'.types = r.types := by
  unfold RBuffer.ReadI64 at h
  split at h
  · simp only [Option.some.injEq, Prod.mk.injEq] at h
    rw [← h.2]
  · split at h
    · exact Option.noConfusion h
    · rename_i s r1 hrd
      have ht := readUntilDelimiter_types r s r1 hrd
      split at h
      · simp only [Option.some.injEq, Prod.mk.injEq] at h
        rw [← h.2, ht]
      · split at h <;>
        · simp only [Option.some.injEq, Prod.mk.injEq] at h
          rw [← h.2]
          exact ht

theorem ReadF64_types {F : Type} (fo : FloatOps F) (r : RBuffer D) (v : F) (r' : RBuffer D)
    (h : r.ReadF64 fo = some (v, r')) : r'.types = r.types := by
  unfold RBuffer.ReadF64 at h
  split at h
  · simp only [Option.some.injEq, Prod.mk.injEq] at h
    rw [← h.2]
  · split at h
    · exact Option.noConfusion h
    · rename_i s r1 hrd
      have ht := readUntilDelimiter_types r s r1 hrd
      split at h
      · simp only [Option.some.injEq, Prod.mk.injEq] at h
        rw [← h.2, ht]
      · split at h <;>
        · simp only [Option.some.injEq, Prod.mk.injEq] at h
          rw [← h.2]
          exact ht

theorem readLen_types (r : RBuffer D) (n : Int) (r' : RBuffer D)
    (h : r.readLen = some (n, r')) : r'.types = r.types := by
  unfold RBuffer.readLen at h
  split at h
  · simp only [RBuffer.ReadU32, Option.map_map, Option.map_eq_some'] at h
    obtain ⟨⟨v, r1⟩, h1, h2⟩ := h
    simp only [Function.comp, Prod.mk.injEq] at h2
    rw [← h2.2]
    exact ReadU64_types r v r1 h1
  · simp only [Option.map_eq_some'] at h
    obtain ⟨⟨v, r1⟩, h1, h2⟩ := h
    simp only [Prod.mk.injEq] at h2
    rw [← h2.2]
    exact ReadU64_types r v r1 h1

theorem skipDelimiter_types (r r' : RBuffer D) (h : r.skipDelimiter = some r') :
    r'.types = r.types := by
  unfold RBuffer.skipDelimiter at h
  split at h
  · exact Option.noConfusion h
  · simp only [Option.some.injEq] at h
    rw [← h]
  · split at h <;>
    · simp only [Option.some.injEq] at h
      rw [← h]

theorem ReadString_types (r : RBuffer D) (s : GoString) (r' : RBuffer D)
    (h : r.ReadString = some (s, r')) : r'.types = r.types := by
  unfold RBuffer.ReadString RBuffer.ReadStringMem at h
  split at h
  · exact Option.noConfusion h
  · rename_i n r1 hl
    have ht := readLen_types r n r1 hl
    split at h
    · simp only [Option.some.injEq, Prod.mk.injEq] at h
      rw [← h.2, ht]
    · split at h
      · exact Option.noConfusion h
      · split at h
        · exact Option.noConfusion h
        · dsimp only at h
          split at h
          · exact Option.noConfusion h
          · rename_i r2 hsk
            simp only [Option.some.injEq, Prod.mk.injEq] at h
            rw [← h.2, skipDelimiter_types _ r2 hsk]
            exact ht

theorem lookup_cons_ne (typ typ' : ReflectType) (d' : D) (l : List (ReflectType × D))
    (hne : typ ≠ typ') : List.lookup typ ((typ', d') :: l) = List.lookup typ l := by
  have hb : (typ == typ') = false := by simp [hne]
  simp [List.lookup, hb]

end RegistryLemmas

theorem ReadU16_types {D : Type} (r : RBuffer D) (v : Nat) (r' : RBuffer D)
    (h : r.ReadU16 = some (v, r')) : r'.types = r.types := by
  simp only [RBuffer.ReadU16, Option.map_eq_some'] at h
  obtain ⟨⟨u, r1⟩, h1, h2⟩ := h
  simp only [Prod.mk.injEq] at h2
  rw [← h2.2]
  exact ReadU64_types r u r1 h1

/-- Claim C4.  `ReadTypeDescr` with a descriptor decoder that leaves the
registry alone: a type with a cached descriptor gets that descriptor back and
the reader is unchanged (no byte consumed, registry and error slot as before);
otherwise one record is decoded, and on success it is stored under the type,
so that the lookup of the type gives it from then on, a fact that later
`ReadTypeDescr` calls and primitive reads preserve; on failure
`ErrInvalidTypeDescr` is latched and the registry is as before the call. -/
theorem C4_ReadTypeDescr_first_occurrence {D : Type}
    (unmarshal : RBuffer D → Option (D × RBuffer D)) (r : RBuffer D) (typ : ReflectType)
    (hu : ∀ r0 d r1, unmarshal r0 = some (d, r1) → r1.types = r0.types) :
    (∀ d, r.types.lookup typ = some d → r.ReadTypeDescr unmarshal typ = some (d, r)) ∧
    (∀ d r1, r.types.lookup typ = none → unmarshal r = some (d, r1) → r1.err = none →
      r.ReadTypeDescr unmarshal typ = some (d, { r1 with types := (typ, d) :: r.types }) ∧
      ((typ, d) :: r.types).lookup typ = some d) ∧
    (∀ d r1, r.types.lookup typ = none → unmarshal r = some (d, r1) → r1.err ≠ none →
      r.ReadTypeDescr unmarshal typ
        = some (d, { r1 with err := some Error.ErrInvalidTypeDescr, types := r.types })) ∧
    (∀ (d : D) (typ' : ReflectType) (d' : D) (r' : RBuffer D),
      r.types.lookup typ = some d → r.ReadTypeDescr unmarshal typ' = some (d', r') →
      r'.types.lookup typ = some d) ∧
    (∀ (d : D) (r' : RBuffer D), r.types.lookup typ = some d →
      ((∃ v, r.ReadU64 = some (v, r')) ∨ (∃ v, r.ReadI64 = some (v, r')) ∨
        (∃ s, r.ReadString = some (s, r'))) →
      r'.types.lookup typ = some d) := by
  refine ⟨?_, ?_, ?_, ?_, ?_⟩
  · intro d hd
    simp [RBuffer.ReadTypeDescr, hd]
  · intro d r1 hn hun h1
    have ht := hu r d r1 hun
    refine ⟨?_, by simp [List.lookup]⟩
    simp only [RBuffer.ReadTypeDescr, hn, hun, h1, ht]
  · intro d r1 hn hun h1
    have ht := hu r d r1 hun
    obtain ⟨e, he⟩ : ∃ e, r1.err = some e := by
      cases h : r1.err with
      | none => exact absurd h h1
      | some e => exact ⟨e, rfl⟩
    simp only [RBuffer.ReadTypeDescr, hn, hun, he]
    rw [← ht]
  · intro d typ' d' r' hd hcall
    cases hl : r.types.lookup typ' with
    | some c =>
      simp only [RBuffer.ReadTypeDescr, hl, Option.some.injEq, Prod.mk.injEq] at hcall
      rw [← hcall.2]; exact hd
    | none =>
      have hne : typ ≠ typ' := by
        intro heq; rw [heq, hl] at hd; exact Option.noConfusion hd
      cases hun : unmarshal r with
      | none => simp [RBuffer.ReadTypeDescr, hl, hun] at hcall
      | some p =>
        obtain ⟨dd, r1⟩ := p
        have ht := hu r dd r1 hun
        cases h1 : r1.err with
        | none =>
          simp only [RBuffer.ReadTypeDescr, hl, hun, h1, Option.some.injEq,
            Prod.mk.injEq] at hcall
          rw [← hcall.2]
          show List.lookup typ ((typ', dd) :: r1.types) = some d
          rw [lookup_cons_ne typ typ' dd r1.types hne, ht]
          exact hd
        | some e =>
          simp only [RBuffer.ReadTypeDescr, hl, hun, h1, Option.some.injEq,
            Prod.mk.injEq] at hcall
          rw [← hcall.2]
          show List.lookup typ r1.types = some d
          rw [ht]; exact hd
  · intro d r' hd hcall
    rcases hcall with ⟨v, h⟩ | ⟨v, h⟩ | ⟨s, h⟩
    · rw [ReadU64_types r v r' h]; exact hd
    · rw [ReadI64_types r v r' h]; exact hd
    · rw [ReadString_types r s r' h]; exact hd

/-- A reader over "7 9 " with an empty registry and a descriptor made of one
16-bit number: the first call for "animal" decodes 7 and stores it. -/
theorem C4_ReadTypeDescr_first_occurrence_witness :
    (∀ (r0 : RBuffer Nat) d r1, r0.ReadU16 = some (d, r1) → r1.types = r0.types) ∧
    (NewRBuffer (some (bytes "7 9 ")) : RBuffer Nat).types.lookup "animal" = none ∧
    (NewRBuffer (some (bytes "7 9 ")) : RBuffer Nat).ReadU16
      = some (7, NewRBuffer (some (bytes "9 "))) ∧
    (NewRBuffer (some (bytes "9 ")) : RBuffer Nat).err = none ∧
    (NewRBuffer (some (bytes "7 9 ")) : RBuffer Nat).ReadTypeDescr
        (fun r => r.ReadU16) "animal"
      = some (7, { r := some (bytes "9 "), err := none, arch := 0,
                   types := [("animal", 7)] }) :=
  ⟨ReadU16_types, by decide, by decide, rfl,
    ((C4_ReadTypeDescr_first_occurrence (fun r => r.ReadU16)
      (NewRBuffer (some (bytes "7 9 ")) : RBuffer Nat) "animal" ReadU16_types).2.1
      7 (NewRBuffer (some (bytes "9 "))) (by decide) (by decide) rfl).1⟩

section EncoderLemmas

variable {W H : Type} [DecidableEq H]

/-- The switch of `Encode` on a value whose kind has no case: the default
branch, which returns `ErrTypeNotSupported` and leaves the encoder as it is. -/
theorem Encode_switch_default (ops : WBufferOps W H) (e : Encoder W H) :
    (t : Value W) →
    t.kind ∉ [Kind.Bool, Kind.Int8, Kind.Int16, Kind.Int32, Kind.Int64, Kind.Uint8,
      Kind.Uint16, Kind.Uint32, Kind.Uint64, Kind.Float32, Kind.Float64, Kind.Complex64,
      Kind.Complex128, Kind.String, Kind.Struct, Kind.Slice, Kind.Array, Kind.Map] →
    Encoder.Encode ops true e t = some (some Error.ErrTypeNotSupported, e)
  | Value.marshaler f u, h => by
    rw [Encoder.Encode]
    simp only [if_true]
    exact Encode_switch_default ops e u (by simpa [Value.kind] using h)
  | Value.pointer _, _ => by simp [Encoder.Encode]
  | Value.nil, _ => by simp [Encoder.Encode, Encoder.enter]
  | Value.int _, _ => by simp [Encoder.Encode, Encoder.enter]
  | Value.uint _, _ => by simp [Encoder.Encode, Encoder.enter]
  | Value.uintptr _, _ => by simp [Encoder.Encode, Encoder.enter]
  | Value.iface _, _ => by simp [Encoder.Encode, Encoder.enter]
  | Value.chan, _ => by simp [Encoder.Encode, Encoder.enter]
  | Value.func, _ => by simp [Encoder.Encode, Encoder.enter]
  | Value.unsafePointer, _ => by simp [Encoder.Encode, Encoder.enter]
  | Value.bool _, h => by simp [Value.kind] at h
  | Value.int8 _, h => by simp [Value.kind] at h
  | Value.int16 _, h => by simp [Value.kind] at h
  | Value.int32 _, h => by simp [Value.kind] at h
  | Value.int64 _, h => by simp [Value.kind] at h
  | Value.uint8 _, h => by simp [Value.kind] at h
  | Value.uint16 _, h => by simp [Value.kind] at h
  | Value.uint32 _, h => by simp [Value.kind] at h
  | Value.uint64 _, h => by simp [Value.kind] at h
  | Value.float32 _, h => by simp [Value.kind] at h
  | Value.float64 _, h => by simp [Value.kind] at h
  | Value.complex64 _ _, h => by simp [Value.kind] at h
  | Value.complex128 _ _, h => by simp [Value.kind] at h
  | Value.string _, h => by simp [Value.kind] at h
  | Value.struct _ _, h => by simp [Value.kind] at h
  | Value.slice _ _ _, h => by simp [Value.kind] at h
  | Value.array _ _ _, h => by simp [Value.kind] at h
  | Value.map _ _, h => by simp [Value.kind] at h

end EncoderLemmas

/-- Claim C10.  For an encoder whose header write leaves no error latched, a
value that is not a Marshaler and whose kind after `reflect.Indirect` is none of
bool, int8/16/32/64, uint8/16/32/64, float32/64, complex64/128, string, struct,
slice, array and map makes `Encode` return exactly `ErrTypeNotSupported`; the
encoder is then as the header step left it: no call for a value was made on
the `WBuffer`. -/
theorem C10_Encode_TypeNotSupported {W H : Type} [DecidableEq H] (ops : WBufferOps W H)
    (enc : Encoder W H) (v : Value W)
    (hhdr : ops.err (enc.hdrDo ops).w = none)
    (hm : v.isMarshaler = false)
    (hk : v.indirect.kind ∉ [Kind.Bool, Kind.Int8, Kind.Int16, Kind.Int32, Kind.Int64,
      Kind.Uint8, Kind.Uint16, Kind.Uint32, Kind.Uint64, Kind.Float32, Kind.Float64,
      Kind.Complex64, Kind.Complex128, Kind.String, Kind.Struct, Kind.Slice, Kind.Array,
      Kind.Map]) :
    Encoder.Encode ops false enc v = some (some Error.ErrTypeNotSupported, enc.hdrDo ops) := by
  cases v with
  | marshaler f u => simp [Value.isMarshaler, Value.marshalBoost] at hm
  | pointer t =>
    have hmb : (Value.pointer t).marshalBoost = none := by
      simpa [Value.isMarshaler] using hm
    rw [Encoder.Encode]
    simp only [Bool.false_eq_true, if_false, Encoder.enter, hhdr, ne_eq, not_true_eq_false, hmb]
    exact Encode_switch_default ops (enc.hdrDo ops) t (by simpa [Value.indirect] using hk)
  | nil => simp [Encoder.Encode, Encoder.enter, hhdr]
  | int _ => simp [Encoder.Encode, Encoder.enter, hhdr]
  | uint _ => simp [Encoder.Encode, Encoder.enter, hhdr]
  | uintptr _ => simp [Encoder.Encode, Encoder.enter, hhdr]
  | iface _ => simp [Encoder.Encode, Encoder.enter, hhdr]
  | chan => simp [Encoder.Encode, Encoder.enter, hhdr]
  | func => simp [Encoder.Encode, Encoder.enter, hhdr]
  | unsafePointer => simp [Encoder.Encode, Encoder.enter, hhdr]
  | bool _ => simp [Value.indirect, Value.kind] at hk
  | int8 _ => simp [Value.indirect, Value.kind] at hk
  | int16 _ => simp [Value.indirect, Value.kind] at hk
  | int32 _ => simp [Value.indirect, Value.kind] at hk
  | int64 _ => simp [Value.indirect, Value.kind] at hk
  | uint8 _ => simp [Value.indirect, Value.kind] at hk
  | uint16 _ => simp [Value.indirect, Value.kind] at hk
  | uint32 _ => simp [Value.indirect, Value.kind] at hk
  | uint64 _ => simp [Value.indirect, Value.kind] at hk
  | float32 _ => simp [Value.indirect, Value.kind] at hk
  | float64 _ => simp [Value.indirect, Value.kind] at hk
  | complex64 _ _ => simp [Value.indirect, Value.kind] at hk
  | complex128 _ _ => simp [Value.indirect, Value.kind] at hk
  | string _ => simp [Value.indirect, Value.kind] at hk
  | struct _ _ => simp [Value.indirect, Value.kind] at hk
  | slice _ _ _ => simp [Value.indirect, Value.kind] at hk
  | array _ _ _ => simp [Value.indirect, Value.kind] at hk
  | map _ _ => simp [Value.indirect, Value.kind] at hk

/-- The platform-width integer 42, the nil value and a pointer to a pointer,
each handed to a fresh encoder over a recording `WBuffer` (zero header 0,
profile header 17): the header is written, then `ErrTypeNotSupported` is
returned. -/
theorem C10_Encode_TypeNotSupported_witness :
    (recorderOps 0 17 (fun _ => true)).err
      ((({ w := { calls := [], err := none }, Header := 0, hdr := false } :
        Encoder (Recorder Nat) Nat).hdrDo (recorderOps 0 17 (fun _ => true))).w) = none ∧
    ((Value.int 42 : Value (Recorder Nat)).isMarshaler = false ∧
      (Value.int 42 : Value (Recorder Nat)).indirect.kind ∉
        [Kind.Bool, Kind.Int8, Kind.Int16, Kind.Int32, Kind.Int64,
         Kind.Uint8, Kind.Uint16, Kind.Uint32, Kind.Uint64, Kind.Float32, Kind.Float64,
         Kind.Complex64, Kind.Complex128, Kind.String, Kind.Struct, Kind.Slice, Kind.Array,
         Kind.Map] ∧
      Encoder.Encode (recorderOps 0 17 (fun _ => true)) false
          ({ w := { calls := [], err := none }, Header := 0, hdr := false } :
            Encoder (Recorder Nat) Nat) (Value.int 42)
        = some (some Error.ErrTypeNotSupported,
            { w := { calls := [WCall.WriteString magicHeaderSignature, WCall.WriteHeader 17],
                     err := none },
              Header := 17, hdr := true })) ∧
    Encoder.Encode (recorderOps 0 17 (fun _ => true)) false
        ({ w := { calls := [], err := none }, Header := 0, hdr := false } :
          Encoder (Recorder Nat) Nat) Value.nil
      = some (some Error.ErrTypeNotSupported,
          { w := { calls := [WCall.WriteString magicHeaderSignature, WCall.WriteHeader 17],
                   err := none },
            Header := 17, hdr := true }) ∧
    Encoder.Encode (recorderOps 0 17 (fun _ => true)) false
        ({ w := { calls := [], err := none }, Header := 0, hdr := false } :
          Encoder (Recorder Nat) Nat) (Value.pointer (Value.pointer (Value.int8 1)))
      = some (some Error.ErrTypeNotSupported,
          { w := { calls := [WCall.WriteString magicHeaderSignature, WCall.WriteHeader 17],
                   err := none },
            Header := 17, hdr := true }) :=
  ⟨by decide,
    ⟨rfl, by decide,
      C10_Encode_TypeNotSupported (recorderOps 0 17 (fun _ => true))
        ({ w := { calls := [], err := none }, Header := 0, hdr := false } :
          Encoder (Recorder Nat) Nat) (Value.int 42) (by decide) rfl (by decide)⟩,
    C10_Encode_TypeNotSupported (recorderOps 0 17 (fun _ => true))
      ({ w := { calls := [], err := none }, Header := 0, hdr := false } :
        Encoder (Recorder Nat) Nat) Value.nil (by decide) rfl (by decide),
    C10_Encode_TypeNotSupported (recorderOps 0 17 (fun _ => true))
      ({ w := { calls := [], err := none }, Header := 0, hdr := false } :
        Encoder (Recorder Nat) Nat) (Value.pointer (Value.pointer (Value.int8 1)))
      (by decide) rfl (by decide)⟩

section NarrowLemmas

variable {D : Type}

theorem ReadU64_err_zero (r : RBuffer D) (v : Nat) (r' : RBuffer D)
    (h : r.ReadU64 = some (v, r')) (he : r'.err ≠ none) : v = 0 := by
  unfold RBuffer.ReadU64 at h
  split at h
  · simp only [Option.some.injEq, Prod.mk.injEq] at h
    exact h.1.symm
  · split at h
    · exact Option.noConfusion h
    · split at h
      · simp only [Option.some.injEq, Prod.mk.injEq] at h
        exact h.1.symm
      · rename_i hne
        split at h
        · simp only [Option.some.injEq, Prod.mk.injEq] at h
          exact h.1.symm
        · simp only [Option.some.injEq, Prod.mk.injEq] at h
          rw [← h.2] at he
          exact absurd he hne

theorem ParseUint_ok_lt (t : GoString) (v : Nat) (h : ParseUint t = (v, none)) :
    v < 2 ^ 64 := by
  by_cases hP : t ≠ [] ∧ (∀ c ∈ t, isDigit c) ∧ decValue 0 t < 2 ^ 64
  · have h1 := (ParseUint_spec t).1 hP
    rw [h1] at h
    simp only [Prod.mk.injEq, and_true] at h
    rw [← h]; exact hP.2.2
  · obtain ⟨v', e, h1⟩ := (ParseUint_spec t).2 hP
    rw [h1] at h
    simp at h

theorem ReadU64_token (r : RBuffer D) (t rest : List Nat) (v : Nat)
    (he : r.err = none) (hs : r.r = some (t ++ delim :: rest)) (ht : delim ∉ t)
    (hp : ParseUint t = (v, none)) :
    r.ReadU64 = some (v, { r with r := some rest }) := by
  rw [ReadU64_delim r t rest he hs ht, hp]

theorem wrapInt_8_spec (i : Int) :
    -128 ≤ wrapInt 8 i ∧ wrapInt 8 i < 128 ∧ (wrapInt 8 i - i) % 256 = 0 := by
  simp only [wrapInt]
  norm_num
  split <;> omega

theorem wrapInt_16_spec (i : Int) :
    -32768 ≤ wrapInt 16 i ∧ wrapInt 16 i < 32768 ∧ (wrapInt 16 i - i) % 65536 = 0 := by
  simp only [wrapInt]
  norm_num
  split <;> omega

theorem wrapInt_32_spec (i : Int) :
    -2147483648 ≤ wrapInt 32 i ∧ wrapInt 32 i < 2147483648 ∧
      (wrapInt 32 i - i) % 4294967296 = 0 := by
  simp only [wrapInt]
  norm_num
  split <;> omega

theorem toInt64_emod (v : Nat) (hv : v < 2 ^ 64) : toInt64 v % 2 ^ 64 = (v : Int) := by
  have h64 : v % 2 ^ 64 = v := Nat.mod_eq_of_lt hv
  rw [toInt64, h64]
  norm_num at hv ⊢
  split <;> omega

theorem toInt64_mod32 (v : Nat) : toInt64 (v % 2 ^ 32) = ((v % 2 ^ 32 : Nat) : Int) := by
  apply toInt64_of_lt
  have h1 : v % 2 ^ 32 < 2 ^ 32 := Nat.mod_lt _ (by norm_num)
  have h2 : (2 : Nat) ^ 32 < 2 ^ 63 := by norm_num
  omega

end NarrowLemmas

/-- Claim C18.  `ReadBool` is the unsigned 64-bit read narrowed to 8 bits and
compared with 0: on a reader with no latched error, a delimited token that
parses as the unsigned number `v` gives `false` exactly when `v mod 256` is 0
and `true` otherwise, so the digits of 0 give `false` and the digits of every
`v` from 1 to 255 give `true`; and whenever `ReadBool` returns with an error
latched the value it returns is `false`. -/
theorem C18_ReadBool {D : Type} (r : RBuffer D) :
    r.ReadBool = (r.ReadU64).map (fun p => (decide (p.1 % 2 ^ 8 ≠ 0), p.2)) ∧
    (∀ t rest v, r.err = none → r.r = some (t ++ delim :: rest) → delim ∉ t →
      ParseUint t = (v, none) →
      r.ReadBool = some (decide (v % 256 ≠ 0), { r with r := some rest })) ∧
    (∀ rest, r.err = none → r.r = some (decimal 0 ++ delim :: rest) →
      r.ReadBool = some (false, { r with r := some rest })) ∧
    (∀ v rest, 1 ≤ v → v ≤ 255 → r.err = none →
      r.r = some (decimal v ++ delim :: rest) →
      r.ReadBool = some (true, { r with r := some rest })) ∧
    (∀ b r', r.ReadBool = some (b, r') → r'.err ≠ none → b = false) := by
  have hdef : r.ReadBool = (r.ReadU64).map (fun p => (decide (p.1 % 2 ^ 8 ≠ 0), p.2)) := by
    simp only [RBuffer.ReadBool, RBuffer.ReadU8, Option.map_map]
    congr 1
    funext p
    simp only [Function.comp_apply, Prod.mk.injEq, and_true]
    by_cases h : p.1 % 2 ^ 8 = 0 <;> simp [h]
  have htok : ∀ t rest v, r.err = none → r.r = some (t ++ delim :: rest) → delim ∉ t →
      ParseUint t = (v, none) →
      r.ReadBool = some (decide (v % 256 ≠ 0), { r with r := some rest }) := by
    intro t rest v he hs ht hp
    rw [hdef, ReadU64_token r t rest v he hs ht hp]
    rfl
  refine ⟨hdef, htok, ?_, ?_, ?_⟩
  · intro rest he hs
    have h := htok (decimal 0) rest 0 he hs (delim_not_mem_decimal 0)
      (ParseUint_decimal 0 (by norm_num))
    simpa using h
  · intro v rest h1 h255 he hs
    have h := htok (decimal v) rest v he hs (delim_not_mem_decimal v)
      (ParseUint_decimal v (by
        have : (255 : Nat) < 2 ^ 64 := by norm_num
        omega))
    have hv : v % 256 ≠ 0 := by omega
    rw [h]
    simp [hv]
  · intro b r' h herr
    rw [hdef] at h
    simp only [Option.map_eq_some'] at h
    obtain ⟨⟨v, r1⟩, h1, h2⟩ := h
    simp only [Prod.mk.injEq] at h2
    have hr : r1 = r' := h2.2
    subst hr
    have hv := ReadU64_err_zero r v r1 h1 herr
    rw [← h2.1, hv]
    simp

/-- The tokens "256" (false: 256 narrowed to 8 bits is 0) and "2" (true). -/
theorem C18_ReadBool_witness :
    (NewRBuffer (some (bytes "256 2 ")) : RBuffer Unit).err = none ∧
    (NewRBuffer (some (bytes "256 2 ")) : RBuffer Unit).r
      = some (bytes "256" ++ delim :: bytes "2 ") ∧
    delim ∉ bytes "256" ∧ ParseUint (bytes "256") = (256, none) ∧
    (NewRBuffer (some (bytes "256 2 ")) : RBuffer Unit).ReadBool
      = some (false, NewRBuffer (some (bytes "2 "))) :=
  ⟨rfl, by decide, by decide, by decide,
    (C18_ReadBool (NewRBuffer (some (bytes "256 2 ")) : RBuffer Unit)).2.1
      (bytes "256") (bytes "2 ") 256 rfl (by decide) (by decide) (by decide)⟩

/-- Claim C19.  The narrow integer reads are the 64-bit reads followed by a
conversion that cannot fail: whenever `ReadU64` returns `v` and a reader state,
`ReadU8`, `ReadU16` and `ReadU32` return `v` mod 2^8, 2^16 and 2^32 with that
same state (bytes consumed and error latched included); whenever `ReadI64`
returns `i`, `ReadI8`, `ReadI16` and `ReadI32` return `i` wrapped to 8, 16 and
32-bit two's complement with that same state; the wrapped value lies in the
signed range of its width and differs from `i` by a multiple of 2^width. -/
theorem C19_narrowing_never_fails {D : Type} (r : RBuffer D) :
    (∀ v r', r.ReadU64 = some (v, r') →
      r.ReadU8 = some (v % 2 ^ 8, r') ∧ r.ReadU16 = some (v % 2 ^ 16, r') ∧
      r.ReadU32 = some (v % 2 ^ 32, r')) ∧
    (∀ i r', r.ReadI64 = some (i, r') →
      r.ReadI8 = some (wrapInt 8 i, r') ∧ r.ReadI16 = some (wrapInt 16 i, r') ∧
      r.ReadI32 = some (wrapInt 32 i, r')) ∧
    (∀ i : Int,
      (-128 ≤ wrapInt 8 i ∧ wrapInt 8 i < 128 ∧ (wrapInt 8 i - i) % 256 = 0) ∧
      (-32768 ≤ wrapInt 16 i ∧ wrapInt 16 i < 32768 ∧ (wrapInt 16 i - i) % 65536 = 0) ∧
      (-2147483648 ≤ wrapInt 32 i ∧ wrapInt 32 i < 2147483648 ∧
        (wrapInt 32 i - i) % 4294967296 = 0)) := by
  refine ⟨?_, ?_, ?_⟩
  · intro v r' h
    simp [RBuffer.ReadU8, RBuffer.ReadU16, RBuffer.ReadU32, h]
  · intro i r' h
    simp [RBuffer.ReadI8, RBuffer.ReadI16, RBuffer.ReadI32, h]
  · intro i
    exact ⟨wrapInt_8_spec i, wrapInt_16_spec i, wrapInt_32_spec i⟩

/-- The token "300" read as a `uint8`: 44, with no error. -/
theorem C19_narrowing_never_fails_witness :
    (NewRBuffer (some (bytes "300 ")) : RBuffer Unit).ReadU64
      = some (300, NewRBuffer (some [])) ∧
    (NewRBuffer (some (bytes "300 ")) : RBuffer Unit).ReadU8
      = some (44, NewRBuffer (some [])) :=
  ⟨by decide,
    ((C19_narrowing_never_fails (NewRBuffer (some (bytes "300 ")) : RBuffer Unit)).1
      300 (NewRBuffer (some [])) (by decide)).1⟩

/-- Claim C20.  `readLen` reads one unsigned token with `ReadU64` and converts
it to `int`: under profile 32 the value is first reduced mod 2^32, under every
other profile (0, the profile `NewRBuffer` sets, included) all 64 bits are
kept.  On a reader with no latched error and a delimited token that parses as
`v`, the token and its delimiter are consumed and nothing else. -/
theorem C20_readLen_profile {D : Type} (r : RBuffer D) :
    (∀ v r', r.ReadU64 = some (v, r') →
      r.readLen = some (toInt64 (if r.arch = 32 then v % 2 ^ 32 else v), r')) ∧
    (∀ t rest v, r.err = none → r.r = some (t ++ delim :: rest) → delim ∉ t →
      ParseUint t = (v, none) →
      ∃ n, r.readLen = some (n, { r with r := some rest }) ∧
        (r.arch = 32 → n = ((v % 2 ^ 32 : Nat) : Int)) ∧
        (r.arch ≠ 32 → n % 2 ^ 64 = (v : Int) ∧ (v < 2 ^ 63 → n = (v : Int)))) ∧
    (∀ src, (NewRBuffer src : RBuffer D).arch ≠ 32) := by
  have hdef : ∀ v r', r.ReadU64 = some (v, r') →
      r.readLen = some (toInt64 (if r.arch = 32 then v % 2 ^ 32 else v), r') := by
    intro v r' h
    unfold RBuffer.readLen
    by_cases ha : r.arch = 32
    · simp [ha, RBuffer.ReadU32, h]
    · simp [ha, h]
  refine ⟨hdef, ?_, ?_⟩
  · intro t rest v he hs ht hp
    have hU := ReadU64_token r t rest v he hs ht hp
    refine ⟨_, hdef v _ hU, ?_, ?_⟩
    · intro ha
      rw [if_pos ha]
      exact toInt64_mod32 v
    · intro ha
      rw [if_neg ha]
      exact ⟨toInt64_emod v (ParseUint_ok_lt t v hp), fun h => toInt64_of_lt v h⟩
  · intro src
    simp [NewRBuffer]

/-- The length token "4294967301" (2^32 + 5) under profile 32 and under the
profile of `NewRBuffer`. -/
theorem C20_readLen_profile_witness :
    ({ r := some (bytes "4294967301 x"), err := none, arch := 32, types := [] } :
      RBuffer Unit).ReadU64
      = some (4294967301, { r := some (bytes "x"), err := none, arch := 32, types := [] }) ∧
    ({ r := some (bytes "4294967301 x"), err := none, arch := 32, types := [] } :
      RBuffer Unit).readLen
      = some (5, { r := some (bytes "x"), err := none, arch := 32, types := [] }) ∧
    (NewRBuffer (some (bytes "4294967301 x")) : RBuffer Unit).readLen
      = some (4294967301, NewRBuffer (some (bytes "x"))) :=
  ⟨by decide,
    (C20_readLen_profile ({ r := some (bytes "4294967301 x"), err := none, arch := 32,
                            types := [] } : RBuffer Unit)).1 4294967301
      ({ r := some (bytes "x"), err := none, arch := 32, types := [] } : RBuffer Unit)
      (by decide),
    (C20_readLen_profile (NewRBuffer (some (bytes "4294967301 x")) : RBuffer Unit)).1
      4294967301 (NewRBuffer (some (bytes "x"))) (by decide)⟩

/-- Claim C12 fails on the code for `ReadTypeDescr`.  On the source "1 aX7 "
`ReadString` returns "a" and latches `ErrNotADelimiter`, leaving "7 " unread.
`ReadTypeDescr` for a type with no cached descriptor (the descriptor being one
16-bit number) then consumes no byte, but the latched error becomes
`ErrInvalidTypeDescr`; `ReadHeader` on the same reader leaves
`ErrNotADelimiter` in place. -/
theorem C12_ReadTypeDescr_replaces_latched_error :
    (NewRBuffer (some (bytes "1 aX7 ")) : RBuffer Nat).ReadString
      = some (bytes "a", { r := some (bytes "7 "), err := some Error.ErrNotADelimiter,
                           arch := 0, types := [] }) ∧
    ({ r := some (bytes "7 "), err := some Error.ErrNotADelimiter, arch := 0,
       types := [] } : RBuffer Nat).ReadTypeDescr (fun r => r.ReadU16) "animal"
      = some (0, { r := some (bytes "7 "), err := some Error.ErrInvalidTypeDescr,
                   arch := 0, types := [] }) ∧
    ({ r := some (bytes "7 "), err := some Error.ErrNotADelimiter, arch := 0,
       types := [] } : RBuffer Nat).ReadHeader 0 (fun r => r.ReadU16)
      = some (0, { r := some (bytes "7 "), err := some Error.ErrNotADelimiter,
                   arch := 0, types := [] }) := by
  decide

section EncoderFacts

variable {W H : Type} [DecidableEq H]

theorem enter_ok (ops : WBufferOps W H) (enc : Encoder W H)
    (k : Encoder W H → Option (Option Error × Encoder W H))
    (hhdr : ops.err (enc.hdrDo ops).w = none) :
    Encoder.enter ops false enc k = k (enc.hdrDo ops) := by
  simp [Encoder.enter, hhdr]

theorem encodeFields_exported (ops : WBufferOps W H) (fields : List (Bool × Value W))
    (hex : ∀ p ∈ fields, p.1 = true) (e : Encoder W H) :
    Encoder.encodeFields ops e fields = Encoder.encodeElems ops e (fields.map Prod.snd) := by
  induction fields generalizing e with
  | nil => simp [Encoder.encodeFields, Encoder.encodeElems]
  | cons p rest ih =>
    obtain ⟨b, v⟩ := p
    have hb : b = true := hex (b, v) (by simp)
    subst hb
    have hrest : ∀ q ∈ rest, q.1 = true := fun q hq => hex q (List.mem_cons_of_mem _ hq)
    simp only [Encoder.encodeFields, List.map_cons, Encoder.encodeElems, Bool.true_eq_false,
      if_false]
    cases h : Encoder.Encode ops false e v with
    | none => rfl
    | some out => exact ih hrest out.2

end EncoderFacts

/-- Claim C14.  For a value with the method `MarshalBoost`, on an encoder whose
header step leaves no error latched, `Encode` returns exactly what
`MarshalBoost` returns, and the `WBuffer` after the call is the one
`MarshalBoost` left, started from the `WBuffer` the header step left: `Encode`
makes no call of its own, whatever the value underneath is. -/
theorem C14_Marshaler_replaces_traversal {W H : Type} [DecidableEq H]
    (ops : WBufferOps W H) (enc : Encoder W H) (f : W → Option Error × W) (v : Value W)
    (hhdr : ops.err (enc.hdrDo ops).w = none) :
    Encoder.Encode ops false enc (Value.marshaler f v)
      = some ((f (enc.hdrDo ops).w).1,
          { enc.hdrDo ops with w := (f (enc.hdrDo ops).w).2 }) := by
  rw [Encoder.Encode]
  simp only [Bool.false_eq_true, if_false]
  rw [enter_ok ops enc _ hhdr]

/-- The value `manimal{"pet", 4, 1}` of the tests, whose fields are unexported,
handed to a fresh encoder: after the header, the calls are those of its
`MarshalBoost`. -/
theorem C14_Marshaler_replaces_traversal_witness :
    (recorderOps 0 17 (fun _ => true)).err
      (((freshEncoder 0 : Encoder (Recorder Nat) Nat).hdrDo
        (recorderOps 0 17 (fun _ => true))).w) = none ∧
    Encoder.Encode (recorderOps 0 17 (fun _ => true)) false (freshEncoder 0)
        (Value.marshaler (manimalMarshalBoost (bytes "pet") 4 1)
          (Value.struct "manimal"
            [(false, Value.string (bytes "pet")), (false, Value.int16 4),
             (false, Value.int8 1)]))
      = some (none,
          { w := { calls := [WCall.WriteString magicHeaderSignature, WCall.WriteHeader 17,
                             WCall.WriteTypeDescr "animal", WCall.WriteString (bytes "pet"),
                             WCall.WriteI16 4, WCall.WriteI8 1],
                   err := none },
            Header := 17, hdr := true }) :=
  ⟨by decide,
    C14_Marshaler_replaces_traversal (recorderOps 0 17 (fun _ => true)) (freshEncoder 0)
      (manimalMarshalBoost (bytes "pet") 4 1)
      (Value.struct "manimal"
        [(false, Value.string (bytes "pet")), (false, Value.int16 4), (false, Value.int8 1)])
      (by decide)⟩

/-- Claim C11 fails on the code.  A struct with one exported field of the
platform-width type `int`, handed to a fresh encoder over a working `WBuffer`:
the inner `Encode` returns `ErrTypeNotSupported`, the loop over the fields
drops it, and the top-level call returns nil.  The same happens to the error a
`MarshalBoost` returns for an element of a slice. -/
theorem C11_nested_error_is_dropped :
    Encoder.Encode (recorderOps 0 17 (fun _ => true)) false
        ({ w := { calls := [WCall.WriteString magicHeaderSignature, WCall.WriteHeader 17,
                            WCall.WriteTypeDescr "T"],
                  err := none },
           Header := 17, hdr := true } : Encoder (Recorder Nat) Nat)
        (Value.int 42)
      = some (some Error.ErrTypeNotSupported,
          { w := { calls := [WCall.WriteString magicHeaderSignature, WCall.WriteHeader 17,
                             WCall.WriteTypeDescr "T"],
                   err := none },
            Header := 17, hdr := true }) ∧
    Encoder.Encode (recorderOps 0 17 (fun _ => true)) false (freshEncoder 0)
        (Value.struct "T" [(true, Value.int 42)])
      = some (none,
          { w := { calls := [WCall.WriteString magicHeaderSignature, WCall.WriteHeader 17,
                             WCall.WriteTypeDescr "T"],
                   err := none },
            Header := 17, hdr := true }) ∧
    Encoder.Encode (recorderOps 0 17 (fun _ => true)) false (freshEncoder 0)
        (Value.slice "[]M" Kind.Struct
          [Value.marshaler (fun w => (some (Error.custom "refused"), w)) (Value.struct "M" [])])
      = some (none,
          { w := { calls := [WCall.WriteString magicHeaderSignature, WCall.WriteHeader 17,
                             WCall.WriteTypeDescr "[]M", WCall.writeLen 1],
                   err := none },
            Header := 17, hdr := true }) := by
  refine ⟨rfl, rfl, rfl⟩

/-- Claim C15, as the code has it.  On an encoder whose header step leaves no
error latched, `Encode` of a struct whose fields are all exported makes one
`WriteTypeDescr` call for the type of the struct and then runs `Encode`, the
same dispatcher, on every field in declared order, with nothing before,
between or after, and returns `enc.w.err`.  For the struct `animal` of the
tests, on a recording `WBuffer` with no error, the calls are the descriptor,
the string `Name`, the int16 `Legs` and the int8 `Tails`. -/
theorem C15_struct_fields_in_order {W H : Type} [DecidableEq H] (ops : WBufferOps W H)
    (enc : Encoder W H) (rt : ReflectType) (fields : List (Bool × Value W))
    (hhdr : ops.err (enc.hdrDo ops).w = none)
    (hex : ∀ p ∈ fields, p.1 = true) :
    (Encoder.Encode ops false enc (Value.struct rt fields)
      = match Encoder.encodeElems ops ((enc.hdrDo ops).put ops (WCall.WriteTypeDescr rt))
            (fields.map Prod.snd) with
        | none => none
        | some e => some (ops.err e.w, e)) ∧
    (∀ (e : Encoder W H) (v : Value W) (rest : List (Value W)),
      Encoder.encodeElems ops e (v :: rest)
        = match Encoder.Encode ops false e v with
          | none => none
          | some out => Encoder.encodeElems ops out.2 rest) ∧
    (∀ e : Encoder W H, Encoder.encodeElems ops e [] = some e) ∧
    (∀ (pre : List (WCall Nat)) (h : Nat) (name : GoString) (legs tails : Int),
      Encoder.Encode (recorderOps 0 17 (fun _ => true)) false
          ({ w := { calls := pre, err := none }, Header := h, hdr := true } :
            Encoder (Recorder Nat) Nat)
          (Value.struct "animal"
            [(true, Value.string name), (true, Value.int16 legs), (true, Value.int8 tails)])
        = some (none,
            { w := { calls := pre ++ [WCall.WriteTypeDescr "animal", WCall.WriteString name,
                       WCall.WriteI16 (wrapInt 16 legs), WCall.WriteI8 (wrapInt 8 tails)],
                     err := none },
              Header := h, hdr := true })) := by
  refine ⟨?_, ?_, ?_, ?_⟩
  · rw [Encoder.Encode, enter_ok ops enc _ hhdr, encodeFields_exported ops fields hex]
    rfl
  · intro e v rest
    rw [Encoder.encodeElems]
    cases Encoder.Encode ops false e v <;> rfl
  · intro e
    rw [Encoder.encodeElems]
  · intro pre h name legs tails
    simp [Encoder.Encode, Encoder.encodeFields, Encoder.enter, Encoder.hdrDo, Encoder.put,
      Encoder.ret, recorderOps]

/-- The struct `animal{"pet", 4, 1}` of the tests, handed to a fresh encoder. -/
theorem C15_struct_fields_in_order_witness :
    (recorderOps 0 17 (fun _ => true)).err
      (((freshEncoder 0 : Encoder (Recorder Nat) Nat).hdrDo
        (recorderOps 0 17 (fun _ => true))).w) = none ∧
    (∀ p ∈ [(true, (Value.string (bytes "pet") : Value (Recorder Nat))),
            (true, Value.int16 4), (true, Value.int8 1)], p.1 = true) ∧
    Encoder.Encode (recorderOps 0 17 (fun _ => true)) false (freshEncoder 0)
        (Value.struct "animal"
          [(true, Value.string (bytes "pet")), (true, Value.int16 4), (true, Value.int8 1)])
      = (match Encoder.encodeElems (recorderOps 0 17 (fun _ => true))
            (((freshEncoder 0 : Encoder (Recorder Nat) Nat).hdrDo
              (recorderOps 0 17 (fun _ => true))).put (recorderOps 0 17 (fun _ => true))
              (WCall.WriteTypeDescr "animal"))
            ([(true, (Value.string (bytes "pet") : Value (Recorder Nat))),
              (true, Value.int16 4), (true, Value.int8 1)].map Prod.snd) with
        | none => none
        | some e => some ((recorderOps 0 17 (fun _ => true)).err e.w, e)) :=
  ⟨by decide, by simp,
    (C15_struct_fields_in_order (recorderOps 0 17 (fun _ => true)) (freshEncoder 0) "animal"
      [(true, Value.string (bytes "pet")), (true, Value.int16 4), (true, Value.int8 1)]
      (by decide) (by simp)).1⟩

/-- Claim C15 fails as stated: a struct whose one field, a string, is
unexported.  `Encode` writes the header and the descriptor and then panics in
`rv.Field(0).Interface()`: it returns nothing, although `Encode` of the field
value alone succeeds. -/
theorem C15_counterexample :
    Encoder.Encode (recorderOps 0 17 (fun _ => true)) false
        (freshEncoder 0 : Encoder (Recorder Nat) Nat)
        (Value.struct "T" [(false, Value.string (bytes "pet"))]) = none ∧
    Encoder.Encode (recorderOps 0 17 (fun _ => true)) false
        (freshEncoder 0 : Encoder (Recorder Nat) Nat) (Value.string (bytes "pet"))
      = some (none,
          { w := { calls := [WCall.WriteString magicHeaderSignature, WCall.WriteHeader 17,
                             WCall.WriteString (bytes "pet")],
                   err := none },
            Header := 17, hdr := true }) :=
  ⟨rfl, rfl⟩

/-- Claim C16.  On an encoder whose header step leaves no error latched,
`Encode` of a slice of `n` elements makes, in this order, the calls
`WriteTypeDescr` for the slice type, `writeLen n`, `WriteU32 0` if and only if
`isCxxBoostBuiltin` rejects the kind of the element type, and then runs
`Encode` on the elements in index order; `Encode` of an array makes the calls
`WriteTypeDescr` and `writeLen n` and then runs `Encode` on the elements, with
no reserved field whatever the element kind; both return `enc.w.err`. -/
theorem C16_slice_and_array_layout {W H : Type} [DecidableEq H] (ops : WBufferOps W H)
    (enc : Encoder W H) (rt : ReflectType) (elem : Kind) (elems : List (Value W))
    (hhdr : ops.err (enc.hdrDo ops).w = none) :
    (ops.isCxxBoostBuiltin elem = false →
      Encoder.Encode ops false enc (Value.slice rt elem elems)
        = match Encoder.encodeElems ops
              ((((enc.hdrDo ops).put ops (WCall.WriteTypeDescr rt)).put ops
                (WCall.writeLen elems.length)).put ops (WCall.WriteU32 0)) elems with
          | none => none
          | some e => some (ops.err e.w, e)) ∧
    (ops.isCxxBoostBuiltin elem = true →
      Encoder.Encode ops false enc (Value.slice rt elem elems)
        = match Encoder.encodeElems ops
              (((enc.hdrDo ops).put ops (WCall.WriteTypeDescr rt)).put ops
                (WCall.writeLen elems.length)) elems with
          | none => none
          | some e => some (ops.err e.w, e)) ∧
    (Encoder.Encode ops false enc (Value.array rt elem elems)
      = match Encoder.encodeElems ops
            (((enc.hdrDo ops).put ops (WCall.WriteTypeDescr rt)).put ops
              (WCall.writeLen elems.length)) elems with
        | none => none
        | some e => some (ops.err e.w, e)) ∧
    (∀ (e : Encoder W H) (v : Value W) (rest : List (Value W)),
      Encoder.encodeElems ops e (v :: rest)
        = match Encoder.Encode ops false e v with
          | none => none
          | some out => Encoder.encodeElems ops out.2 rest) ∧
    (∀ e : Encoder W H, Encoder.encodeElems ops e [] = some e) := by
  refine ⟨?_, ?_, ?_, ?_, ?_⟩
  · intro hb
    rw [Encoder.Encode, enter_ok ops enc _ hhdr]
    simp only [hb, if_true]
    rfl
  · intro hb
    rw [Encoder.Encode, enter_ok ops enc _ hhdr]
    simp only [hb, Bool.true_eq_false, if_false]
    rfl
  · rw [Encoder.Encode, enter_ok ops enc _ hhdr]
    rfl
  · intro e v rest
    rw [Encoder.encodeElems]
    cases Encoder.Encode ops false e v <;> rfl
  · intro e
    rw [Encoder.encodeElems]

/-- The slices `[]uint8{0x11, 0x22}` (element kind taken as builtin) and
`[]string{"s1"}` (element kind taken as not builtin) and the array
`[2]uint8{0x11, 0x22}`, each handed to a fresh encoder. -/
theorem C16_slice_and_array_layout_witness :
    (recorderOps 0 17 (fun k => decide (k = Kind.Uint8))).err
      (((freshEncoder 0 : Encoder (Recorder Nat) Nat).hdrDo
        (recorderOps 0 17 (fun k => decide (k = Kind.Uint8)))).w) = none ∧
    (recorderOps (0 : Nat) 17 (fun k => decide (k = Kind.Uint8))).isCxxBoostBuiltin
      Kind.String = false ∧
    Encoder.Encode (recorderOps 0 17 (fun k => decide (k = Kind.Uint8))) false
        (freshEncoder 0) (Value.slice "[]string" Kind.String [Value.string (bytes "s1")])
      = (match Encoder.encodeElems (recorderOps 0 17 (fun k => decide (k = Kind.Uint8)))
            (((((freshEncoder 0 : Encoder (Recorder Nat) Nat).hdrDo
              (recorderOps 0 17 (fun k => decide (k = Kind.Uint8)))).put
              (recorderOps 0 17 (fun k => decide (k = Kind.Uint8)))
              (WCall.WriteTypeDescr "[]string")).put
              (recorderOps 0 17 (fun k => decide (k = Kind.Uint8)))
              (WCall.writeLen ([Value.string (bytes "s1")] :
                List (Value (Recorder Nat))).length)).put
              (recorderOps 0 17 (fun k => decide (k = Kind.Uint8))) (WCall.WriteU32 0))
            [Value.string (bytes "s1")] with
        | none => none
        | some e => some ((recorderOps 0 17 (fun k => decide (k = Kind.Uint8))).err e.w, e)) ∧
    Encoder.Encode (recorderOps 0 17 (fun k => decide (k = Kind.Uint8))) false
        (freshEncoder 0) (Value.slice "[]string" Kind.String [Value.string (bytes "s1")])
      = some (none,
          { w := { calls := [WCall.WriteString magicHeaderSignature, WCall.WriteHeader 17,
                             WCall.WriteTypeDescr "[]string", WCall.writeLen 1,
                             WCall.WriteU32 0, WCall.WriteString (bytes "s1")],
                   err := none },
            Header := 17, hdr := true }) ∧
    Encoder.Encode (recorderOps 0 17 (fun k => decide (k = Kind.Uint8))) false
        (freshEncoder 0) (Value.slice "[]uint8" Kind.Uint8 [Value.uint8 17, Value.uint8 34])
      = some (none,
          { w := { calls := [WCall.WriteString magicHeaderSignature, WCall.WriteHeader 17,
                             WCall.WriteTypeDescr "[]uint8", WCall.writeLen 2,
                             WCall.WriteU8 17, WCall.WriteU8 34],
                   err := none },
            Header := 17, hdr := true }) ∧
    Encoder.Encode (recorderOps 0 17 (fun k => decide (k = Kind.Uint8))) false
        (freshEncoder 0) (Value.array "[1]string" Kind.String [Value.string (bytes "s1")])
      = some (none,
          { w := { calls := [WCall.WriteString magicHeaderSignature, WCall.WriteHeader 17,
                             WCall.WriteTypeDescr "[1]string", WCall.writeLen 1,
                             WCall.WriteString (bytes "s1")],
                   err := none },
            Header := 17, hdr := true }) :=
  ⟨by decide, by decide,
    (C16_slice_and_array_layout (recorderOps 0 17 (fun k => decide (k = Kind.Uint8)))
      (freshEncoder 0) "[]string" Kind.String [Value.string (bytes "s1")] (by decide)).1
      (by decide),
    rfl, rfl, rfl⟩

/-- Claim C17.  On an encoder whose header step leaves no error latched,
`Encode` of a map of `n` entries makes, in this order, the calls
`WriteTypeDescr` for the map type, `writeLen n`, `WriteU64 0` and `WriteU8 0`,
and then, for each entry in the order of `MapKeys`, each entry once, runs
`Encode` on the key and then on the value; it returns `enc.w.err`. -/
theorem C17_map_layout {W H : Type} [DecidableEq H] (ops : WBufferOps W H)
    (enc : Encoder W H) (rt : ReflectType) (entries : List (Value W × Value W))
    (hhdr : ops.err (enc.hdrDo ops).w = none) :
    (Encoder.Encode ops false enc (Value.map rt entries)
      = match Encoder.encodeEntries ops
            (((((enc.hdrDo ops).put ops (WCall.WriteTypeDescr rt)).put ops
              (WCall.writeLen entries.length)).put ops (WCall.WriteU64 0)).put ops
              (WCall.WriteU8 0)) entries with
        | none => none
        | some e => some (ops.err e.w, e)) ∧
    (∀ (e : Encoder W H) (k v : Value W) (rest : List (Value W × Value W)),
      Encoder.encodeEntries ops e ((k, v) :: rest)
        = match Encoder.Encode ops false e k with
          | none => none
          | some out1 =>
            match Encoder.Encode ops false out1.2 v with
            | none => none
            | some out2 => Encoder.encodeEntries ops out2.2 rest) ∧
    (∀ e : Encoder W H, Encoder.encodeEntries ops e [] = some e) := by
  refine ⟨?_, ?_, ?_⟩
  · rw [Encoder.Encode, enter_ok ops enc _ hhdr]
    rfl
  · intro e k v rest
    rw [Encoder.encodeEntries]
    cases h1 : Encoder.Encode ops false e k with
    | none => rfl
    | some out1 =>
      simp only []
      cases h2 : Encoder.Encode ops false out1.2 v <;> rfl
  · intro e
    rw [Encoder.encodeEntries]

/-- The map `{"eins": "un", "zwei": "deux"}` of the tests, iterated in that
order, handed to a fresh encoder. -/
theorem C17_map_layout_witness :
    (recorderOps 0 17 (fun _ => true)).err
      (((freshEncoder 0 : Encoder (Recorder Nat) Nat).hdrDo
        (recorderOps 0 17 (fun _ => true))).w) = none ∧
    Encoder.Encode (recorderOps 0 17 (fun _ => true)) false (freshEncoder 0)
        (Value.map "map[string]string"
          [(Value.string (bytes "eins"), Value.string (bytes "un")),
           (Value.string (bytes "zwei"), Value.string (bytes "deux"))])
      = (match Encoder.encodeEntries (recorderOps 0 17 (fun _ => true))
            ((((((freshEncoder 0 : Encoder (Recorder Nat) Nat).hdrDo
              (recorderOps 0 17 (fun _ => true))).put (recorderOps 0 17 (fun _ => true))
              (WCall.WriteTypeDescr "map[string]string")).put
              (recorderOps 0 17 (fun _ => true))
              (WCall.writeLen ([(Value.string (bytes "eins"), Value.string (bytes "un")),
                (Value.string (bytes "zwei"), Value.string (bytes "deux"))] :
                List (Value (Recorder Nat) × Value (Recorder Nat))).length)).put
              (recorderOps 0 17 (fun _ => true)) (WCall.WriteU64 0)).put
              (recorderOps 0 17 (fun _ => true)) (WCall.WriteU8 0))
            [(Value.string (bytes "eins"), Value.string (bytes "un")),
             (Value.string (bytes "zwei"), Value.string (bytes "deux"))] with
        | none => none
        | some e => some ((recorderOps 0 17 (fun _ => true)).err e.w, e)) ∧
    Encoder.Encode (recorderOps 0 17 (fun _ => true)) false (freshEncoder 0)
        (Value.map "map[string]string"
          [(Value.string (bytes "eins"), Value.string (bytes "un")),
           (Value.string (bytes "zwei"), Value.string (bytes "deux"))])
      = some (none,
          { w := { calls := [WCall.WriteString magicHeaderSignature, WCall.WriteHeader 17,
                             WCall.WriteTypeDescr "map[string]string", WCall.writeLen 2,
                             WCall.WriteU64 0, WCall.WriteU8 0,
                             WCall.WriteString (bytes "eins"), WCall.WriteString (bytes "un"),
                             WCall.WriteString (bytes "zwei"),
                             WCall.WriteString (bytes "deux")],
                   err := none },
            Header := 17, hdr := true }) :=
  ⟨by decide,
    (C17_map_layout (recorderOps 0 17 (fun _ => true)) (freshEncoder 0) "map[string]string"
      [(Value.string (bytes "eins"), Value.string (bytes "un")),
       (Value.string (bytes "zwei"), Value.string (bytes "deux"))] (by decide)).1,
    rfl⟩

section EncoderInvariants

variable {W H : Type} [DecidableEq H]

theorem hdrDo_of_done (ops : WBufferOps W H) (enc : Encoder W H) (h : enc.hdr = true) :
    enc.hdrDo ops = enc := by
  simp [Encoder.hdrDo, h]

theorem hdrDo_hdr (ops : WBufferOps W H) (enc : Encoder W H) :
    (enc.hdrDo ops).hdr = true := by
  unfold Encoder.hdrDo
  split
  · assumption
  · rfl

theorem hdrDo_idem (ops : WBufferOps W H) (enc : Encoder W H) :
    (enc.hdrDo ops).hdrDo ops = enc.hdrDo ops :=
  hdrDo_of_done ops _ (hdrDo_hdr ops enc)

/-- The opening of `Encode` on an encoder whose header is written: either the
call returns at the error check, the encoder untouched, or the rest of the
method runs on the encoder as it is. -/
theorem enter_cases (ops : WBufferOps W H) (sw : Bool) (enc : Encoder W H)
    (k : Encoder W H → Option (Option Error × Encoder W H))
    (out : Option Error) (e' : Encoder W H) (hh : enc.hdr = true)
    (h : Encoder.enter ops sw enc k = some (out, e')) :
    e' = enc ∨ k enc = some (out, e') := by
  unfold Encoder.enter at h
  rw [hdrDo_of_done ops enc hh] at h
  split at h
  · exact Or.inr h
  · dsimp only at h
    split at h
    · simp only [Option.some.injEq, Prod.mk.injEq] at h
      exact Or.inl h.2.symm
    · exact Or.inr h

/-- A value of a scalar kind: one call, then `return enc.w.err`. -/
theorem scalar_preserves (ops : WBufferOps W H) (Q : W → Prop)
    (hcall : ∀ c w, WCall.isWriteHeader c = false → Q w → Q (ops.call c w))
    (sw : Bool) (enc : Encoder W H) (c : WCall H)
    (out : Option Error) (e' : Encoder W H) (hc : c.isWriteHeader = false)
    (hh : enc.hdr = true) (hq : Q enc.w)
    (h : Encoder.enter ops sw enc (fun e => (e.put ops c).ret ops) = some (out, e')) :
    Q e'.w ∧ e'.hdr = true ∧ e'.Header = enc.Header := by
  rcases enter_cases ops sw enc _ out e' hh h with h1 | h1
  · subst h1; exact ⟨hq, hh, rfl⟩
  · simp only [Encoder.ret, Option.some.injEq, Prod.mk.injEq] at h1
    rw [← h1.2]
    exact ⟨hcall c enc.w hc hq, hh, rfl⟩

/-- A value of a kind with no case: the default branch. -/
theorem default_preserves (ops : WBufferOps W H) (Q : W → Prop)
    (sw : Bool) (enc : Encoder W H)
    (out : Option Error) (e' : Encoder W H) (hh : enc.hdr = true) (hq : Q enc.w)
    (h : Encoder.enter ops sw enc (fun e => some (some Error.ErrTypeNotSupported, e))
      = some (out, e')) :
    Q e'.w ∧ e'.hdr = true ∧ e'.Header = enc.Header := by
  rcases enter_cases ops sw enc _ out e' hh h with h1 | h1
  · subst h1; exact ⟨hq, hh, rfl⟩
  · simp only [Option.some.injEq, Prod.mk.injEq] at h1
    rw [← h1.2]
    exact ⟨hq, hh, rfl⟩

/-- A composite value: some calls, then a loop that keeps the invariant, then
`return enc.w.err`. -/
theorem composite_preserves (ops : WBufferOps W H) (Q : W → Prop)
    (sw : Bool) (enc : Encoder W H) (start : Encoder W H → Encoder W H)
    (loop : Encoder W H → Option (Encoder W H))
    (out : Option Error) (e' : Encoder W H) (hh : enc.hdr = true) (hq : Q enc.w)
    (hstart : Q (start enc).w ∧ (start enc).hdr = true ∧ (start enc).Header = enc.Header)
    (hloop : ∀ e1, loop (start enc) = some e1 →
      Q e1.w ∧ e1.hdr = true ∧ e1.Header = (start enc).Header)
    (h : Encoder.enter ops sw enc (fun e =>
      match loop (start e) with
      | none => none
      | some e1 => e1.ret ops) = some (out, e')) :
    Q e'.w ∧ e'.hdr = true ∧ e'.Header = enc.Header := by
  rcases enter_cases ops sw enc _ out e' hh h with h1 | h1
  · subst h1; exact ⟨hq, hh, rfl⟩
  · have h2 : (match loop (start enc) with
        | none => none
        | some e1 => e1.ret ops) = some (out, e') := h1
    cases hl : loop (start enc) with
    | none => rw [hl] at h2; exact Option.noConfusion h2
    | some e1 =>
      rw [hl] at h2
      simp only [Encoder.ret, Option.some.injEq, Prod.mk.injEq] at h2
      obtain ⟨a, b, c⟩ := hloop e1 hl
      rw [← h2.2]
      exact ⟨a, b, c.trans hstart.2.2⟩

/-- A pointer has the method `MarshalBoost` only through its target. -/
theorem marshalBoost_pointer_some (t : Value W) (f : W → Option Error × W)
    (h : (Value.pointer t).marshalBoost = some f) : ∃ v, t = Value.marshaler f v := by
  cases t with
  | marshaler g v =>
    simp only [Value.marshalBoost] at h
    split at h
    · exact Option.noConfusion h
    · simp only [Option.some.injEq] at h
      exact ⟨v, by rw [h]⟩
  | _ => simp [Value.marshalBoost] at h

mutual

/-- On an encoder whose header is written, `Encode` keeps every property of
the `WBuffer` that calls other than `WriteHeader` and the `MarshalBoost`
methods of the value keep; the flag of the `sync.Once` and the field `Header`
stay as they are. -/
theorem Encode_preserves (ops : WBufferOps W H) (Q : W → Prop)
    (hcall : ∀ c w, WCall.isWriteHeader c = false → Q w → Q (ops.call c w)) :
    (v : Value W) → (sw : Bool) → (enc : Encoder W H) → (out : Option Error) →
    (e' : Encoder W H) → Value.marshalersAll (fun f => ∀ w, Q w → Q (f w).2) v →
    enc.hdr = true → Q enc.w → Encoder.Encode ops sw enc v = some (out, e') →
    Q e'.w ∧ e'.hdr = true ∧ e'.Header = enc.Header
  | Value.marshaler f v, sw, enc, out, e', hm, hh, hq, h => by
    rw [Encoder.Encode] at h
    rw [Value.marshalersAll] at hm
    cases sw with
    | true =>
      simp only [if_true] at h
      exact Encode_preserves ops Q hcall v true enc out e' hm.2 hh hq h
    | false =>
      simp only [Bool.false_eq_true, if_false] at h
      rcases enter_cases ops false enc _ out e' hh h with h1 | h1
      · subst h1; exact ⟨hq, hh, rfl⟩
      · simp only [Option.some.injEq, Prod.mk.injEq] at h1
        rw [← h1.2]
        exact ⟨hm.1 enc.w hq, hh, rfl⟩
  | Value.pointer t, sw, enc, out, e', hm, hh, hq, h => by
    rw [Encoder.Encode] at h
    rw [Value.marshalersAll] at hm
    cases sw with
    | true =>
      simp only [if_true, Option.some.injEq, Prod.mk.injEq] at h
      rw [← h.2]; exact ⟨hq, hh, rfl⟩
    | false =>
      simp only [Bool.false_eq_true, if_false] at h
      rcases enter_cases ops false enc _ out e' hh h with h1 | h1
      · subst h1; exact ⟨hq, hh, rfl⟩
      · cases hmb : (Value.pointer t).marshalBoost with
        | none =>
          rw [hmb] at h1
          exact Encode_preserves ops Q hcall t true enc out e' hm hh hq h1
        | some f =>
          rw [hmb] at h1
          obtain ⟨v, hv⟩ := marshalBoost_pointer_some t f hmb
          rw [hv, Value.marshalersAll] at hm
          simp only [Option.some.injEq, Prod.mk.injEq] at h1
          rw [← h1.2]
          exact ⟨hm.1 enc.w hq, hh, rfl⟩
  | Value.struct rt fields, sw, enc, out, e', hm, hh, hq, h => by
    rw [Encoder.Encode] at h
    rw [Value.marshalersAll] at hm
    exact composite_preserves ops Q sw enc (fun e => e.put ops (WCall.WriteTypeDescr rt))
      (fun e => Encoder.encodeFields ops e fields) out e' hh hq
      ⟨hcall _ _ rfl hq, hh, rfl⟩
      (fun e1 hl => encodeFields_preserves ops Q hcall fields _ e1 hm hh (hcall _ _ rfl hq) hl)
      h
  | Value.slice rt elem elems, sw, enc, out, e', hm, hh, hq, h => by
    rw [Encoder.Encode] at h
    rw [Value.marshalersAll] at hm
    have hs : Q ((if ops.isCxxBoostBuiltin elem = false then
          ((enc.put ops (WCall.WriteTypeDescr rt)).put ops
            (WCall.writeLen elems.length)).put ops (WCall.WriteU32 0)
        else (enc.put ops (WCall.WriteTypeDescr rt)).put ops
            (WCall.writeLen elems.length))).w ∧
        (if ops.isCxxBoostBuiltin elem = false then
          ((enc.put ops (WCall.WriteTypeDescr rt)).put ops
            (WCall.writeLen elems.length)).put ops (WCall.WriteU32 0)
        else (enc.put ops (WCall.WriteTypeDescr rt)).put ops
            (WCall.writeLen elems.length)).hdr = true ∧
        (if ops.isCxxBoostBuiltin elem = false then
          ((enc.put ops (WCall.WriteTypeDescr rt)).put ops
            (WCall.writeLen elems.length)).put ops (WCall.WriteU32 0)
        else (enc.put ops (WCall.WriteTypeDescr rt)).put ops
            (WCall.writeLen elems.length)).Header = enc.Header := by
      split
      · exact ⟨hcall _ _ rfl (hcall _ _ rfl (hcall _ _ rfl hq)), hh, rfl⟩
      · exact ⟨hcall _ _ rfl (hcall _ _ rfl hq), hh, rfl⟩
    exact composite_preserves ops Q sw enc
      (fun e => if ops.isCxxBoostBuiltin elem = false then
          ((e.put ops (WCall.WriteTypeDescr rt)).put ops
            (WCall.writeLen elems.length)).put ops (WCall.WriteU32 0)
        else (e.put ops (WCall.WriteTypeDescr rt)).put ops (WCall.writeLen elems.length))
      (fun e => Encoder.encodeElems ops e elems) out e' hh hq hs
      (fun e1 hl => encodeElems_preserves ops Q hcall elems _ e1 hm hs.2.1 hs.1 hl)
      h
  | Value.array rt _ elems, sw, enc, out, e', hm, hh, hq, h => by
    rw [Encoder.Encode] at h
    rw [Value.marshalersAll] at hm
    exact composite_preserves ops Q sw enc
      (fun e => (e.put ops (WCall.WriteTypeDescr rt)).put ops (WCall.writeLen elems.length))
      (fun e => Encoder.encodeElems ops e elems) out e' hh hq
      ⟨hcall _ _ rfl (hcall _ _ rfl hq), hh, rfl⟩
      (fun e1 hl => encodeElems_preserves ops Q hcall elems _ e1 hm hh
        (hcall _ _ rfl (hcall _ _ rfl hq)) hl)
      h
  | Value.map rt entries, sw, enc, out, e', hm, hh, hq, h => by
    rw [Encoder.Encode] at h
    rw [Value.marshalersAll] at hm
    exact composite_preserves ops Q sw enc
      (fun e => (((e.put ops (WCall.WriteTypeDescr rt)).put ops
        (WCall.writeLen entries.length)).put ops (WCall.WriteU64 0)).put ops (WCall.WriteU8 0))
      (fun e => Encoder.encodeEntries ops e entries) out e' hh hq
      ⟨hcall _ _ rfl (hcall _ _ rfl (hcall _ _ rfl (hcall _ _ rfl hq))), hh, rfl⟩
      (fun e1 hl => encodeEntries_preserves ops Q hcall entries _ e1 hm hh
        (hcall _ _ rfl (hcall _ _ rfl (hcall _ _ rfl (hcall _ _ rfl hq)))) hl)
      h
  | Value.bool b, sw, enc, out, e', _, hh, hq, h => by
    rw [Encoder.Encode] at h
    exact scalar_preserves ops Q hcall sw enc (WCall.WriteBool b) out e' rfl hh hq h
  | Value.int8 v, sw, enc, out, e', _, hh, hq, h => by
    rw [Encoder.Encode] at h
    exact scalar_preserves ops Q hcall sw enc (WCall.WriteI8 (wrapInt 8 v)) out e' rfl hh hq h
  | Value.int16 v, sw, enc, out, e', _, hh, hq, h => by
    rw [Encoder.Encode] at h
    exact scalar_preserves ops Q hcall sw enc (WCall.WriteI16 (wrapInt 16 v)) out e' rfl hh hq h
  | Value.int32 v, sw, enc, out, e', _, hh, hq, h => by
    rw [Encoder.Encode] at h
    exact scalar_preserves ops Q hcall sw enc (WCall.WriteI32 (wrapInt 32 v)) out e' rfl hh hq h
  | Value.int64 v, sw, enc, out, e', _, hh, hq, h => by
    rw [Encoder.Encode] at h
    exact scalar_preserves ops Q hcall sw enc (WCall.WriteI64 v) out e' rfl hh hq h
  | Value.uint8 v, sw, enc, out, e', _, hh, hq, h => by
    rw [Encoder.Encode] at h
    exact scalar_preserves ops Q hcall sw enc (WCall.WriteU8 (v % 2 ^ 8)) out e' rfl hh hq h
  | Value.uint16 v, sw, enc, out, e', _, hh, hq, h => by
    rw [Encoder.Encode] at h
    exact scalar_preserves ops Q hcall sw enc (WCall.WriteU16 (v % 2 ^ 16)) out e' rfl hh hq h
  | Value.uint32 v, sw, enc, out, e', _, hh, hq, h => by
    rw [Encoder.Encode] at h
    exact scalar_preserves ops Q hcall sw enc (WCall.WriteU32 (v % 2 ^ 32)) out e' rfl hh hq h
  | Value.uint64 v, sw, enc, out, e', _, hh, hq, h => by
    rw [Encoder.Encode] at h
    exact scalar_preserves ops Q hcall sw enc (WCall.WriteU64 v) out e' rfl hh hq h
  | Value.float32 x, sw, enc, out, e', _, hh, hq, h => by
    rw [Encoder.Encode] at h
    exact scalar_preserves ops Q hcall sw enc (WCall.WriteF32 x) out e' rfl hh hq h
  | Value.float64 x, sw, enc, out, e', _, hh, hq, h => by
    rw [Encoder.Encode] at h
    exact scalar_preserves ops Q hcall sw enc (WCall.WriteF64 x) out e' rfl hh hq h
  | Value.complex64 re im, sw, enc, out, e', _, hh, hq, h => by
    rw [Encoder.Encode] at h
    exact scalar_preserves ops Q hcall sw enc (WCall.WriteC64 re im) out e' rfl hh hq h
  | Value.complex128 re im, sw, enc, out, e', _, hh, hq, h => by
    rw [Encoder.Encode] at h
    exact scalar_preserves ops Q hcall sw enc (WCall.WriteC128 re im) out e' rfl hh hq h
  | Value.string s, sw, enc, out, e', _, hh, hq, h => by
    rw [Encoder.Encode] at h
    exact scalar_preserves ops Q hcall sw enc (WCall.WriteString s) out e' rfl hh hq h
  | Value.nil, sw, enc, out, e', _, hh, hq, h => by
    rw [Encoder.Encode] at h
    exact default_preserves ops Q sw enc out e' hh hq h
  | Value.int _, sw, enc, out, e', _, hh, hq, h => by
    rw [Encoder.Encode] at h
    exact default_preserves ops Q sw enc out e' hh hq h
  | Value.uint _, sw, enc, out, e', _, hh, hq, h => by
    rw [Encoder.Encode] at h
    exact default_preserves ops Q sw enc out e' hh hq h
  | Value.uintptr _, sw, enc, out, e', _, hh, hq, h => by
    rw [Encoder.Encode] at h
    exact default_preserves ops Q sw enc out e' hh hq h
  | Value.iface _, sw, enc, out, e', _, hh, hq, h => by
    rw [Encoder.Encode] at h
    exact default_preserves ops Q sw enc out e' hh hq h
  | Value.chan, sw, enc, out, e', _, hh, hq, h => by
    rw [Encoder.Encode] at h
    exact default_preserves ops Q sw enc out e' hh hq h
  | Value.func, sw, enc, out, e', _, hh, hq, h => by
    rw [Encoder.Encode] at h
    exact default_preserves ops Q sw enc out e' hh hq h
  | Value.unsafePointer, sw, enc, out, e', _, hh, hq, h => by
    rw [Encoder.Encode] at h
    exact default_preserves ops Q sw enc out e' hh hq h

theorem encodeFields_preserves (ops : WBufferOps W H) (Q : W → Prop)
    (hcall : ∀ c w, WCall.isWriteHeader c = false → Q w → Q (ops.call c w)) :
    (fields : List (Bool × Value W)) → (enc : Encoder W H) → (e' : Encoder W H) →
    Value.fieldsAll (fun f => ∀ w, Q w → Q (f w).2) fields →
    enc.hdr = true → Q enc.w → Encoder.encodeFields ops enc fields = some e' →
    Q e'.w ∧ e'.hdr = true ∧ e'.Header = enc.Header
  | [], enc, e', _, hh, hq, h => by
    rw [Encoder.encodeFields] at h
    simp only [Option.some.injEq] at h
    rw [← h]; exact ⟨hq, hh, rfl⟩
  | (b, v) :: rest, enc, e', hm, hh, hq, h => by
    rw [Encoder.encodeFields] at h
    rw [Value.fieldsAll] at hm
    split at h
    · exact Option.noConfusion h
    · cases hv : Encoder.Encode ops false enc v with
      | none => rw [hv] at h; exact Option.noConfusion h
      | some p =>
        obtain ⟨o, e1⟩ := p
        rw [hv] at h
        dsimp only at h
        obtain ⟨a1, b1, c1⟩ := Encode_preserves ops Q hcall v false enc o e1 hm.1 hh hq hv
        obtain ⟨a2, b2, c2⟩ := encodeFields_preserves ops Q hcall rest e1 e' hm.2 b1 a1 h
        exact ⟨a2, b2, c2.trans c1⟩

theorem encodeElems_preserves (ops : WBufferOps W H) (Q : W → Prop)
    (hcall : ∀ c w, WCall.isWriteHeader c = false → Q w → Q (ops.call c w)) :
    (elems : List (Value W)) → (enc : Encoder W H) → (e' : Encoder W H) →
    Value.elemsAll (fun f => ∀ w, Q w → Q (f w).2) elems →
    enc.hdr = true → Q enc.w → Encoder.encodeElems ops enc elems = some e' →
    Q e'.w ∧ e'.hdr = true ∧ e'.Header = enc.Header
  | [], enc, e', _, hh, hq, h => by
    rw [Encoder.encodeElems] at h
    simp only [Option.some.injEq] at h
    rw [← h]; exact ⟨hq, hh, rfl⟩
  | v :: rest, enc, e', hm, hh, hq, h => by
    rw [Encoder.encodeElems] at h
    rw [Value.elemsAll] at hm
    cases hv : Encoder.Encode ops false enc v with
    | none => rw [hv] at h; exact Option.noConfusion h
    | some p =>
      obtain ⟨o, e1⟩ := p
      rw [hv] at h
      dsimp only at h
      obtain ⟨a1, b1, c1⟩ := Encode_preserves ops Q hcall v false enc o e1 hm.1 hh hq hv
      obtain ⟨a2, b2, c2⟩ := encodeElems_preserves ops Q hcall rest e1 e' hm.2 b1 a1 h
      exact ⟨a2, b2, c2.trans c1⟩

theorem encodeEntries_preserves (ops : WBufferOps W H) (Q : W → Prop)
    (hcall : ∀ c w, WCall.isWriteHeader c = false → Q w → Q (ops.call c w)) :
    (entries : List (Value W × Value W)) → (enc : Encoder W H) → (e' : Encoder W H) →
    Value.entriesAll (fun f => ∀ w, Q w → Q (f w).2) entries →
    enc.hdr = true → Q enc.w → Encoder.encodeEntries ops enc entries = some e' →
    Q e'.w ∧ e'.hdr = true ∧ e'.Header = enc.Header
  | [], enc, e', _, hh, hq, h => by
    rw [Encoder.encodeEntries] at h
    simp only [Option.some.injEq] at h
    rw [← h]; exact ⟨hq, hh, rfl⟩
  | (k, v) :: rest, enc, e', hm, hh, hq, h => by
    rw [Encoder.encodeEntries] at h
    rw [Value.entriesAll] at hm
    cases hk : Encoder.Encode ops false enc k with
    | none => rw [hk] at h; exact Option.noConfusion h
    | some p =>
      obtain ⟨o, e1⟩ := p
      rw [hk] at h
      dsimp only at h
      obtain ⟨a1, b1, c1⟩ := Encode_preserves ops Q hcall k false enc o e1 hm.1 hh hq hk
      cases hv : Encoder.Encode ops false e1 v with
      | none => rw [hv] at h; exact Option.noConfusion h
      | some p2 =>
        obtain ⟨o2, e2⟩ := p2
        rw [hv] at h
        dsimp only at h
        obtain ⟨a2, b2, c2⟩ := Encode_preserves ops Q hcall v false e1 o2 e2 hm.2.1 b1 a1 hv
        obtain ⟨a3, b3, c3⟩ :=
          encodeEntries_preserves ops Q hcall rest e2 e' hm.2.2 b2 a2 h
        exact ⟨a3, b3, (c3.trans c2).trans c1⟩

end

end EncoderInvariants

section HeaderOnce

variable {W H : Type} [DecidableEq H]

mutual

theorem marshalersAll_of_forall (P : (W → Option Error × W) → Prop) (hP : ∀ f, P f) :
    (v : Value W) → Value.marshalersAll P v
  | Value.marshaler f v => by
    rw [Value.marshalersAll]; exact ⟨hP f, marshalersAll_of_forall P hP v⟩
  | Value.pointer t => by
    rw [Value.marshalersAll]; exact marshalersAll_of_forall P hP t
  | Value.iface d => by
    rw [Value.marshalersAll]; exact marshalersAll_of_forall P hP d
  | Value.struct _ fields => by
    rw [Value.marshalersAll]; exact fieldsAll_of_forall P hP fields
  | Value.slice _ _ elems => by
    rw [Value.marshalersAll]; exact elemsAll_of_forall P hP elems
  | Value.array _ _ elems => by
    rw [Value.marshalersAll]; exact elemsAll_of_forall P hP elems
  | Value.map _ entries => by
    rw [Value.marshalersAll]; exact entriesAll_of_forall P hP entries
  | Value.nil => by simp [Value.marshalersAll]
  | Value.bool _ => by simp [Value.marshalersAll]
  | Value.int _ => by simp [Value.marshalersAll]
  | Value.int8 _ => by simp [Value.marshalersAll]
  | Value.int16 _ => by simp [Value.marshalersAll]
  | Value.int32 _ => by simp [Value.marshalersAll]
  | Value.int64 _ => by simp [Value.marshalersAll]
  | Value.uint _ => by simp [Value.marshalersAll]
  | Value.uint8 _ => by simp [Value.marshalersAll]
  | Value.uint16 _ => by simp [Value.marshalersAll]
  | Value.uint32 _ => by simp [Value.marshalersAll]
  | Value.uint64 _ => by simp [Value.marshalersAll]
  | Value.uintptr _ => by simp [Value.marshalersAll]
  | Value.float32 _ => by simp [Value.marshalersAll]
  | Value.float64 _ => by simp [Value.marshalersAll]
  | Value.complex64 _ _ => by simp [Value.marshalersAll]
  | Value.complex128 _ _ => by simp [Value.marshalersAll]
  | Value.string _ => by simp [Value.marshalersAll]
  | Value.chan => by simp [Value.marshalersAll]
  | Value.func => by simp [Value.marshalersAll]
  | Value.unsafePointer => by simp [Value.marshalersAll]

theorem fieldsAll_of_forall (P : (W → Option Error × W) → Prop) (hP : ∀ f, P f) :
    (fields : List (Bool × Value W)) → Value.fieldsAll P fields
  | [] => by simp [Value.fieldsAll]
  | (_, v) :: rest => by
    rw [Value.fieldsAll]
    exact ⟨marshalersAll_of_forall P hP v, fieldsAll_of_forall P hP rest⟩

theorem elemsAll_of_forall (P : (W → Option Error × W) → Prop) (hP : ∀ f, P f) :
    (elems : List (Value W)) → Value.elemsAll P elems
  | [] => by simp [Value.elemsAll]
  | v :: rest => by
    rw [Value.elemsAll]
    exact ⟨marshalersAll_of_forall P hP v, elemsAll_of_forall P hP rest⟩

theorem entriesAll_of_forall (P : (W → Option Error × W) → Prop) (hP : ∀ f, P f) :
    (entries : List (Value W × Value W)) → Value.entriesAll P entries
  | [] => by simp [Value.entriesAll]
  | (k, v) :: rest => by
    rw [Value.entriesAll]
    exact ⟨marshalersAll_of_forall P hP k, marshalersAll_of_forall P hP v,
      entriesAll_of_forall P hP rest⟩

end

/-- The header step comes first in `Encode`: the call on an encoder is the
call on the encoder the header step leaves. -/
theorem Encode_after_hdrDo (ops : WBufferOps W H) (enc : Encoder W H) (v : Value W) :
    Encoder.Encode ops false enc v = Encoder.Encode ops false (enc.hdrDo ops) v := by
  cases v <;> simp [Encoder.Encode, Encoder.enter, hdrDo_idem]

theorem hdrDo_first (ops : WBufferOps W H) (enc : Encoder W H) (h : enc.hdr = false) :
    enc.hdrDo ops =
      { w := ops.call
          (WCall.WriteHeader
            (if enc.Header = ops.zeroHdr then ops.archHeader enc.w else enc.Header))
          (ops.call (WCall.WriteString magicHeaderSignature) enc.w),
        Header := if enc.Header = ops.zeroHdr then ops.archHeader enc.w else enc.Header,
        hdr := true } := by
  unfold Encoder.hdrDo Encoder.writeHeader Encoder.put
  rw [h]
  by_cases hz : enc.Header = ops.zeroHdr <;> simp [hz]

end HeaderOnce

theorem recorder_call_startsWith {H : Type} (zero arch : H) (builtin : Kind → Bool)
    (pre : List (WCall H)) (c : WCall H) (w : Recorder H)
    (hc : c.isWriteHeader = false) (hq : Recorder.startsWith pre w) :
    Recorder.startsWith pre ((recorderOps zero arch builtin).call c w) := by
  obtain ⟨tail, ht, hno⟩ := hq
  simp only [recorderOps]
  split
  · exact ⟨tail, ht, hno⟩
  · refine ⟨tail ++ [c], by simp [ht], ?_⟩
    intro x hx
    rcases List.mem_append.mp hx with h1 | h1
    · exact hno x h1
    · simp only [List.mem_singleton] at h1
      rw [h1]; exact hc

/-- Claim C13.  The header step of `Encode` runs `writeHeader` when the flag of
the `sync.Once` is not set, before anything else in the call: the calls
`WriteString` of the magic signature and `WriteHeader`, with the header of the
profile if `Encoder.Header` is the zero header and with `Encoder.Header`
unchanged otherwise.  Once the flag is set the step does nothing, and every
later `Encode` call, the recursive calls and the calls that return an error
included, leaves the flag set and `Encoder.Header` as it is.  On a recording
`WBuffer`, after any non-empty sequence of `Encode` calls on a fresh encoder
(with `MarshalBoost` methods that write no header themselves) the record is
the signature, the header, and then calls none of which is `WriteHeader`. -/
theorem C13_header_written_once {W H : Type} [DecidableEq H] (ops : WBufferOps W H)
    (enc : Encoder W H) :
    (enc.hdr = false →
      enc.hdrDo ops =
        { w := ops.call
            (WCall.WriteHeader
              (if enc.Header = ops.zeroHdr then ops.archHeader enc.w else enc.Header))
            (ops.call (WCall.WriteString magicHeaderSignature) enc.w),
          Header := if enc.Header = ops.zeroHdr then ops.archHeader enc.w else enc.Header,
          hdr := true }) ∧
    (∀ v, Encoder.Encode ops false enc v = Encoder.Encode ops false (enc.hdrDo ops) v) ∧
    (enc.hdr = true → enc.hdrDo ops = enc) ∧
    (∀ v sw out e', enc.hdr = true → Encoder.Encode ops sw enc v = some (out, e') →
      e'.hdr = true ∧ e'.Header = enc.Header) ∧
    (∀ vs e', enc.hdr = true → Encoder.encodeElems ops enc vs = some e' →
      e'.hdr = true ∧ e'.Header = enc.Header) ∧
    (∀ (zero arch h0 : H) (builtin : Kind → Bool) (v : Value (Recorder H))
      (rest : List (Value (Recorder H))) (e' : Encoder (Recorder H) H),
      Value.elemsAll (fun f => ∀ w,
        Recorder.startsWith [WCall.WriteString magicHeaderSignature,
          WCall.WriteHeader (if h0 = zero then arch else h0)] w →
        Recorder.startsWith [WCall.WriteString magicHeaderSignature,
          WCall.WriteHeader (if h0 = zero then arch else h0)] (f w).2) (v :: rest) →
      Encoder.encodeElems (recorderOps zero arch builtin) (freshEncoder h0) (v :: rest)
        = some e' →
      Recorder.startsWith [WCall.WriteString magicHeaderSignature,
        WCall.WriteHeader (if h0 = zero then arch else h0)] e'.w ∧
      e'.hdr = true ∧ e'.Header = (if h0 = zero then arch else h0)) := by
  refine ⟨hdrDo_first ops enc, Encode_after_hdrDo ops enc, hdrDo_of_done ops enc, ?_, ?_, ?_⟩
  · intro v sw out e' hh h
    exact (Encode_preserves ops (fun _ => True) (fun _ _ _ _ => trivial) v sw enc out e'
      (marshalersAll_of_forall _ (fun _ _ _ => trivial) v) hh trivial h).2
  · intro vs e' hh h
    exact (encodeElems_preserves ops (fun _ => True) (fun _ _ _ _ => trivial) vs enc e'
      (elemsAll_of_forall _ (fun _ _ _ => trivial) vs) hh trivial h).2
  · intro zero arch h0 builtin v rest e' hm h
    have hfirst := hdrDo_first (recorderOps zero arch builtin) (freshEncoder h0) rfl
    have hstart : ((freshEncoder h0).hdrDo (recorderOps zero arch builtin)) =
        { w := { calls := [WCall.WriteString magicHeaderSignature,
                   WCall.WriteHeader (if h0 = zero then arch else h0)], err := none },
          Header := if h0 = zero then arch else h0, hdr := true } := by
      rw [hfirst]
      simp [recorderOps, freshEncoder]
    have hq0 : Recorder.startsWith [WCall.WriteString magicHeaderSignature,
        WCall.WriteHeader (if h0 = zero then arch else h0)]
        ((freshEncoder h0).hdrDo (recorderOps zero arch builtin)).w := by
      rw [hstart]
      exact ⟨[], by simp, by simp⟩
    rw [Value.elemsAll] at hm
    rw [Encoder.encodeElems, Encode_after_hdrDo] at h
    cases hv : Encoder.Encode (recorderOps zero arch builtin) false
        ((freshEncoder h0).hdrDo (recorderOps zero arch builtin)) v with
    | none => rw [hv] at h; exact Option.noConfusion h
    | some p =>
      obtain ⟨o, e1⟩ := p
      rw [hv] at h
      dsimp only at h
      obtain ⟨a1, b1, c1⟩ := Encode_preserves (recorderOps zero arch builtin) _
        (recorder_call_startsWith zero arch builtin _) v false _ o e1 hm.1
        (hdrDo_hdr _ _) hq0 hv
      obtain ⟨a2, b2, c2⟩ := encodeElems_preserves (recorderOps zero arch builtin) _
        (recorder_call_startsWith zero arch builtin _) rest e1 e' hm.2 b1 a1 h
      refine ⟨a2, b2, ?_⟩
      rw [c2, c1, hstart]

/-- Three `Encode` calls on a fresh encoder whose `Header` the caller set to 5
(the zero header being 0, the header of the profile 17): the platform-width
integer 42, which is refused, the struct `animal{"pet", 4, 1}` and the boolean
true.  The header is written once, first, with the value 5. -/
theorem C13_header_written_once_witness :
    Value.elemsAll (fun f => ∀ w,
        Recorder.startsWith [WCall.WriteString magicHeaderSignature,
          WCall.WriteHeader (if (5 : Nat) = 0 then 17 else 5)] w →
        Recorder.startsWith [WCall.WriteString magicHeaderSignature,
          WCall.WriteHeader (if (5 : Nat) = 0 then 17 else 5)] (f w).2)
      [Value.int 42,
       Value.struct "animal"
         [(true, Value.string (bytes "pet")), (true, Value.int16 4), (true, Value.int8 1)],
       Value.bool true] ∧
    Encoder.encodeElems (recorderOps 0 17 (fun _ => true)) (freshEncoder 5)
        [Value.int 42,
         Value.struct "animal"
           [(true, Value.string (bytes "pet")), (true, Value.int16 4), (true, Value.int8 1)],
         Value.bool true]
      = some { w := { calls := [WCall.WriteString magicHeaderSignature, WCall.WriteHeader 5,
                                WCall.WriteTypeDescr "animal",
                                WCall.WriteString (bytes "pet"), WCall.WriteI16 4,
                                WCall.WriteI8 1, WCall.WriteBool true],
                      err := none },
               Header := 5, hdr := true } ∧
    Recorder.startsWith [WCall.WriteString magicHeaderSignature,
        WCall.WriteHeader (if (5 : Nat) = 0 then 17 else 5)]
      ({ calls := [WCall.WriteString magicHeaderSignature, WCall.WriteHeader 5,
                   WCall.WriteTypeDescr "animal", WCall.WriteString (bytes "pet"),
                   WCall.WriteI16 4, WCall.WriteI8 1, WCall.WriteBool true],
         err := none } : Recorder Nat) :=
  ⟨by simp [Value.elemsAll, Value.marshalersAll, Value.fieldsAll], by rfl,
    ((C13_header_written_once (recorderOps 0 17 (fun _ => true)) (freshEncoder 5)).2.2.2.2.2
      0 17 5 (fun _ => true) (Value.int 42)
      [Value.struct "animal"
         [(true, Value.string (bytes "pet")), (true, Value.int16 4), (true, Value.int8 1)],
       Value.bool true]
      { w := { calls := [WCall.WriteString magicHeaderSignature, WCall.WriteHeader 5,
                         WCall.WriteTypeDescr "animal", WCall.WriteString (bytes "pet"),
                         WCall.WriteI16 4, WCall.WriteI8 1, WCall.WriteBool true],
               err := none },
        Header := 5, hdr := true }
      (by simp [Value.elemsAll, Value.marshalersAll, Value.fieldsAll]) (by rfl)).1⟩

section BinaryPrefix

variable {D : Type}

/-- A source whose first byte is not a decimal digit: the length read of
`ReadString` latches an error (end of source, or the parse error of the
token), and the empty string is returned. -/
theorem ReadString_first_not_digit (r : RBuffer D) (c : Nat) (rest : List Nat)
    (he : r.err = none) (hs : r.r = some (c :: rest)) (hc : ¬ isDigit c) :
    ∃ r1, r.ReadString = some ([], r1) ∧ r1.err ≠ none := by
  rcases split_at_delim (c :: rest) with h | ⟨t, rest', hsrc, ht⟩
  · exact ⟨_, ReadString_no_delim r (c :: rest) he hs h, by simp⟩
  · have hbad : ¬ (t ≠ [] ∧ (∀ x ∈ t, isDigit x) ∧ decValue 0 t < 2 ^ 64) := by
      intro hP
      cases t with
      | nil => exact hP.1 rfl
      | cons x t' =>
        simp only [List.cons_append, List.cons.injEq] at hsrc
        exact hc (hsrc.1 ▸ hP.2.1 x (by simp))
    obtain ⟨v, cause, hp⟩ := (ParseUint_spec t).2 hbad
    have hU : r.ReadU64 = some (0,
        { r := some rest', err := some (Error.NumError "ParseUint" t cause),
          arch := r.arch, types := r.types }) := by
      rw [ReadU64_delim r t rest' he (by rw [hs, hsrc]) ht, hp]
    have hL : r.readLen = some (0,
        { r := some rest', err := some (Error.NumError "ParseUint" t cause),
          arch := r.arch, types := r.types }) := by
      unfold RBuffer.readLen
      split <;> simp [RBuffer.ReadU32, hU, toInt64]
    refine ⟨{ r := some rest', err := some (Error.NumError "ParseUint" t cause),
              arch := r.arch, types := r.types }, ?_, ?_⟩
    · simp [RBuffer.ReadString, RBuffer.ReadStringMem, hL]
    · simp

theorem ReadHeader_first_not_digit {H : Type} (zeroHdr : H)
    (unmarshal : RBuffer D → Option (H × RBuffer D)) (r : RBuffer D) (c : Nat)
    (rest : List Nat) (he : r.err = none) (hs : r.r = some (c :: rest))
    (hc : ¬ isDigit c) :
    ∃ r', r.ReadHeader zeroHdr unmarshal = some (zeroHdr, r') ∧
      r'.err = some Error.ErrNotBoost := by
  obtain ⟨r1, hrs, h1⟩ := ReadString_first_not_digit r c rest he hs hc
  have hsrc : ¬ (r.r = none) := by simp [hs]
  have hr : ¬ (r.err ≠ none) := by simp [he]
  exact ⟨{ r1 with err := some Error.ErrNotBoost }, by
    simp only [RBuffer.ReadHeader, if_neg hsrc, if_neg hr, hrs, if_pos h1], rfl⟩

end BinaryPrefix

/-- Claim C21 fails on the code.  For every header decoder and every
continuation, a stream that opens with the fixed-width length 22 (0x16 and
seven or three zero bytes) and the signature makes `ReadHeader` return the zero
header with `ErrNotBoost` latched, not `ErrInvalidHeader`: the length is read
as a decimal token, and the byte 0x16 is not a digit.  On the streams of the
tests, which hold no space byte, the whole source is consumed. -/
theorem C21_binary_length_gives_NotBoost {H : Type} (zeroHdr : H)
    (unmarshal : RBuffer Unit → Option (H × RBuffer Unit)) :
    (∀ tail, ∃ r', (NewRBuffer (some (binaryArchive64 tail))).ReadHeader zeroHdr unmarshal
        = some (zeroHdr, r') ∧ r'.err = some Error.ErrNotBoost) ∧
    (∀ tail, ∃ r', (NewRBuffer (some (binaryArchive32 tail))).ReadHeader zeroHdr unmarshal
        = some (zeroHdr, r') ∧ r'.err = some Error.ErrNotBoost) ∧
    (∀ tail ∈ [[], [0], [1, 0], [1, 0, 0]],
      (NewRBuffer (some (binaryArchive64 tail))).ReadHeader zeroHdr unmarshal
        = some (zeroHdr, { r := some [], err := some Error.ErrNotBoost, arch := 0,
                           types := [] }) ∧
      (NewRBuffer (some (binaryArchive32 tail))).ReadHeader zeroHdr unmarshal
        = some (zeroHdr, { r := some [], err := some Error.ErrNotBoost, arch := 0,
                           types := [] })) := by
  refine ⟨?_, ?_, ?_⟩
  · intro tail
    exact ReadHeader_first_not_digit zeroHdr unmarshal _ 22 _ rfl rfl (by decide)
  · intro tail
    exact ReadHeader_first_not_digit zeroHdr unmarshal _ 22 _ rfl rfl (by decide)
  · intro tail htail
    have h64 : delim ∉ binaryArchive64 tail := by
      simp only [List.mem_cons, List.mem_singleton, List.not_mem_nil, or_false] at htail
      rcases htail with h | h | h | h <;> subst h <;> decide
    have h32 : delim ∉ binaryArchive32 tail := by
      simp only [List.mem_cons, List.mem_singleton, List.not_mem_nil, or_false] at htail
      rcases htail with h | h | h | h <;> subst h <;> decide
    constructor
    · have hrs : ({ r := some (binaryArchive64 tail), err := none, arch := 0,
                      types := [] } : RBuffer Unit).ReadString
          = some ([], { r := some [], err := some Error.ErrUnexpectedEOF, arch := 0,
                        types := [] }) :=
        ReadString_no_delim _ (binaryArchive64 tail) rfl rfl h64
      simp [RBuffer.ReadHeader, NewRBuffer, hrs]
    · have hrs : ({ r := some (binaryArchive32 tail), err := none, arch := 0,
                      types := [] } : RBuffer Unit).ReadString
          = some ([], { r := some [], err := some Error.ErrUnexpectedEOF, arch := 0,
                        types := [] }) :=
        ReadString_no_delim _ (binaryArchive32 tail) rfl rfl h32
      simp [RBuffer.ReadHeader, NewRBuffer, hrs]

section UnguardedLength

variable {D : Type}

theorem skipDelimiter_of_source (r : RBuffer D) (src : List Nat) (hs : r.r = some src) :
    ∃ r2, r.skipDelimiter = some r2 := by
  unfold RBuffer.skipDelimiter
  rw [hs]
  cases src with
  | nil => exact ⟨_, rfl⟩
  | cons b rest =>
    dsimp only
    split
    · exact ⟨_, rfl⟩
    · exact ⟨_, rfl⟩

theorem readFull_length (src : List Nat) (n : Nat) : (readFull src n).1.length ≤ n := by
  simp [readFull, List.length_take]

/-- The string `ReadString` returns for a length it has decoded and the runtime
grants: as many bytes as the length says, whatever the source still holds. -/
theorem ReadStringMem_length_of_readLen (mem : Nat) (r r1 : RBuffer D) (n : Nat)
    (src : List Nat) (hL : r.readLen = some ((n : Int), r1)) (h1 : r1.err = none)
    (hs : r1.r = some src) (hmax : n ≤ maxAlloc) (hmem : n ≤ mem) :
    ∃ s r', r.ReadStringMem mem = some (s, r') ∧ s.length = n := by
  by_cases hn : n = 0
  · subst hn
    exact ⟨[], r1, by simp [RBuffer.ReadStringMem, hL], rfl⟩
  · have hn0 : ¬ ((n : Int) = 0 ∨ r1.err ≠ none) := by
      intro h
      rcases h with h | h
      · omega
      · exact h h1
    have hneg : ¬ ((n : Int) < 0 ∨ (maxAlloc : Int) < (n : Int) ∨ (mem : Int) < (n : Int)) := by
      omega
    obtain ⟨r2, hsk⟩ := skipDelimiter_of_source
      ({ r1 with r := some (readFull src n).2.2, err := (readFull src n).2.1 }) _ rfl
    refine ⟨(readFull src n).1 ++ List.replicate (n - (readFull src n).1.length) 0, r2, ?_, ?_⟩
    · simp only [RBuffer.ReadStringMem, hL, if_neg hn0, if_neg hneg, hs, Int.toNat_ofNat, hsk]
    · have := readFull_length src n
      simp only [List.length_append, List.length_replicate]
      omega

theorem readFull_short (avail : List Nat) (n : Nat) (h : avail.length < n) :
    readFull avail n
      = (avail, some (if avail.length > 0 then Error.ErrUnexpectedEOF else Error.EOF), []) := by
  have ht : avail.take n = avail := List.take_of_length_le (Nat.le_of_lt h)
  have hd : avail.drop n = [] := List.drop_of_length_le (Nat.le_of_lt h)
  have hge : ¬ (avail.length ≥ n) := by omega
  simp only [readFull, ht, hd, if_neg hge]
  by_cases hp : avail.length > 0
  · simp only [if_pos hp]
  · simp only [if_neg hp]

end UnguardedLength

theorem decimal_maxUint64 : decimal 18446744073709551615 = bytes "18446744073709551615" := by
  simp [decimal, bytes]

/-- Claim C22, as the code has it.  `ReadString` has no guard on the length it
decodes.  On a reader with no latched error, with the digits of `v` and one
space at the front of the source, and a runtime that can still grant `mem`
bytes: if `v` is at most `maxAlloc` and `mem`, and the profile is not 32 or `v`
is below 2^32, the string returned, which is the buffer `raw`, has exactly `v`
bytes; if the profile is not 32 and `v` is below 2^63 but above `maxAlloc` or
`mem`, the length is read with no error latched and `make` does not return; if
the profile is not 32 and `v` is from 2^63 to 2^64 - 1, the length read is a
negative, non-zero `int` with no error latched, and `ReadString` does not
return: `make([]byte, n)` panics. -/
theorem C22_ReadString_unguarded_length {D : Type} (mem : Nat) (r : RBuffer D) (v : Nat)
    (rest : List Nat) (he : r.err = none)
    (hs : r.r = some (decimal v ++ delim :: rest)) :
    (v ≤ maxAlloc → v ≤ mem → (r.arch ≠ 32 ∨ v < 2 ^ 32) →
      ∃ s r', r.ReadStringMem mem = some (s, r') ∧ s.length = v) ∧
    (r.arch ≠ 32 → v < 2 ^ 63 → (maxAlloc < v ∨ mem < v) →
      r.readLen = some ((v : Int), { r with r := some rest }) ∧ r.ReadStringMem mem = none) ∧
    (r.arch ≠ 32 → 2 ^ 63 ≤ v → v < 2 ^ 64 →
      ∃ n r1, r.readLen = some (n, r1) ∧ n < 0 ∧ n ≠ 0 ∧ r1.err = none ∧
        r1.r = some rest ∧ r.ReadStringMem mem = none ∧ r.ReadString = none) := by
  refine ⟨?_, ?_, ?_⟩
  · intro hmax hmem hp
    have hc : (r.arch ≠ 32 ∧ v < 2 ^ 63) ∨ (r.arch = 32 ∧ v < 2 ^ 32) := by
      rw [maxAlloc_eq] at hmax
      by_cases h32 : r.arch = 32
      · rcases hp with hp | hp
        · exact absurd h32 hp
        · exact Or.inr ⟨h32, hp⟩
      · refine Or.inl ⟨h32, ?_⟩
        norm_num
        omega
    have hL := readLen_decimal r v rest he hs hc
    exact ReadStringMem_length_of_readLen mem r _ v rest hL he rfl hmax hmem
  · intro ha hv hbig
    have hL := readLen_decimal r v rest he hs (Or.inl ⟨ha, hv⟩)
    refine ⟨hL, ReadStringMem_not_granted mem r _ _ hL he ?_⟩
    rcases hbig with h | h
    · exact Or.inr (Or.inl (by omega))
    · exact Or.inr (Or.inr (by omega))
  · intro ha hlo hhi
    have hU := ReadU64_decimal r v rest hhi he hs
    have hL : r.readLen = some (toInt64 v, { r with r := some rest }) := by
      unfold RBuffer.readLen
      rw [if_neg ha, hU]
      rfl
    have hneg : toInt64 v < 0 := by
      have h64 : v % 2 ^ 64 = v := Nat.mod_eq_of_lt hhi
      rw [toInt64, h64]
      norm_num at hlo hhi ⊢
      split <;> omega
    exact ⟨toInt64 v, { r with r := some rest }, hL, hneg, by omega, he, rfl,
      ReadStringMem_not_granted mem r _ _ hL he (Or.inl hneg),
      ReadStringMem_not_granted maxAlloc r _ _ hL he (Or.inl hneg)⟩

/-- The length tokens "18446744073709551615 ", "4611686018427387904 " and "5 "
read by fresh readers, on a runtime with 64 bytes to grant. -/
theorem C22_ReadString_unguarded_length_witness :
    ((NewRBuffer (some (bytes "18446744073709551615 abc")) : RBuffer Unit).err = none ∧
      (NewRBuffer (some (bytes "18446744073709551615 abc")) : RBuffer Unit).arch ≠ 32 ∧
      (NewRBuffer (some (bytes "18446744073709551615 abc")) : RBuffer Unit).r
        = some (decimal 18446744073709551615 ++ delim :: bytes "abc") ∧
      (2 ^ 63 ≤ 18446744073709551615 ∧ 18446744073709551615 < 2 ^ 64) ∧
      (NewRBuffer (some (bytes "18446744073709551615 abc")) : RBuffer Unit).readLen
        = some (-1, NewRBuffer (some (bytes "abc"))) ∧
      ∃ n r1, (NewRBuffer (some (bytes "18446744073709551615 abc")) : RBuffer Unit).readLen
          = some (n, r1) ∧ n < 0 ∧ n ≠ 0 ∧ r1.err = none ∧ r1.r = some (bytes "abc") ∧
        (NewRBuffer (some (bytes "18446744073709551615 abc")) : RBuffer Unit).ReadStringMem 64
          = none ∧
        (NewRBuffer (some (bytes "18446744073709551615 abc")) : RBuffer Unit).ReadString
          = none) ∧
    ((NewRBuffer (some (bytes "4611686018427387904 abc")) : RBuffer Unit).r
        = some (decimal 4611686018427387904 ++ delim :: bytes "abc") ∧
      4611686018427387904 < 2 ^ 63 ∧ maxAlloc < 4611686018427387904 ∧
      (NewRBuffer (some (bytes "4611686018427387904 abc")) : RBuffer Unit).readLen
        = some (((4611686018427387904 : Nat) : Int), NewRBuffer (some (bytes "abc"))) ∧
      (NewRBuffer (some (bytes "4611686018427387904 abc")) : RBuffer Unit).ReadStringMem 64
        = none) ∧
    ((NewRBuffer (some (bytes "5 hello ")) : RBuffer Unit).r
        = some (decimal 5 ++ delim :: bytes "hello ") ∧ 5 ≤ maxAlloc ∧ 5 ≤ 64 ∧
      ∃ s r', (NewRBuffer (some (bytes "5 hello ")) : RBuffer Unit).ReadStringMem 64
          = some (s, r') ∧ s.length = 5) :=
  ⟨⟨rfl, by decide, by rw [decimal_maxUint64]; decide, by decide, by decide,
      (C22_ReadString_unguarded_length 64
        (NewRBuffer (some (bytes "18446744073709551615 abc")) : RBuffer Unit)
        18446744073709551615 (bytes "abc") rfl
        (by rw [decimal_maxUint64]; decide)).2.2 (by decide) (by decide) (by decide)⟩,
    ⟨by rw [decimal_4611686018427387904]; decide, by decide,
      by rw [maxAlloc_eq]; decide,
      (C22_ReadString_unguarded_length 64
        (NewRBuffer (some (bytes "4611686018427387904 abc")) : RBuffer Unit)
        4611686018427387904 (bytes "abc") rfl
        (by rw [decimal_4611686018427387904]; decide)).2.1 (by decide) (by decide)
        (Or.inl (by rw [maxAlloc_eq]; decide))⟩,
    ⟨by rw [decimal_5]; decide, by rw [maxAlloc_eq]; decide, by decide,
      (C22_ReadString_unguarded_length 64 (NewRBuffer (some (bytes "5 hello ")) : RBuffer Unit)
        5 (bytes "hello ") rfl (by rw [decimal_5]; decide)).1
        (by rw [maxAlloc_eq]; decide) (by decide) (Or.inl (by decide))⟩⟩

/-- Claim C22 fails as stated, in two ways.  Under the 32-bit profile the
length token "4294967296 ", whose value is below 2^63, is narrowed to 0: no
buffer of 2^32 bytes is allocated and the empty string is returned.  Under the
profile of `NewRBuffer` the length token "4611686018427387904 ", whose value
2^62 is below 2^63, is read with no error and no buffer of 2^62 bytes is
allocated: `make` panics and `ReadString` does not return. -/
theorem C22_counterexample :
    (4294967296 < 2 ^ 63 ∧
      ({ r := some (bytes "4294967296 abc"), err := none, arch := 32, types := [] } :
          RBuffer Unit).ReadString
        = some ([], { r := some (bytes "abc"), err := none, arch := 32, types := [] }) ∧
      ([] : List Nat).length ≠ 4294967296) ∧
    (4611686018427387904 < 2 ^ 63 ∧
      (NewRBuffer (some (bytes "4611686018427387904 abc")) : RBuffer Unit).readLen
        = some (4611686018427387904, NewRBuffer (some (bytes "abc"))) ∧
      (NewRBuffer (some (bytes "4611686018427387904 abc")) : RBuffer Unit).ReadString
        = none) := by
  refine ⟨⟨by norm_num, ?_, by simp⟩, ⟨by norm_num, by decide, ?_⟩⟩
  · exact ReadString_wrap32 _ (bytes "abc") rfl rfl (by rw [decimal_4294967296]; decide)
  · exact ReadStringMem_not_granted maxAlloc _ (NewRBuffer (some (bytes "abc")))
      4611686018427387904 (by decide) rfl (Or.inr (Or.inl (by rw [maxAlloc_eq]; norm_num)))

/-- Claim C23, as the code has it.  `ReadString` after a positive length `n`
has been read with no error, `n` being a length the runtime can allocate (at
most `maxAlloc` and at most the `mem` bytes it can still grant).  If the source
then holds `n` payload bytes followed by a byte that is not a space, the
payload is returned, that byte is consumed and `ErrNotADelimiter` is latched.
If the source holds fewer than `n` bytes, the string returned still has `n`
bytes, the bytes that were available followed by zero bytes, the source is
exhausted, and the error latched is the one `io.ReadFull` returned:
`io.ErrUnexpectedEOF` when at least one byte was available, `io.EOF` when none
was. -/
theorem C23_ReadString_bad_delimiter_and_short_read {D : Type} (mem : Nat)
    (r r1 : RBuffer D) (n : Nat)
    (hL : r.readLen = some ((n : Int), r1)) (h1 : r1.err = none) (hn : 0 < n)
    (hmax : n ≤ maxAlloc) (hmem : n ≤ mem) :
    (∀ payload b rest, r1.r = some (payload ++ b :: rest) → payload.length = n → b ≠ delim →
      r.ReadStringMem mem
        = some (payload, { r1 with r := some rest, err := some Error.ErrNotADelimiter })) ∧
    (∀ avail, r1.r = some avail → avail.length < n →
      r.ReadStringMem mem
        = some (avail ++ List.replicate (n - avail.length) 0,
            { r1 with r := some [],
                      err := some (if avail.length > 0 then Error.ErrUnexpectedEOF
                                   else Error.EOF) }) ∧
      (avail ++ List.replicate (n - avail.length) 0).length = n) := by
  have hn0 : ¬ ((n : Int) = 0 ∨ r1.err ≠ none) := by
    intro h
    rcases h with h | h
    · omega
    · exact h h1
  have hneg : ¬ ((n : Int) < 0 ∨ (maxAlloc : Int) < (n : Int) ∨ (mem : Int) < (n : Int)) := by
    omega
  constructor
  · intro payload b rest hs hlen hb
    subst hlen
    simp only [RBuffer.ReadStringMem, hL, if_neg hn0, if_neg hneg, hs, Int.toNat_ofNat,
      readFull_exact, List.length_append]
    simp [RBuffer.skipDelimiter, hb]
  · intro avail hs hlt
    constructor
    · simp only [RBuffer.ReadStringMem, hL, if_neg hn0, if_neg hneg, hs, Int.toNat_ofNat,
        readFull_short avail n hlt]
      simp [RBuffer.skipDelimiter]
    · simp only [List.length_append, List.length_replicate]
      omega

/-- The streams "2 abX7 " (the byte after the payload "ab" is "X"), "5 hel"
(three of five payload bytes) and "5 " (no payload byte), read by fresh
readers. -/
theorem C23_ReadString_bad_delimiter_and_short_read_witness :
    ((NewRBuffer (some (bytes "2 abX7 ")) : RBuffer Unit).readLen
        = some (((2 : Nat) : Int), NewRBuffer (some (bytes "abX7 "))) ∧
      (NewRBuffer (some (bytes "abX7 ")) : RBuffer Unit).err = none ∧ 0 < 2 ∧
      2 ≤ maxAlloc ∧
      (NewRBuffer (some (bytes "abX7 ")) : RBuffer Unit).r
        = some (bytes "ab" ++ 88 :: bytes "7 ") ∧
      (bytes "ab").length = 2 ∧ 88 ≠ delim ∧
      (NewRBuffer (some (bytes "2 abX7 ")) : RBuffer Unit).ReadString
        = some (bytes "ab",
            { r := some (bytes "7 "), err := some Error.ErrNotADelimiter,
              arch := 0, types := [] })) ∧
    ((NewRBuffer (some (bytes "5 hel")) : RBuffer Unit).readLen
        = some (((5 : Nat) : Int), NewRBuffer (some (bytes "hel"))) ∧
      5 ≤ maxAlloc ∧ (bytes "hel").length < 5 ∧
      (NewRBuffer (some (bytes "5 hel")) : RBuffer Unit).ReadString
        = some (bytes "hel" ++ [0, 0],
            { r := some [], err := some Error.ErrUnexpectedEOF, arch := 0, types := [] })) ∧
    ((NewRBuffer (some (bytes "5 ")) : RBuffer Unit).readLen
        = some (((5 : Nat) : Int), NewRBuffer (some [])) ∧
      (NewRBuffer (some (bytes "5 ")) : RBuffer Unit).ReadStringMem 8
        = some ([0, 0, 0, 0, 0],
            { r := some [], err := some Error.EOF, arch := 0, types := [] })) :=
  ⟨⟨by decide, rfl, by decide, by rw [maxAlloc_eq]; decide, by decide, by decide, by decide,
      (C23_ReadString_bad_delimiter_and_short_read maxAlloc
        (NewRBuffer (some (bytes "2 abX7 ")) : RBuffer Unit)
        (NewRBuffer (some (bytes "abX7 "))) 2 (by decide) rfl (by decide)
        (by rw [maxAlloc_eq]; decide) (by rw [maxAlloc_eq]; decide)).1
        (bytes "ab") 88 (bytes "7 ") (by decide) (by decide) (by decide)⟩,
    ⟨by decide, by rw [maxAlloc_eq]; decide, by decide,
      ((C23_ReadString_bad_delimiter_and_short_read maxAlloc
        (NewRBuffer (some (bytes "5 hel")) : RBuffer Unit)
        (NewRBuffer (some (bytes "hel"))) 5 (by decide) rfl (by decide)
        (by rw [maxAlloc_eq]; decide) (by rw [maxAlloc_eq]; decide)).2
        (bytes "hel") rfl (by decide)).1⟩,
    ⟨by decide,
      ((C23_ReadString_bad_delimiter_and_short_read 8
        (NewRBuffer (some (bytes "5 ")) : RBuffer Unit)
        (NewRBuffer (some [])) 5 (by decide) rfl (by decide)
        (by rw [maxAlloc_eq]; decide) (by decide)).2
        [] rfl (by decide)).1⟩⟩

/-- Claim C23 fails as stated: on the 23 bytes "4611686018427387904 abc" the
length 2^62 is read with no error and the source ends inside the payload, three
bytes into it, yet no short-read error is latched: `make` panics and
`ReadString` does not return. -/
theorem C23_counterexample :
    (NewRBuffer (some (bytes "4611686018427387904 abc")) : RBuffer Unit).readLen
      = some (4611686018427387904, NewRBuffer (some (bytes "abc"))) ∧
    (NewRBuffer (some (bytes "abc")) : RBuffer Unit).err = none ∧
    (0 < (bytes "abc").length ∧ (bytes "abc").length < 4611686018427387904) ∧
    (NewRBuffer (some (bytes "4611686018427387904 abc")) : RBuffer Unit).ReadString = none ∧
    ∀ mem, (NewRBuffer (some (bytes "4611686018427387904 abc")) : RBuffer Unit).ReadStringMem mem
      = none := by
  have hL : (NewRBuffer (some (bytes "4611686018427387904 abc")) : RBuffer Unit).readLen
      = some (4611686018427387904, NewRBuffer (some (bytes "abc"))) := by decide
  refine ⟨hL, rfl, by decide, ?_, ?_⟩
  · exact ReadStringMem_not_granted maxAlloc _ _ _ hL rfl
      (Or.inr (Or.inl (by rw [maxAlloc_eq]; norm_num)))
  · intro mem
    exact ReadStringMem_not_granted mem _ _ _ hL rfl
      (Or.inr (Or.inl (by rw [maxAlloc_eq]; norm_num)))

/-- A pointer to a value whose type has the method `MarshalBoost` is a
`Marshaler` as well: `Encode` calls the method and makes no call of its own. -/
theorem Encode_pointer_to_marshaler {W H : Type} [DecidableEq H]
    (ops : WBufferOps W H) (enc : Encoder W H) (f : W → Option Error × W) (v : Value W)
    (hhdr : ops.err (enc.hdrDo ops).w = none)
    (hk : ¬ (v.kind = Kind.Pointer ∨ v.kind = Kind.Interface)) :
    (Value.pointer (Value.marshaler f v)).isMarshaler = true ∧
    Encoder.Encode ops false enc (Value.pointer (Value.marshaler f v))
      = some ((f (enc.hdrDo ops).w).1,
          { enc.hdrDo ops with w := (f (enc.hdrDo ops).w).2 }) := by
  have hmb : (Value.pointer (Value.marshaler f v)).marshalBoost = some f := by
    simp only [Value.marshalBoost, if_neg hk]
  refine ⟨by simp [Value.isMarshaler, hmb], ?_⟩
  rw [Encoder.Encode]
  simp only [Bool.false_eq_true, if_false]
  rw [enter_ok ops enc _ hhdr, hmb]

/-- The pointer `&manimal{"pet", 4, 1}` handed to a fresh encoder: the calls
after the header are those of `MarshalBoost`, and the result is nil. -/
theorem Encode_pointer_to_manimal :
    Encoder.Encode (recorderOps 0 17 (fun _ => true)) false (freshEncoder 0)
        (Value.pointer (Value.marshaler (manimalMarshalBoost (bytes "pet") 4 1)
          (Value.struct "manimal"
            [(false, Value.string (bytes "pet")), (false, Value.int16 4),
             (false, Value.int8 1)])))
      = some (none,
          { w := { calls := [WCall.WriteString magicHeaderSignature, WCall.WriteHeader 17,
                             WCall.WriteTypeDescr "animal", WCall.WriteString (bytes "pet"),
                             WCall.WriteI16 4, WCall.WriteI8 1],
                   err := none },
            Header := 17, hdr := true }) :=
  (Encode_pointer_to_marshaler (recorderOps 0 17 (fun _ => true)) (freshEncoder 0)
    (manimalMarshalBoost (bytes "pet") 4 1)
    (Value.struct "manimal"
      [(false, Value.string (bytes "pet")), (false, Value.int16 4), (false, Value.int8 1)])
    (by decide) (by decide)).2

/-- A pointer to a pointer, and a pointer to an interface variable, are not
`Marshaler`s even when the inner pointer is one. -/
theorem pointer_to_pointer_not_marshaler {W : Type} (f : W → Option Error × W)
    (x : Value W) :
    (Value.pointer (Value.marshaler f (Value.pointer x))).isMarshaler = false ∧
    (Value.pointer (Value.pointer x)).isMarshaler = false ∧
    (Value.pointer (Value.iface x)).isMarshaler = false := by
  refine ⟨?_, ?_, ?_⟩ <;> simp [Value.isMarshaler, Value.marshalBoost, Value.kind]

section AnyReader

variable {D : Type}

/-- On the calls of a reader like `bytes.Reader` the loop over the calls is the
loop over the bytes. -/
theorem readUntilDelimiterCalls_ofBytes (src : List Nat) (ret : GoString) :
    readUntilDelimiterCalls (ReadResult.ofBytes src) ret
      = ((readUntilDelimiterLoop src ret).1, (readUntilDelimiterLoop src ret).2.1,
          ReadResult.ofBytes (readUntilDelimiterLoop src ret).2.2) := by
  induction src generalizing ret with
  | nil => rfl
  | cons b rest ih =>
    by_cases hb : b = delim
    · simp [ReadResult.ofBytes, readUntilDelimiterCalls, readUntilDelimiterLoop, hb]
    · have h := ih (ret ++ [b])
      simp only [ReadResult.ofBytes] at h
      simp [ReadResult.ofBytes, readUntilDelimiterCalls, readUntilDelimiterLoop, hb, h]

/-- On a reader like `bytes.Reader` the read over the calls is `RBuffer.ReadU64`. -/
theorem ReadU64Of_ofBytes (r : RBuffer D) (src : List Nat) (he : r.err = none)
    (hs : r.r = some src) :
    ∃ rest, (ReadU64Of (ReadResult.ofBytes src)).2.2 = ReadResult.ofBytes rest ∧
      r.ReadU64 = some ((ReadU64Of (ReadResult.ofBytes src)).1,
        { r with r := some rest, err := (ReadU64Of (ReadResult.ofBytes src)).2.1 }) := by
  refine ⟨(readUntilDelimiterLoop src []).2.2, ?_, ?_⟩
  · simp only [ReadU64Of, readUntilDelimiterOf, readUntilDelimiterCalls_ofBytes]
    split
    · split <;> rfl
    · split
      · exact absurd rfl ‹_›
      · split <;> rfl
  · simp only [ReadU64Of, readUntilDelimiterOf, readUntilDelimiterCalls_ofBytes,
      RBuffer.ReadU64, RBuffer.readUntilDelimiter, he, hs]
    by_cases h0 : (readUntilDelimiterLoop src []).2.1 = 0
    · simp [h0]
    · simp only [h0, if_false, ne_eq, not_true_eq_false, he]
      cases hp : ParseUint (readUntilDelimiterLoop src []).1 with
      | mk v e =>
        cases e with
        | none => simp [he]
        | some e => simp

end AnyReader

/-- Claim C7 fails on the code.  A reader that holds the two bytes "12" and, as
the contract of `io.Reader` allows, returns the last byte together with
`io.EOF`: the loop of `readUntilDelimiter` leaves on the error before it looks
at the byte, with `n = 1`, so the token is "1" and `ReadU64`, `ReadI64` and
`ReadF64` return 1 with no error latched, not 0 with `io.ErrUnexpectedEOF`.
The same bytes from a reader that reports the end by a separate call give 0
and `io.ErrUnexpectedEOF`. -/
theorem C7_byte_returned_with_EOF_is_dropped :
    readUntilDelimiterCalls
        [{ byte := some 49, err := none }, { byte := some 50, err := some Error.EOF }] []
      = ([49], 1, []) ∧
    ReadU64Of [{ byte := some 49, err := none }, { byte := some 50, err := some Error.EOF }]
      = (1, none, []) ∧
    ReadI64Of [{ byte := some 49, err := none }, { byte := some 50, err := some Error.EOF }]
      = (1, none, []) ∧
    ReadF64Of intFloatOps
        [{ byte := some 49, err := none }, { byte := some 50, err := some Error.EOF }]
      = (1, none, []) ∧
    ReadU64Of [{ byte := some 49, err := none }, { byte := some 50, err := none },
               { byte := none, err := some Error.EOF }]
      = (0, some Error.ErrUnexpectedEOF, []) ∧
    ReadU64Of (ReadResult.ofBytes (bytes "12")) = (0, some Error.ErrUnexpectedEOF, []) ∧
    (NewRBuffer (some (bytes "12")) : RBuffer Unit).ReadU64
      = some (0, { r := some [], err := some Error.ErrUnexpectedEOF, arch := 0,
                   types := [] }) := by
  refine ⟨by decide, by decide, by decide, by decide, by decide, by decide, by decide⟩

end Txtser
